import Mathlib

/-!
# OpenARC `libopenarc/arc.c`: a shallow embedding

The definitions below follow `src/libopenarc/arc.c` function by function and
keep its names.  Conventions of the embedding:

* a C string is the list of its bytes before the terminating NUL (`CStr`);
  a `NULL` string pointer is `none`;
* `u_int` values are naturals reduced modulo `2 ^ 32`, `unsigned long` values
  modulo `2 ^ 64` (LP64);
* a failed `assert`, a dereference of `NULL` and an index outside the bucket
  table of a tag-set end the run in a `Fault`; they are not statuses the
  caller can observe;
* `malloc` and `realloc` are taken to succeed; the cells they hand out
  uninitialised hold arbitrary values, supplied by a parameter;
* the `sets` array of `arc_eoh` lives in a flat memory of `u_int` cells: the
  accesses the source makes past the end of the block are carried out on the
  cells that follow it.
-/

namespace OpenARC

/-! ## Bytes, strings and `<ctype.h>` in the C locale -/

/-- The bytes of a C string, terminator excluded. -/
abbrev CStr := List Nat

/-- The bytes of a string literal of the source. -/
def cstr (s : String) : CStr := s.toList.map Char.toNat

def isascii (c : Nat) : Bool := decide (c < 128)

def isprint (c : Nat) : Bool := decide (32 ≤ c) && decide (c ≤ 126)

def isspace (c : Nat) : Bool := c == 32 || (decide (9 ≤ c) && decide (c ≤ 13))

def isdigit (c : Nat) : Bool := decide (48 ≤ c) && decide (c ≤ 57)

def isupper (c : Nat) : Bool := decide (65 ≤ c) && decide (c ≤ 90)

def islower (c : Nat) : Bool := decide (97 ≤ c) && decide (c ≤ 122)

def isalnum (c : Nat) : Bool := isdigit c || isupper c || islower c

def tolower (c : Nat) : Nat := if isupper c then c + 32 else c

/-- The test `strcasecmp(a, b) == 0`. -/
def strcasecmp_eq (a b : CStr) : Bool := a.map tolower == b.map tolower

/-- The test `strcmp(a, b) == 0`. -/
def strcmp_eq (a b : CStr) : Bool := a == b

/-- The byte `s[0]` of a C string: the terminator when the string is empty. -/
def first_byte (s : CStr) : Nat := s.headD 0

def UINT_MOD : Nat := 2 ^ 32

def ULONG_MAX : Nat := 2 ^ 64 - 1

/-- The value of a run of decimal digits. -/
def digits_value (ds : CStr) : Nat := ds.foldl (fun a d => a * 10 + (d - 48)) 0

/-- The scan shared by `strtoul`, `strtoull` and `atoi` in base 10: leading
white space, an optional sign, then the longest run of digits.  Returns
whether a minus sign was read, the digits, and the unread rest; with no digit
nothing is consumed and the rest is the whole input. -/
def scan_number (s : CStr) : Bool × CStr × CStr :=
  let s1 := s.dropWhile isspace
  let neg := s1.headD 0 == 45
  let s2 := if s1.headD 0 == 45 || s1.headD 0 == 43 then s1.tail else s1
  let ds := s2.takeWhile isdigit
  if ds.isEmpty then (false, [], s) else (neg, ds, s2.dropWhile isdigit)

/-- The library call `strtoull(s, &end, 10)` on LP64: the value, the string
left at `end`, and whether `errno` was set to `ERANGE`. -/
def strtoull (s : CStr) : Nat × CStr × Bool :=
  match scan_number s with
  | (neg, ds, rest) =>
    let v := digits_value ds
    if v > ULONG_MAX then (ULONG_MAX, rest, true)
    else if neg then ((2 ^ 64 - v) % 2 ^ 64, rest, false)
    else (v, rest, false)

/-- The library call `strtoul(s, NULL, 10)` on LP64. -/
def strtoul (s : CStr) : Nat := (strtoull s).1

/-- The library call `atoi(s)`, as the `u_int` it is converted to when the
source compares it with an unsigned value. -/
def atoi_u (s : CStr) : Nat :=
  match scan_number s with
  | (neg, ds, _) =>
    let v := digits_value ds
    if neg then (2 ^ 64 - min v (2 ^ 63)) % UINT_MOD
    else min v (2 ^ 63 - 1) % UINT_MOD

/-! ## Status codes and faults -/

/-- Modelled from the spec: the `ARC_STAT_*` constants of `arc.h`, as the
spec lists the statuses the core operations return. -/
inductive ARC_STAT where
  | OK | SYNTAX | INVALID | NORESOURCE | INTERNAL | BADSIG | KEYFAIL | NOKEY
  deriving DecidableEq, Repr

/-- Modelled from the spec: the `ARC_CHAIN_*` constants of `arc.h`. -/
inductive ARC_CHAIN where
  | UNKNOWN | NONE | FAIL | PASS
  deriving DecidableEq, Repr

/-- The values of `arc_sigerror` the source distinguishes: the value left by
the `memset` of `arc_message`, and `ARC_SIGERROR_DUPINSTANCE`. -/
inductive ARC_SIGERROR where
  | ZEROED | DUPINSTANCE
  deriving DecidableEq, Repr

/-- The ways a run ends without returning to the caller: a failed `assert`,
a dereference of `NULL`, an index outside the bucket table, and, for the one
loop of the source that has no exit condition, the end of the passes granted
to it. -/
inductive Fault where
  | assertion
  | nullDeref
  | outOfBounds
  | fuel
  deriving DecidableEq, Repr

deriving instance DecidableEq for Except

/-! ## Tag-sets -/

/-- The set types that `arc_process_set` admits by its first assertion. -/
inductive arc_kvsettype_t where
  | SEAL | SIGNATURE | AR | KEY
  deriving DecidableEq, Repr

/-- One `ARC_PLIST` entry; the two pointers into the set's buffer are kept as
the strings they point to. -/
structure ARC_PLIST where
  plist_param : CStr
  plist_value : CStr
  deriving DecidableEq, Repr

/-- Modelled from the spec: the size of the bucket table `set_plist`, declared
in `arc-types.h`; the table is keyed by the first byte of the name offset by
32, one bucket per printable ASCII byte (32 .. 126). -/
def NPRINTABLE : Nat := 95

/-- An `ARC_KVSET`: `set_plist` is the table of buckets, each bucket the chain
from its head along `plist_next`. -/
structure ARC_KVSET where
  set_bad : Bool
  set_type : arc_kvsettype_t
  set_plist : List (List ARC_PLIST)
  deriving DecidableEq, Repr

/-- The set as `arc_process_set` initialises it. -/
def ARC_KVSET.init (type : arc_kvsettype_t) : ARC_KVSET :=
  { set_bad := false, set_type := type, set_plist := List.replicate NPRINTABLE [] }

/-- The bucket `set->set_plist[ARC_PHASH(c)]`, with `ARC_PHASH(x) = x - 32`;
`none` when the index falls outside the table. -/
def plist_bucket (kv : ARC_KVSET) (c : Nat) : Option (List ARC_PLIST) :=
  if c < 32 then none else kv.set_plist[c - 32]?

/-- Source `arc_param_get`: the value of the first entry of the bucket of
`param[0]` whose name is `strcmp`-equal to `param`; `none` is `NULL`. -/
def arc_param_get (kv : ARC_KVSET) (param : CStr) : Except Fault (Option CStr) :=
  match plist_bucket kv (first_byte param) with
  | none => .error .outOfBounds
  | some bucket =>
    .ok ((bucket.find? (fun pl => strcmp_eq pl.plist_param param)).map (·.plist_value))

/-- The update of the first entry of a bucket that satisfies `p`. -/
def bucket_set_value (p : ARC_PLIST → Bool) (value : CStr) : List ARC_PLIST → List ARC_PLIST
  | [] => []
  | pl :: rest =>
    if p pl then { pl with plist_value := value } :: rest
    else pl :: bucket_set_value p value rest

/-- Source `arc_add_plist`: the returned integer is 0 on success and -1 on
failure (here `false`), together with the set as it is left. -/
def arc_add_plist (kv : ARC_KVSET) (param value : CStr) (force : Bool) : Bool × ARC_KVSET :=
  if !isprint (first_byte param) then (false, kv)
  else
    let n := first_byte param - 32
    let bucket := kv.set_plist.getD n []
    if bucket.any (fun pl => strcasecmp_eq pl.plist_param param) then
      if force then
        let bucket1 := bucket_set_value (fun pl => strcasecmp_eq pl.plist_param param) value bucket
        (true, { kv with set_plist := kv.set_plist.set n bucket1 })
      else (true, kv)
    else
      let bucket1 := { plist_param := param, plist_value := value } :: bucket
      (true, { kv with set_plist := kv.set_plist.set n bucket1 })

/-- Modelled from the spec: `arc_collapse` of `arc-util.c`, which strips the
ASCII white space (HT, LF, VT, FF, CR, SP) from a NUL-terminated string in
place. -/
def arc_collapse (s : CStr) : CStr := s.filter (fun c => !isspace c)

/-- Source `arc_check_uint`; `none` is a `NULL` argument, on which the source
asserts.  `errno` is nonzero on the `-` and empty branches and after an
overflowing `strtoull`. -/
def arc_check_uint (value : Option CStr) : Except Fault Bool :=
  match value with
  | none => .error .assertion
  | some v =>
    if first_byte v == 45 then .ok false
    else if first_byte v == 0 then .ok false
    else
      match strtoull v with
      | (tmp, rest, erange) => .ok (!(tmp == ULONG_MAX || erange || first_byte rest != 0))

/-! ## Messages -/

/-- The fields of `ARC_LIB` the message operations read. -/
structure ARC_LIB where
  arcl_flags : Nat
  arcl_tmpdir : CStr
  deriving DecidableEq, Repr

/-- A header record: the stored text, and the colon as an offset into it. -/
structure arc_hdrfield where
  hdr_text : CStr
  hdr_namelen : Nat
  hdr_textlen : Nat
  hdr_colon : Option Nat
  hdr_flags : Nat
  deriving DecidableEq, Repr

/-- An `ARC_MESSAGE`; the two linked lists are kept as lists in link order. -/
structure ARC_MESSAGE where
  arc_state : Nat
  arc_hdrcnt : Nat
  arc_nsets : Nat
  arc_sigerror : ARC_SIGERROR
  arc_hhead : List arc_hdrfield
  arc_kvsethead : List ARC_KVSET
  arc_library : ARC_LIB
  deriving DecidableEq, Repr

def ARC_STATE_INIT : Nat := 0
def ARC_STATE_HEADER : Nat := 1
def ARC_STATE_EOH : Nat := 2
def ARC_STATE_BODY : Nat := 3
def ARC_STATE_EOM : Nat := 4
def ARC_STATE_UNUSABLE : Nat := 99

/-- Source `arc_message`: the handle is zeroed and bound to its library. -/
def arc_message (lib : ARC_LIB) : ARC_MESSAGE :=
  { arc_state := 0, arc_hdrcnt := 0, arc_nsets := 0, arc_sigerror := .ZEROED,
    arc_hhead := [], arc_kvsethead := [], arc_library := lib }

/-- The sets `arc_set_first` and `arc_set_next` visit for a type, in order. -/
def arc_sets_of (msg : ARC_MESSAGE) (type : arc_kvsettype_t) : List ARC_KVSET :=
  msg.arc_kvsethead.filter (fun kv => kv.set_type == type)

/-! ## The tag-list parser -/

/-- The locals of the scanning loop of `arc_process_set`.  `param` and `value`
hold the bytes from the recorded start up to the scanning position (`value` is
`none` while the pointer is `NULL`); `param` is read only after it was set. -/
structure ScanState where
  state : Nat
  spaced : Bool
  param : CStr
  value : Option CStr
  kv : ARC_KVSET
  deriving DecidableEq, Repr

/-- The set marked bad, as the error paths leave it. -/
def mark_bad (kv : ARC_KVSET) : ARC_KVSET := { kv with set_bad := true }

/-- The `arc_add_plist` call of the parser with its error path: on -1 the set
is marked bad and `ARC_STAT_INTERNAL` is returned. -/
def add_or_fail (kv : ARC_KVSET) (param value : CStr) (force : Bool) :
    Except (ARC_STAT × ARC_KVSET) ARC_KVSET :=
  match arc_add_plist kv param value force with
  | (true, kv1) => .ok kv1
  | (false, kv1) => .error (.INTERNAL, mark_bad kv1)

/-- One pass of the body of the scanning loop on the byte `c`; an error is a
`return` of the source, with the set as left. -/
def scan_byte (st : ScanState) (c : Nat) : Except (ARC_STAT × ARC_KVSET) ScanState :=
  if !isascii c || (!isprint c && !isspace c) then .error (.SYNTAX, mark_bad st.kv)
  else if st.state = 0 then
    if isspace c then .ok st
    else if isalnum c then .ok { st with param := [c], state := 1 }
    else .error (.SYNTAX, mark_bad st.kv)
  else if st.state = 1 then
    if isspace c then .ok { st with spaced := true, param := st.param ++ [c] }
    else if c = 61 then .ok { st with state := 2, spaced := false }
    else if c = 59 || st.spaced then .error (.SYNTAX, mark_bad st.kv)
    else .ok { st with param := st.param ++ [c] }
  else if st.state = 2 then
    if isspace c then .ok st
    else if c = 59 then
      match add_or_fail st.kv (arc_collapse st.param) [] true with
      | .error e => .error e
      | .ok kv1 => .ok { st with param := [], value := none, state := 0, kv := kv1 }
    else .ok { st with value := some [c], state := 3 }
  else
    if c = 59 then
      match add_or_fail st.kv (arc_collapse st.param)
          (arc_collapse (st.value.getD [])) true with
      | .error e => .error e
      | .ok kv1 => .ok { st with param := [], value := none, state := 0, kv := kv1 }
    else .ok { st with value := some (st.value.getD [] ++ [c]) }

/-- The scanning loop `for (p = hcopy; *p != 0; p++)`. -/
def scan_loop : ScanState → CStr → Except (ARC_STAT × ARC_KVSET) ScanState
  | st, [] => .ok st
  | st, c :: rest =>
    match scan_byte st c with
    | .error e => .error e
    | .ok st1 => scan_loop st1 rest

/-- The `switch (state)` after the scanning loop. -/
def scan_end (st : ScanState) : Except (ARC_STAT × ARC_KVSET) ARC_KVSET :=
  if st.state = 0 || st.state = 3 then
    match st.value with
    | some v => add_or_fail st.kv (arc_collapse st.param) (arc_collapse v) true
    | none => .ok st.kv
  else if st.state = 2 then add_or_fail st.kv st.param [] true
  else .error (.SYNTAX, mark_bad st.kv)

/-- Modelled from the spec: the header names `ARC_AR_HDRNAME`,
`ARC_MSGSIG_HDRNAME` and `ARC_SEAL_HDRNAME` of `arc.h`, which the spec gives
as Authentication-Results, ARC-Message-Signature and ARC-Seal. -/
def ARC_AR_HDRNAME : CStr := cstr "Authentication-Results"

/-- Modelled from the spec: see `ARC_AR_HDRNAME`. -/
def ARC_MSGSIG_HDRNAME : CStr := cstr "ARC-Message-Signature"

/-- Modelled from the spec: see `ARC_AR_HDRNAME`. -/
def ARC_SEAL_HDRNAME : CStr := cstr "ARC-Seal"

/-- The tokens the `strtok_r` loop visits: the maximal runs of bytes other
than `delim`; `cur` is the run being read. -/
def strtok_tokens (delim : Nat) : CStr → CStr → List CStr
  | cur, [] => if cur.isEmpty then [] else [cur]
  | cur, c :: rest =>
    if c = delim then
      if cur.isEmpty then strtok_tokens delim [] rest
      else cur :: strtok_tokens delim [] rest
    else strtok_tokens delim (cur ++ [c]) rest

/-- The test of one token of the signed-header list. -/
def is_arc_header (p : CStr) : Bool :=
  strcasecmp_eq p ARC_AR_HDRNAME || strcasecmp_eq p ARC_MSGSIG_HDRNAME ||
    strcasecmp_eq p ARC_SEAL_HDRNAME

/-- The `arc_add_plist` call that loads a default (`force` is FALSE), with its
error path. -/
def add_default (kv : ARC_KVSET) (param value : CStr) : ARC_STAT × ARC_KVSET :=
  match arc_add_plist kv param value false with
  | (true, kv1) => (.OK, kv1)
  | (false, kv1) => (.INTERNAL, mark_bad kv1)

/-- The `switch (set->set_type)` that ends `arc_process_set`: requirements and
defaults.  The outer result is the fault of a failed assertion, the inner one
the status returned with the set as left. -/
def set_defaults (kv : ARC_KVSET) : Except Fault (ARC_STAT × ARC_KVSET) :=
  match kv.set_type with
  | .SIGNATURE => do
    let s ← arc_param_get kv (cstr "s")
    let h ← arc_param_get kv (cstr "h")
    let d ← arc_param_get kv (cstr "d")
    let b ← arc_param_get kv (cstr "b")
    let v ← arc_param_get kv (cstr "v")
    let i ← arc_param_get kv (cstr "i")
    let a ← arc_param_get kv (cstr "a")
    if s.isNone || h.isNone || d.isNone || b.isNone || v.isNone || i.isNone || a.isNone then
      pure (.SYNTAX, mark_bad kv)
    else if (strtok_tokens 58 [] (h.getD [])).any is_arc_header then
      pure (.INTERNAL, mark_bad kv)
    else
      let t ← arc_param_get kv (cstr "t")
      let tok ← arc_check_uint t
      if !tok then pure (.SYNTAX, mark_bad kv)
      else
        let x ← arc_param_get kv (cstr "x")
        let xok ← arc_check_uint x
        if !xok then pure (.SYNTAX, mark_bad kv)
        else
          let iok ← arc_check_uint i
          if !iok then pure (.SYNTAX, mark_bad kv)
          else
            pure (add_default kv (cstr "q") (cstr "dns/txt"))
  | .KEY => pure (add_default kv (cstr "k") (cstr "rsa"))
  | _ => .error .assertion

/-- The message with the new set linked at the tail of its set list. -/
def link_set (msg : ARC_MESSAGE) (kv : ARC_KVSET) : ARC_MESSAGE :=
  { msg with arc_kvsethead := msg.arc_kvsethead ++ [kv] }

/-- Source `arc_process_set`.  `str` holds the bytes at the pointer and `len`
the count passed; `hcopy` is what `strlcpy` copies: at most `len` bytes, up to
the first NUL. -/
def arc_process_set (msg : ARC_MESSAGE) (type : arc_kvsettype_t) (str : List Nat) (len : Nat) :
    Except Fault (ARC_STAT × ARC_MESSAGE) :=
  let hcopy := (str.take len).takeWhile (fun c => c != 0)
  let st0 : ScanState :=
    { state := 0, spaced := false, param := [], value := none, kv := ARC_KVSET.init type }
  match scan_loop st0 hcopy with
  | .error (status, kv) => .ok (status, link_set msg kv)
  | .ok st =>
    match scan_end st with
    | .error (status, kv) => .ok (status, link_set msg kv)
    | .ok kv =>
      match set_defaults kv with
      | .error f => .error f
      | .ok (status, kv1) => .ok (status, link_set msg kv1)

/-- The locals of `arc_process_set` when its scanning loop starts. -/
def scan_start (type : arc_kvsettype_t) : ScanState :=
  { state := 0, spaced := false, param := [], value := none, kv := ARC_KVSET.init type }

/-- The copy `hcopy` that `arc_process_set` scans: at most `len` bytes of
`str`, up to the first NUL. -/
def hcopy_of (str : List Nat) (len : Nat) : CStr := (str.take len).takeWhile (fun c => c != 0)

/-! ## End of headers: the chain assembler -/

/-- Modelled from the spec: `arc_name_to_code(archdrnames, name)` of
`arc-tables.c` on a name that matched one of the three header names: the set
type of the header, `none` for the code returned on no match. -/
def arc_name_to_code (name : CStr) : Option arc_kvsettype_t :=
  if strcasecmp_eq name ARC_AR_HDRNAME then some .AR
  else if strcasecmp_eq name ARC_MSGSIG_HDRNAME then some .SIGNATURE
  else if strcasecmp_eq name ARC_SEAL_HDRNAME then some .SEAL
  else none

/-- The string `strncpy(hnbuf, h->hdr_text, h->hdr_namelen)` leaves in the
zeroed `hnbuf`, which is taken to be large enough: the first `hdr_namelen`
bytes of the text, up to a NUL. -/
def hnbuf (h : arc_hdrfield) : CStr :=
  (h.hdr_text.take h.hdr_namelen).takeWhile (fun c => c != 0)

/-- The first loop of `arc_eoh`: every stored header whose name is an ARC
header name is handed to `arc_process_set`; the first status other than OK is
returned. -/
def arc_eoh_headers : ARC_MESSAGE → List arc_hdrfield → Except Fault (ARC_STAT × ARC_MESSAGE)
  | msg, [] => .ok (.OK, msg)
  | msg, h :: rest =>
    if is_arc_header (hnbuf h) then
      match arc_name_to_code (hnbuf h), h.hdr_colon with
      | none, _ => .error .assertion
      | some _, none => .error .nullDeref
      | some kvtype, some colon =>
        match arc_process_set msg kvtype (h.hdr_text.drop (colon + 1))
            (h.hdr_textlen - h.hdr_namelen - 1) with
        | .error f => .error f
        | .ok (status, msg1) =>
          if status ≠ .OK then .ok (status, msg1) else arc_eoh_headers msg1 rest
    else arc_eoh_headers msg rest

/-- The locals `sets`, `nsets` and `n` of `arc_eoh`, and the number of blocks
obtained so far.  `sets` is `none` while the pointer is `NULL`, else the cells
at the pointer, by index. -/
structure Walk where
  sets : Option (Nat → Nat)
  nsets : Nat
  n : Nat
  allocs : Nat

/-- The way a part of `arc_eoh` ends: control goes on with the locals, or the
function returns a status with the message as left, or the run faults. -/
inductive Flow where
  | next : Walk → Flow
  | ret : ARC_STAT → ARC_MESSAGE → Flow
  | fault : Fault → Flow

/-- The assignment `sets[i] = v`. -/
def store (m : Nat → Nat) (i v : Nat) : Nat → Nat := fun j => if j = i then v else m j

/-- The call `memset(&m[start], 0, count * sizeof(u_int))`. -/
def memset_zero (m : Nat → Nat) (start count : Nat) : Nat → Nat :=
  fun j => if start ≤ j ∧ j < start + count then 0 else m j

/-- The instance number of a set as `arc_eoh` reads it:
`n = strtoul(arc_param_get(set, "i"), NULL, 10)`, stored in a `u_int`. -/
def set_instance (kv : ARC_KVSET) : Except Fault Nat :=
  match arc_param_get kv (cstr "i") with
  | .error f => .error f
  | .ok none => .error .nullDeref
  | .ok (some inst) => .ok (strtoul inst % UINT_MOD)

/-- The body of the seal loop for a seal of instance `n`.  `g k` is what the
cells of the `k`-th block obtained hold where nothing was stored: `malloc`
returns such a block, `realloc` one that keeps the first `nsets` cells. -/
def seal_step (g : Nat → Nat → Nat) (msg : ARC_MESSAGE) (w : Walk) (n : Nat) : Flow :=
  if n ≥ w.nsets then
    let newsets : Nat → Nat :=
      match w.sets with
      | some m => if w.nsets = 0 then g w.allocs
                  else fun j => if j < w.nsets then m j else g w.allocs j
      | none => g w.allocs
    let zeroed := memset_zero newsets n ((n + 1) % UINT_MOD)
    .next { sets := some (store zeroed ((n + UINT_MOD - 1) % UINT_MOD) 1), nsets := n, n := n,
            allocs := w.allocs + 1 }
  else
    match w.sets with
    | none => .fault .nullDeref
    | some m =>
      if m ((n + UINT_MOD - 1) % UINT_MOD) ≠ 0 then
        .ret .SYNTAX { msg with arc_sigerror := .DUPINSTANCE }
      else .next { w with sets := some (store m ((n + UINT_MOD - 1) % UINT_MOD) 1), n := n }

/-- The loop "walk the seals" over the SEAL sets in list order. -/
def seal_walk (g : Nat → Nat → Nat) (msg : ARC_MESSAGE) : Walk → List ARC_KVSET → Flow
  | w, [] => .next w
  | w, kv :: rest =>
    match set_instance kv with
    | .error f => .fault f
    | .ok n =>
      match seal_step g msg w n with
      | .next w1 => seal_walk g msg w1 rest
      | r => r

/-- The loops `for (c = 0; c < n; c++) if (sets[c] == 0) return SYNTAX`. -/
def gap_check (msg : ARC_MESSAGE) (w : Walk) : Flow :=
  match w.sets with
  | none => if w.n = 0 then .next w else .fault .nullDeref
  | some m => if (List.range w.n).any (fun c => m c == 0) then .ret .SYNTAX msg else .next w

/-- The call `memset(sets, 0, nsets * sizeof(u_int))`. -/
def clear_sets (w : Walk) : Walk :=
  { w with sets := w.sets.map (fun m => memset_zero m 0 w.nsets) }

/-- The body of the signature loop and of the A-R loop for a set of instance
`n`. -/
def inst_step (msg : ARC_MESSAGE) (w : Walk) (n : Nat) : Flow :=
  if n > w.nsets then .ret .SYNTAX msg
  else
    match w.sets with
    | none => .fault .nullDeref
    | some m =>
      if m n = 1 then .ret .SYNTAX msg
      else .next { w with sets := some (store m n 1), n := n }

/-- The signature loop and the A-R loop over the sets of the type. -/
def inst_walk (msg : ARC_MESSAGE) : Walk → List ARC_KVSET → Flow
  | w, [] => .next w
  | w, kv :: rest =>
    match set_instance kv with
    | .error f => .fault f
    | .ok n =>
      match inst_step msg w n with
      | .next w1 => inst_walk msg w1 rest
      | r => r

/-- The sequencing of two parts of `arc_eoh`. -/
def Flow.andThen (r : Flow) (f : Walk → Flow) : Flow :=
  match r with
  | .next w => f w
  | r => r

/-- The part "Ensure all sets are complete" of `arc_eoh`, from the seal walk
to the final `return`.  `n0` is the value the local `n` holds before anything
is assigned to it. -/
def arc_eoh_sets (g : Nat → Nat → Nat) (n0 : Nat) (msg : ARC_MESSAGE) :
    Except Fault (ARC_STAT × ARC_MESSAGE) :=
  let w0 : Walk := { sets := none, nsets := 0, n := n0, allocs := 0 }
  let r := (seal_walk g msg w0 (arc_sets_of msg .SEAL)).andThen fun w1 =>
    (gap_check msg w1).andThen fun w2 =>
    (inst_walk msg (clear_sets w2) (arc_sets_of msg .SIGNATURE)).andThen fun w3 =>
    (gap_check msg w3).andThen fun w4 =>
    (inst_walk msg (clear_sets w4) (arc_sets_of msg .AR)).andThen fun w5 =>
    gap_check msg w5
  match r with
  | .next w => .ok (.OK, { msg with arc_nsets := w.nsets })
  | .ret status msg1 => .ok (status, msg1)
  | .fault f => .error f

/-- Source `arc_eoh`. -/
def arc_eoh (g : Nat → Nat → Nat) (n0 : Nat) (msg : ARC_MESSAGE) :
    Except Fault (ARC_STAT × ARC_MESSAGE) :=
  match arc_eoh_headers msg msg.arc_hhead with
  | .error f => .error f
  | .ok (status, msg1) =>
    if status ≠ .OK then .ok (status, msg1) else arc_eoh_sets g n0 msg1

/-! ## End of message: the chain validator -/

/-- The inner loop of `arc_eom`: the first SEAL set whose `atoi` of `i` equals
`set`; `none` when the loop ends with `kvset == NULL`. -/
def find_seal (set : Nat) : List ARC_KVSET → Except Fault (Option ARC_KVSET)
  | [] => .ok none
  | kv :: rest =>
    match arc_param_get kv (cstr "i") with
    | .error f => .error f
    | .ok none => .error .nullDeref
    | .ok (some inst) => if atoi_u inst = set then .ok (some kv) else find_seal set rest

/-- The way the outer loop of `arc_eom` is left: by `break` with the chain
state assigned, or by `return status`. -/
inductive LoopExit where
  | brk : ARC_CHAIN → LoopExit
  | ret : ARC_STAT → LoopExit
  deriving DecidableEq, Repr

/-- The loop `for (set = msg->arc_nsets - 2; set >= 0; set++)` of `arc_eom`,
from the value `set` on; `set` is a `u_int`, so the test always holds and the
increment wraps.  `fuel` bounds the number of passes. -/
def arc_eom_loop (arc_validate : ARC_MESSAGE → Nat → ARC_STAT) (msg : ARC_MESSAGE) :
    Nat → Nat → Except Fault LoopExit
  | 0, _ => .error .fuel
  | fuel + 1, set =>
    match find_seal set (arc_sets_of msg .SEAL) with
    | .error f => .error f
    | .ok none => .error .assertion
    | .ok (some kvset) =>
      match arc_param_get kvset (cstr "cv") with
      | .error f => .error f
      | .ok none => .error .nullDeref
      | .ok (some cv) =>
        if (set = 0 ∧ strcasecmp_eq cv (cstr "none")) ∨
            (set ≠ 0 ∧ strcasecmp_eq cv (cstr "pass")) then
          let status := arc_validate msg set
          if status = .BADSIG then .ok (.brk .FAIL)
          else if status ≠ .OK then .ok (.ret status)
          else arc_eom_loop arc_validate msg fuel ((set + 1) % UINT_MOD)
        else arc_eom_loop arc_validate msg fuel ((set + 1) % UINT_MOD)

/-- Source `arc_eom`: the status returned and the value of the local `cstate`
at that point.  `arc_validate` is the external signature verifier.  Both
branches of the test on the latest instance run into the assignment
`cstate = ARC_CHAIN_PASS` that follows them, whatever they assigned; on
`return status` from the loop `cstate` still holds its initial value. -/
def arc_eom (arc_validate : ARC_MESSAGE → Nat → ARC_STAT) (fuel : Nat) (msg : ARC_MESSAGE) :
    Except Fault (ARC_STAT × ARC_CHAIN) :=
  if msg.arc_nsets = 0 then .ok (.OK, .NONE)
  else
    let exit : Except Fault LoopExit :=
      if arc_validate msg (msg.arc_nsets - 1) = .BADSIG then .ok (.brk .FAIL)
      else arc_eom_loop arc_validate msg fuel ((msg.arc_nsets + UINT_MOD - 2) % UINT_MOD)
    match exit with
    | .error f => .error f
    | .ok (.ret status) => .ok (status, .UNKNOWN)
    | .ok (.brk _) => .ok (.OK, .PASS)

/-! ## The header store -/

/-- Modelled from the spec: the flag `ARC_LIBFLAGS_FIXCRLF` of `arc.h`, one bit
of the library flag word. -/
def ARC_LIBFLAGS_FIXCRLF : Nat := 1

/-- The test `(msg->arc_library->arcl_flags & ARC_LIBFLAGS_FIXCRLF) != 0`. -/
def fixcrlf_set (msg : ARC_MESSAGE) : Bool :=
  Nat.land msg.arc_library.arcl_flags ARC_LIBFLAGS_FIXCRLF != 0

/-- The test the source applies to a byte of the field body, as written:
`!(b != 9 || b != 10 || b != 13 || (b >= 32 && b <= 126))`. -/
def body_byte_rejected (b : Nat) : Bool :=
  !(b != 9 || b != 10 || b != 13 || (decide (32 ≤ b) && decide (b ≤ 126)))

/-- The loop "enforce RFC 5322, Section 2.2" of `arc_header_field` from index
`c` on, over the bytes left; `colon` is the index of the colon found so far.
An error is the `return ARC_STAT_SYNTAX` inside the loop. -/
def rfc5322_loop : Option Nat → Nat → List Nat → Except ARC_STAT (Option Nat)
  | colon, _, [] => .ok colon
  | none, c, b :: rest =>
    if b < 32 ∨ b > 126 then .error .SYNTAX
    else if b = 58 then rfc5322_loop (some c) (c + 1) rest
    else rfc5322_loop none (c + 1) rest
  | some k, c, b :: rest =>
    if body_byte_rejected b then .error .SYNTAX
    else rfc5322_loop (some k) (c + 1) rest

/-- The loop `while (end > hdr && isascii(end[-1]) && isspace(end[-1])) end--`,
from `end = hdr + e`: the index it stops at. -/
def name_end (hdr : List Nat) : Nat → Nat
  | 0 => 0
  | e + 1 =>
    if isascii (hdr.getD e 0) && isspace (hdr.getD e 0) then name_end hdr e else e + 1

/-- The library call `memchr(s, c, n)` over the `n` bytes of the list: the
index of the first `c`, `none` for `NULL`. -/
def memchr (c : Nat) : List Nat → Option Nat
  | [] => none
  | b :: rest => if b = c then some 0 else (memchr c rest).map (· + 1)

/-- The loop that copies the header into `tmphdr` when FIXCRLF is set, from
the byte after `prev` on, with the `if (prev == CR)` that follows it.  It
stops at a NUL.  The `arc_dstring` of `arc-util.c` is taken to hold whatever
is appended to it. -/
def fixcrlf_loop : Nat → List Nat → List Nat
  | prev, [] => if prev = 13 then [10] else []
  | prev, p :: rest =>
    if p = 0 then (if prev = 13 then [10] else [])
    else if p = 10 ∧ prev ≠ 13 then [13, 10] ++ fixcrlf_loop p rest
    else if prev = 13 ∧ p ≠ 10 then [10, p] ++ fixcrlf_loop p rest
    else [p] ++ fixcrlf_loop p rest

/-- Modelled from the spec: `arc_strndup` of `arc-util.c`, which stores the
`len` bytes verbatim. -/
def arc_strndup (src : List Nat) (len : Nat) : List Nat := src.take len

/-- The record `arc_header_field` fills in for an accepted line: `colon` and
`e` are the offsets of the colon and of the end of the name in `hdr`.  The
text is the copy of `hdr`, passed through the FIXCRLF loop when the flag is
set. -/
def header_record (msg : ARC_MESSAGE) (hdr : List Nat) (colon e : Nat) : arc_hdrfield :=
  let text :=
    if fixcrlf_set msg then
      let tmphdr := fixcrlf_loop 0 hdr
      arc_strndup tmphdr tmphdr.length
    else arc_strndup hdr hdr.length
  { hdr_text := text, hdr_namelen := e, hdr_textlen := hdr.length, hdr_colon := some colon,
    hdr_flags := 0 }

/-- The tail of `arc_header_field`, after the checks: the record is linked at
the end of the header list and counted. -/
def store_header (msg : ARC_MESSAGE) (hdr : List Nat) (colon e : Nat) : ARC_MESSAGE :=
  { msg with arc_hhead := msg.arc_hhead ++ [header_record msg hdr colon e],
             arc_hdrcnt := msg.arc_hdrcnt + 1 }

/-- The test `semicolon != NULL && colon != NULL && semicolon < colon` on the
result of `memchr(hdr, 59, hlen)`, with the colon found at `colon`. -/
def semicolon_in_name (hdr : List Nat) (colon : Nat) : Bool :=
  match memchr 59 hdr with
  | some semicolon => decide (semicolon < colon)
  | none => false

/-- Source `arc_header_field`; `hdr` holds the `hlen` bytes of the call. -/
def arc_header_field (msg : ARC_MESSAGE) (hdr : List Nat) :
    Except Fault (ARC_STAT × ARC_MESSAGE) :=
  if hdr.length = 0 then .error .assertion
  else if msg.arc_state > ARC_STATE_HEADER then .ok (.INVALID, msg)
  else
    let msg1 := { msg with arc_state := ARC_STATE_HEADER }
    match rfc5322_loop none 0 hdr with
    | .error status => .ok (status, msg1)
    | .ok none => .ok (.SYNTAX, msg1)
    | .ok (some colon) =>
      let e := name_end hdr colon
      if semicolon_in_name hdr colon then .ok (.SYNTAX, msg1)
      else .ok (.OK, store_header msg1 hdr colon e)

/-- Source `arc_hdr_name`, called with a place for the length: the stored
text and the length of the name. -/
def arc_hdr_name (hdr : arc_hdrfield) : CStr × Nat := (hdr.hdr_text, hdr.hdr_namelen)

/-- Source `arc_hdr_value`: the stored text from the byte after the colon on;
`none` when `hdr_colon` is `NULL`. -/
def arc_hdr_value (hdr : arc_hdrfield) : Option CStr :=
  hdr.hdr_colon.map (fun colon => hdr.hdr_text.drop (colon + 1))

/-! ## The body and the library options -/

/-- Source `arc_body`; `buf` holds the bytes at the non-`NULL` pointer.
`arc_canon_bodychunk` is the canonicalizer of `arc-canon.c`, which gets the
message once its state is BODY and whose status is returned. -/
def arc_body (arc_canon_bodychunk : ARC_MESSAGE → List Nat → Nat → ARC_STAT × ARC_MESSAGE)
    (msg : ARC_MESSAGE) (buf : List Nat) (len : Nat) : ARC_STAT × ARC_MESSAGE :=
  if msg.arc_state > ARC_STATE_BODY ∨ msg.arc_state < ARC_STATE_EOH then (.INVALID, msg)
  else arc_canon_bodychunk { msg with arc_state := ARC_STATE_BODY } buf len

/-- Modelled from the spec: the operation code `ARC_OP_GETOPT` of `arc.h`. -/
def ARC_OP_GETOPT : Int := 0

/-- Modelled from the spec: the operation code `ARC_OP_SETOPT` of `arc.h`. -/
def ARC_OP_SETOPT : Int := 1

/-- Modelled from the spec: the key `ARC_OPTS_FLAGS` of `arc.h`. -/
def ARC_OPTS_FLAGS : Int := 0

/-- Modelled from the spec: the key `ARC_OPTS_TMPDIR` of `arc.h`. -/
def ARC_OPTS_TMPDIR : Int := 1

/-- Modelled from the spec: `sizeof lib->arcl_flags`; the flag word is a
machine word, a `u_int` of four bytes. -/
def sizeof_arcl_flags : Nat := 4

/-- The object representation of a word in `n` bytes, least significant byte
first. -/
def word_bytes : Nat → Nat → List Nat
  | 0, _ => []
  | n + 1, w => w % 256 :: word_bytes n (w / 256)

/-- The word whose object representation the bytes are. -/
def bytes_word : List Nat → Nat
  | [] => 0
  | b :: rest => b + 256 * bytes_word rest

/-- The library call `strlcpy(dst, src, size)` into a caller's buffer of
`dst.length` bytes: at most `size - 1` bytes of the string and a NUL are
written; `none` when that runs past the buffer. -/
def strlcpy (dst : List Nat) (src : CStr) (size : Nat) : Option (List Nat) :=
  if size = 0 then some dst
  else
    let n := min src.length (size - 1)
    if n + 1 ≤ dst.length then some (src.take n ++ 0 :: dst.drop (n + 1)) else none

/-- The string `strlcpy` leaves in the array `lib->arcl_tmpdir` of `size`
bytes. -/
def strlcpy_tmpdir (src : CStr) (size : Nat) : CStr := src.take (size - 1)

/-- Source `arc_options`.  `val` is the object at the pointer, as its bytes
(`none` for `NULL`), and is returned as the call leaves it.  `deftmpdir` is
`DEFTMPDIR` and `tmpdirsz` is `sizeof lib->arcl_tmpdir`, both of headers
outside `arc.c`. -/
def arc_options (deftmpdir : CStr) (tmpdirsz : Nat) (lib : ARC_LIB) (op arg : Int)
    (val : Option (List Nat)) (valsz : Nat) :
    Except Fault (ARC_STAT × ARC_LIB × Option (List Nat)) :=
  if ¬ (op = ARC_OP_GETOPT ∨ op = ARC_OP_SETOPT) then .error .assertion
  else if arg = ARC_OPTS_FLAGS then
    match val with
    | none => .ok (.INVALID, lib, none)
    | some v =>
      if valsz ≠ sizeof_arcl_flags then .ok (.INVALID, lib, some v)
      else if v.length < valsz then .error .outOfBounds
      else if op = ARC_OP_GETOPT then
        .ok (.OK, lib, some (word_bytes valsz lib.arcl_flags ++ v.drop valsz))
      else .ok (.OK, { lib with arcl_flags := bytes_word (v.take valsz) }, some v)
  else if arg = ARC_OPTS_TMPDIR then
    if op = ARC_OP_GETOPT then
      match val with
      | none => if valsz = 0 then .ok (.OK, lib, none) else .error .nullDeref
      | some v =>
        match strlcpy v lib.arcl_tmpdir valsz with
        | none => .error .outOfBounds
        | some v1 => .ok (.OK, lib, some v1)
    else
      match val with
      | none => .ok (.OK, { lib with arcl_tmpdir := strlcpy_tmpdir deftmpdir tmpdirsz }, none)
      | some v =>
        let tmpdir := strlcpy_tmpdir (v.takeWhile (fun c => c != 0)) tmpdirsz
        .ok (.OK, { lib with arcl_tmpdir := tmpdir }, some v)
  else .error .assertion

/-! ## Sample sets and messages -/

namespace Sample

/-- The set of a type holding the given parameters, added in order with
`arc_add_plist` as the parser adds them. -/
def kvset (type : arc_kvsettype_t) (params : List (String × String)) : ARC_KVSET :=
  params.foldl (fun kv p => (arc_add_plist kv (cstr p.1) (cstr p.2) true).2)
    (ARC_KVSET.init type)

def lib : ARC_LIB := { arcl_flags := 0, arcl_tmpdir := [] }

/-- A fresh message holding the given sets. -/
def msg (sets : List ARC_KVSET) : ARC_MESSAGE :=
  { arc_message lib with arc_kvsethead := sets }

/-- One seal `i=1`, with a signature and an A-R that both carry `i=0`. -/
def zero_instances : ARC_MESSAGE :=
  msg [kvset .SEAL [("i", "1"), ("cv", "none")], kvset .SIGNATURE [("i", "0")],
    kvset .AR [("i", "0")]]

/-- Seals `i=3` then `i=1` (none for instance 2), with a signature and an A-R
that both carry `i=0`. -/
def gap_3_1 : ARC_MESSAGE :=
  msg [kvset .SEAL [("i", "3"), ("cv", "pass")], kvset .SEAL [("i", "1"), ("cv", "none")],
    kvset .SIGNATURE [("i", "0")], kvset .AR [("i", "0")]]

/-- Two seals, both `i=2`, and nothing else. -/
def dup_2_2 : ARC_MESSAGE :=
  msg [kvset .SEAL [("i", "2"), ("cv", "pass")], kvset .SEAL [("i", "2"), ("cv", "pass")]]

/-- Two seals, both `i=2`, with a signature and an A-R that both carry `i=0`. -/
def dup_2_2_zero : ARC_MESSAGE :=
  msg [kvset .SEAL [("i", "2"), ("cv", "pass")], kvset .SEAL [("i", "2"), ("cv", "pass")],
    kvset .SIGNATURE [("i", "0")], kvset .AR [("i", "0")]]

/-- A signature tag-list with every parameter the parser asks for, ending in a
name followed by white space and `=` with nothing after it. -/
def sig_trailing : CStr := cstr "s=a; h=b; d=c; b=e; v=1; i=1; a=f; t=1; x=2; z ="

/-- A signature tag-list with every parameter the parser asks for and a
parameter `Ab`. -/
def sig_mixed_case : CStr := cstr "s=a; h=b; d=c; b=e; v=1; i=1; a=f; t=1; x=2; Ab=1"

/-- A signature tag-list with every parameter the parser asks for and the two
parameters `P` and `p`. -/
def sig_both_cases : CStr := cstr "s=a; h=b; d=c; b=e; v=1; i=1; a=f; t=1; x=2; P=1; p=2"

/-- The message `arc_process_set` leaves when it parses a tag-list into a
fresh message. -/
def parsed (type : arc_kvsettype_t) (str : CStr) : ARC_MESSAGE :=
  match arc_process_set (arc_message lib) type str str.length with
  | .ok (_, m) => m
  | .error _ => arc_message lib

/-- A fresh message holding the single header `Subject: hi`. -/
def subject_only : ARC_MESSAGE :=
  { arc_message lib with
    arc_state := ARC_STATE_HEADER, arc_hdrcnt := 1,
    arc_hhead := [{ hdr_text := cstr "Subject: hi", hdr_namelen := 7, hdr_textlen := 11,
                    hdr_colon := some 7, hdr_flags := 0 }] }

/-- The single-hop chain: one seal, one signature and one A-R, all `i=1`. -/
def single_hop : ARC_MESSAGE :=
  msg [kvset .SEAL [("i", "1"), ("cv", "none")], kvset .SIGNATURE [("i", "1")],
    kvset .AR [("i", "1")]]

/-- The single-hop chain with the chain length set to 1. -/
def single_hop_assembled : ARC_MESSAGE := { single_hop with arc_nsets := 1 }

/-- A library handle with `ARC_LIBFLAGS_FIXCRLF` set. -/
def lib_fixcrlf : ARC_LIB := { arcl_flags := ARC_LIBFLAGS_FIXCRLF, arcl_tmpdir := cstr "/tmp" }

/-- The message `arc_header_field` leaves. -/
def fed (msg : ARC_MESSAGE) (hdr : List Nat) : ARC_MESSAGE :=
  match arc_header_field msg hdr with
  | .ok (_, m) => m
  | .error _ => msg

/-- A header line with white space before the colon. -/
def spaced_subject : CStr := cstr "Subject  : hi"

/-- A header line with a bare LF and a bare CR. -/
def bare_breaks : CStr := cstr "Subject: a\n b\r c"

/-- The locals of the parser after the scanning loop over a tag-list. -/
def scan_state (type : arc_kvsettype_t) (str : CStr) : ScanState :=
  match scan_loop (scan_start type) (hcopy_of str str.length) with
  | .ok st => st
  | .error _ => scan_start type

/-- The set the scanning of a tag-list leaves. -/
def scanned (type : arc_kvsettype_t) (str : CStr) : ARC_KVSET :=
  match scan_end (scan_state type str) with
  | .ok kv => kv
  | .error e => e.2

/-- A signature tag-list without `d`, `b`, `v`, `i` and `a`. -/
def sig_two : CStr := cstr "s=a; h=b"

/-- A signature tag-list with the seven mandatory parameters and nothing
else. -/
def sig_seven : CStr := cstr "s=a; h=b; d=c; b=e; v=1; i=1; a=f"

/-- A signature tag-list whose `h` names `arc-seal`, with a malformed `i` and
without `t` and `x`. -/
def sig_signs_seal : CStr := cstr "s=a; h=from:arc-seal; d=c; b=e; v=1; i=x; a=f"

/-- A canonicalizer that takes the chunk and leaves the message alone. -/
def canon (m : ARC_MESSAGE) (_ : List Nat) (_ : Nat) : ARC_STAT × ARC_MESSAGE := (.OK, m)

/-- A fresh message put into the given state. -/
def in_state (s : Nat) : ARC_MESSAGE := { arc_message lib with arc_state := s }

/-- A fresh message fed the header `ARC-Message-Signature: s=foo; h`, whose
tag-list ends inside a tag name. -/
def broken_signature : ARC_MESSAGE :=
  fed (arc_message lib) (cstr "ARC-Message-Signature: s=foo; h")

/-- A signature header with a bare LF in its value. -/
def folded_signature : CStr := cstr "ARC-Message-Signature: s=foo;\n h=xy"

/-- A signature tag-list that assigns `Ab` and then `AB`. -/
def sig_respelled : CStr := cstr "s=a; h=b; d=c; b=e; v=1; i=1; a=f; t=1; x=2; Ab=1; AB=2"

end Sample

/-! ## Predicates of the statements -/

/-- Every set of the list has an instance number, and it is at least 1. -/
def InstancesPositive (l : List ARC_KVSET) : Prop :=
  ∀ kv ∈ l, ∃ n, set_instance kv = .ok n ∧ 1 ≤ n

/-- The cell `sets[0]` holds 0. -/
def FirstCellClear (w : Walk) : Prop := ∃ m, w.sets = some m ∧ m 0 = 0

/-- A seal of a valid chain of length `N`: some instance `k` in `1..N` is read
from its `i` by `atoi`, and its `cv` is `none` for `k = 1` and `pass` for the
later instances. -/
def ValidSeal (N : Nat) (kv : ARC_KVSET) : Prop :=
  ∃ k inst, 1 ≤ k ∧ k ≤ N ∧ arc_param_get kv (cstr "i") = .ok (some inst) ∧
    atoi_u inst = k ∧
    arc_param_get kv (cstr "cv") = .ok (some (if k = 1 then cstr "none" else cstr "pass"))

/-- A property of tag-sets that `arc_add_plist` and the marking as bad keep. -/
structure Kept (P : ARC_KVSET → Prop) : Prop where
  add : ∀ kv param value force, P kv → P (arc_add_plist kv param value force).2
  bad : ∀ kv, P kv → P (mark_bad kv)

/-- What a step of the parser guarantees for a kept property: on success the
set it goes on with has it, on a `return` the set left has it and the status
is not OK. -/
def Keeps {α : Type} (P : ARC_KVSET → Prop) (r : Except (ARC_STAT × ARC_KVSET) α)
    (sel : α → ARC_KVSET) : Prop :=
  (∀ a, r = .ok a → P (sel a)) ∧ (∀ e, r = .error e → P e.2 ∧ e.1 ≠ .OK)

/-- A bucket of index `n`: every name in it starts with the byte `n + 32`, and
no two of its names are equal up to ASCII letter case. -/
def BucketInv (n : Nat) (b : List ARC_PLIST) : Prop :=
  (∀ pl ∈ b, first_byte pl.plist_param = n + 32) ∧
    b.Pairwise (fun x y => strcasecmp_eq x.plist_param y.plist_param = false)

/-- A tag-set whose table has its `NPRINTABLE` buckets, each one well keyed. -/
def CaseKeyed (kv : ARC_KVSET) : Prop :=
  kv.set_plist.length = NPRINTABLE ∧ ∀ n b, kv.set_plist[n]? = some b → BucketInv n b

/-- Follows the spec's words: the bytes before the colon "with the whitespace
directly before that colon removed". -/
def strip_trailing_space (pre : List Nat) : List Nat :=
  (pre.reverse.dropWhile isspace).reverse

/-- Follows the spec's words: the text "with every LF not preceded by CR and
every CR not followed by LF replaced by CR LF"; `prev` is the byte before the
list (0 at the start of the text). -/
def crlf_normal : Nat → List Nat → List Nat
  | _, [] => []
  | prev, c :: rest =>
    (if c = 10 ∧ prev ≠ 13 then [13, 10]
     else if c = 13 ∧ rest.head? ≠ some 10 then [13, 10]
     else [c]) ++ crlf_normal c rest

/-- Follows the spec's words: in the text "every CR is immediately followed by
LF and every LF is immediately preceded by CR". -/
def CanonicalCRLF (t : List Nat) : Prop :=
  (∀ i, t[i]? = some 13 → t[i + 1]? = some 10) ∧
    (∀ i, t[i]? = some 10 → ∃ j, i = j + 1 ∧ t[j]? = some 13)

/-- The form `CanonicalCRLF` takes for a text that follows the byte `prev`. -/
def CanonicalAfter (prev : Nat) : List Nat → Prop
  | [] => prev ≠ 13
  | c :: rest => (c = 10 → prev = 13) ∧ (prev = 13 → c = 10) ∧ CanonicalAfter c rest

/-- The set holds an entry stored under exactly the name `p`. -/
def Stored (kv : ARC_KVSET) (p : CStr) : Prop :=
  ∃ b ∈ kv.set_plist, ∃ pl ∈ b, pl.plist_param = p

/-- The names of the parameters a SIGNATURE must carry. -/
def mandatory_names : List CStr :=
  [cstr "s", cstr "h", cstr "d", cstr "b", cstr "v", cstr "i", cstr "a"]

/-- Lookup of the name `p` finds a value. -/
def Found (p : CStr) (kv : ARC_KVSET) : Prop := ∃ v, arc_param_get kv p = .ok (some v)

/-- The strings `strtoull` reads to their end as a number other than
`2 ^ 64 - 1`: optional white space, an optional sign, and a non-empty run of
the digits 0-9; `-` counts as a sign only after white space, where
`arc_check_uint` does not see it; the number is at most `2 ^ 64 - 1`, and it
is not the one that comes out as `2 ^ 64 - 1` (that number itself without
`-`, 1 with `-`). -/
def UIntAccepted (v : CStr) : Prop :=
  ∃ ws sg ds, v = ws ++ sg ++ ds ∧ (∀ c ∈ ws, isspace c = true) ∧
    (sg = [] ∨ sg = [43] ∨ (sg = [45] ∧ ws ≠ [])) ∧
    ds ≠ [] ∧ (∀ c ∈ ds, isdigit c = true) ∧
    (if sg = [45] then digits_value ds ≤ ULONG_MAX ∧ digits_value ds ≠ 1
     else digits_value ds < ULONG_MAX)

/-- The bytes allowed before the colon: printable ASCII and the space. -/
def NameBytes (pre : List Nat) : Prop := ∀ b ∈ pre, 32 ≤ b ∧ b ≤ 126 ∧ b ≠ 58

/-- The seven lookups that open the SIGNATURE case of the switch. -/
structure MandatoryLookups (kv : ARC_KVSET) (s h d b v i a : Option CStr) : Prop where
  hs : arc_param_get kv (cstr "s") = .ok s
  hh : arc_param_get kv (cstr "h") = .ok h
  hd : arc_param_get kv (cstr "d") = .ok d
  hb : arc_param_get kv (cstr "b") = .ok b
  hv : arc_param_get kv (cstr "v") = .ok v
  hi : arc_param_get kv (cstr "i") = .ok i
  ha : arc_param_get kv (cstr "a") = .ok a

/-- Every `return` of a step of the parser leaves the set marked bad. -/
def ErrBad {α : Type} (r : Except (ARC_STAT × ARC_KVSET) α) : Prop :=
  ∀ e, r = .error e → e.2.set_bad = true

/-- The string is an optional `+` and a non-empty run of the digits 0-9 up to
its end, whose value is below `2 ^ 64 - 1`. -/
def UIntPlain (v : CStr) : Prop :=
  ∃ sg ds, v = sg ++ ds ∧ (sg = [] ∨ sg = [43]) ∧ ds ≠ [] ∧ (∀ c ∈ ds, isdigit c = true) ∧
    digits_value ds < ULONG_MAX

/-- The statuses the tag-list parser and `arc_eoh` return. -/
def ParserStatus (s : ARC_STAT) : Prop := s = .OK ∨ s = .SYNTAX ∨ s = .INTERNAL

/-- An error of the parser carries SYNTAX or INTERNAL. -/
def ErrStatus {α : Type} (r : Except (ARC_STAT × ARC_KVSET) α) : Prop :=
  ∀ e, r = .error e → ParserStatus e.1

/-- A `return` inside the set walks of `arc_eoh` carries SYNTAX and a message
in the state of `msg`. -/
def RetKeepsState (msg : ARC_MESSAGE) (r : Flow) : Prop :=
  ∀ status m, r = .ret status m → ParserStatus status ∧ m.arc_state = msg.arc_state

/-- The set the parser holds when it gives up on the list `hcopy`: the set
built from the bytes before the byte on which the scanning loop returns, or
the set the loop has built when the `switch` after it returns, or the set that
`switch` has built when the requirements are tested. -/
def StoppedAt (type : arc_kvsettype_t) (hcopy : CStr) (kv0 : ARC_KVSET) : Prop :=
  (∃ pre c suf st e, hcopy = pre ++ c :: suf ∧ scan_loop (scan_start type) pre = .ok st ∧
      scan_byte st c = .error e ∧ kv0 = st.kv) ∨
    (∃ st e, scan_loop (scan_start type) hcopy = .ok st ∧ scan_end st = .error e ∧
      kv0 = st.kv) ∨
    (∃ st, scan_loop (scan_start type) hcopy = .ok st ∧ scan_end st = .ok kv0)

/-! ## Lemmas on the chain assembler -/

theorem instancesPositive_of_perm {l : List ARC_KVSET} {N : Nat}
    (h : (l.map set_instance).Perm ((List.range' 1 N).map Except.ok)) :
    InstancesPositive l := by
  intro kv hkv
  have h1 : set_instance kv ∈ (List.range' 1 N).map Except.ok :=
    h.mem_iff.mp (List.mem_map_of_mem _ hkv)
  obtain ⟨n, hn, hn2⟩ := List.mem_map.mp h1
  exact ⟨n, hn2.symm, (List.mem_range'_1.mp hn).1⟩

theorem ne_nil_of_perm {l : List ARC_KVSET} {N : Nat} (hN : 1 ≤ N)
    (h : (l.map set_instance).Perm ((List.range' 1 N).map Except.ok)) : l ≠ [] := by
  intro hl
  have := h.length_eq
  simp [hl] at this
  omega

theorem seal_walk_allocated (g : Nat → Nat → Nat) (msg : ARC_MESSAGE) :
    ∀ (l : List ARC_KVSET) (w : Walk), InstancesPositive l → w.sets.isSome → 1 ≤ w.nsets →
      (∃ m, seal_walk g msg w l = .ret .SYNTAX m ∧ m.arc_nsets = msg.arc_nsets) ∨
      (∃ w1, seal_walk g msg w l = .next w1 ∧ w1.sets.isSome ∧ 1 ≤ w1.nsets) := by
  intro l
  induction l with
  | nil => intro w _ hs hn; exact Or.inr ⟨w, rfl, hs, hn⟩
  | cons kv rest ih =>
    intro w hl hs hn
    obtain ⟨n, hkv, hn1⟩ := hl kv (List.mem_cons_self _ _)
    have hrest : InstancesPositive rest := fun k hk => hl k (List.mem_cons_of_mem _ hk)
    obtain ⟨m, hm⟩ := Option.isSome_iff_exists.mp hs
    simp only [seal_walk, hkv]
    by_cases hge : n ≥ w.nsets
    · simp only [seal_step, hge, if_true]
      exact ih _ hrest rfl hn1
    · simp only [seal_step, hge, if_false, hm]
      by_cases hc : m ((n + UINT_MOD - 1) % UINT_MOD) ≠ 0
      · rw [if_pos hc]
        exact Or.inl ⟨_, rfl, rfl⟩
      · rw [if_neg hc]
        exact ih _ hrest rfl hn

theorem seal_walk_first (g : Nat → Nat → Nat) (msg : ARC_MESSAGE) (n0 : Nat)
    (l : List ARC_KVSET) (hl : InstancesPositive l) (hne : l ≠ []) :
    (∃ m, seal_walk g msg { sets := none, nsets := 0, n := n0, allocs := 0 } l = .ret .SYNTAX m ∧
        m.arc_nsets = msg.arc_nsets) ∨
    (∃ w1, seal_walk g msg { sets := none, nsets := 0, n := n0, allocs := 0 } l = .next w1 ∧
        w1.sets.isSome ∧ 1 ≤ w1.nsets) := by
  cases l with
  | nil => exact absurd rfl hne
  | cons kv rest =>
    obtain ⟨n, hkv, hn1⟩ := hl kv (List.mem_cons_self _ _)
    have hrest : InstancesPositive rest := fun k hk => hl k (List.mem_cons_of_mem _ hk)
    simp only [seal_walk, hkv, seal_step, ge_iff_le, Nat.zero_le, if_true]
    exact seal_walk_allocated g msg rest _ hrest rfl hn1

theorem gap_check_allocated (msg : ARC_MESSAGE) (w : Walk) (hs : w.sets.isSome) :
    gap_check msg w = .ret .SYNTAX msg ∨ gap_check msg w = .next w := by
  obtain ⟨m, hm⟩ := Option.isSome_iff_exists.mp hs
  simp only [gap_check, hm]
  by_cases hc : (List.range w.n).any (fun c => m c == 0) = true
  · rw [if_pos hc]; exact Or.inl rfl
  · rw [if_neg hc]; exact Or.inr rfl

theorem firstCellClear_clear_sets (w : Walk) (hs : w.sets.isSome) (hn : 1 ≤ w.nsets) :
    FirstCellClear (clear_sets w) := by
  obtain ⟨m, hm⟩ := Option.isSome_iff_exists.mp hs
  refine ⟨memset_zero m 0 w.nsets, by simp [clear_sets, hm], ?_⟩
  simp only [memset_zero]
  rw [if_pos]
  omega

theorem gap_check_firstCellClear (msg : ARC_MESSAGE) (w : Walk) (hz : FirstCellClear w)
    (hn : 1 ≤ w.n) : gap_check msg w = .ret .SYNTAX msg := by
  obtain ⟨m, hm, h0⟩ := hz
  simp only [gap_check, hm]
  rw [if_pos]
  rw [List.any_eq_true]
  exact ⟨0, List.mem_range.mpr (by omega), by simp [h0]⟩

theorem inst_walk_firstCellClear (msg : ARC_MESSAGE) :
    ∀ (l : List ARC_KVSET) (w : Walk), InstancesPositive l → FirstCellClear w →
      (∃ m, inst_walk msg w l = .ret .SYNTAX m ∧ m.arc_nsets = msg.arc_nsets) ∨
      (∃ w1, inst_walk msg w l = .next w1 ∧ FirstCellClear w1 ∧
        (1 ≤ w.n ∨ l ≠ [] → 1 ≤ w1.n)) := by
  intro l
  induction l with
  | nil =>
    intro w _ hz
    refine Or.inr ⟨w, rfl, hz, ?_⟩
    intro h
    cases h with
    | inl h => exact h
    | inr h => exact absurd rfl h
  | cons kv rest ih =>
    intro w hl hz
    obtain ⟨n, hkv, hn1⟩ := hl kv (List.mem_cons_self _ _)
    have hrest : InstancesPositive rest := fun k hk => hl k (List.mem_cons_of_mem _ hk)
    obtain ⟨m, hm, h0⟩ := hz
    simp only [inst_walk, hkv, inst_step]
    by_cases hgt : n > w.nsets
    · rw [if_pos hgt]
      exact Or.inl ⟨_, rfl, rfl⟩
    · rw [if_neg hgt]
      simp only [hm]
      by_cases hd : m n = 1
      · rw [if_pos hd]
        exact Or.inl ⟨_, rfl, rfl⟩
      · rw [if_neg hd]
        have hz1 : FirstCellClear { w with sets := some (store m n 1), n := n } := by
          refine ⟨store m n 1, rfl, ?_⟩
          simp only [store]
          rw [if_neg (by omega)]
          exact h0
        rcases ih _ hrest hz1 with h | ⟨w1, hw1, hz2, hn2⟩
        · exact Or.inl h
        · exact Or.inr ⟨w1, hw1, hz2, fun _ => hn2 (Or.inl hn1)⟩

/-- The chain assembler on a message with at least one seal and at least one
signature, all of instance 1 or more: it returns SYNTAX. -/
theorem arc_eoh_sets_positive_instances (g : Nat → Nat → Nat) (n0 : Nat) (msg : ARC_MESSAGE)
    (hseal : InstancesPositive (arc_sets_of msg .SEAL)) (hseal1 : arc_sets_of msg .SEAL ≠ [])
    (hsig : InstancesPositive (arc_sets_of msg .SIGNATURE))
    (hsig1 : arc_sets_of msg .SIGNATURE ≠ []) :
    ∃ m, arc_eoh_sets g n0 msg = .ok (.SYNTAX, m) ∧ m.arc_nsets = msg.arc_nsets := by
  unfold arc_eoh_sets
  rcases seal_walk_first g msg n0 _ hseal hseal1 with ⟨m, hm, hmn⟩ | ⟨w1, hw1, hs1, hn1⟩
  · exact ⟨m, by simp [hm, Flow.andThen], hmn⟩
  · rcases gap_check_allocated msg w1 hs1 with hg | hg
    · exact ⟨msg, by simp [hw1, hg, Flow.andThen], rfl⟩
    · rcases inst_walk_firstCellClear msg _ (clear_sets w1) hsig
          (firstCellClear_clear_sets w1 hs1 hn1) with ⟨m, hm, hmn⟩ | ⟨w3, hw3, hz3, hn3⟩
      · exact ⟨m, by simp [hw1, hg, hm, Flow.andThen], hmn⟩
      · have hg3 := gap_check_firstCellClear msg w3 hz3 (hn3 (Or.inr hsig1))
        exact ⟨msg, by simp [hw1, hg, hw3, hg3, Flow.andThen], rfl⟩

theorem arc_eoh_headers_no_arc (msg : ARC_MESSAGE) :
    ∀ l : List arc_hdrfield, (∀ h ∈ l, is_arc_header (hnbuf h) = false) →
      arc_eoh_headers msg l = .ok (.OK, msg) := by
  intro l
  induction l with
  | nil => intro _; rfl
  | cons h rest ih =>
    intro hl
    have hh := hl h (List.mem_cons_self _ _)
    simp only [arc_eoh_headers, hh]
    exact ih (fun k hk => hl k (List.mem_cons_of_mem _ hk))

/-- A function of two arguments is its own override at `(0, 0)` by the value
it takes there. -/
theorem override_origin (g : Nat → Nat → Nat) (x : Nat) (hx : g 0 0 = x) :
    g = fun k j => if k = 0 ∧ j = 0 then x else g k j := by
  funext k j
  by_cases h : k = 0 ∧ j = 0
  · rw [if_pos h, h.1, h.2, hx]
  · rw [if_neg h]

/-! ## Lemmas on the chain validator -/

theorem find_seal_cases (N s : Nat) :
    ∀ l : List ARC_KVSET, (∀ kv ∈ l, ValidSeal N kv) →
      find_seal s l = .ok none ∨
      ∃ kv, find_seal s l = .ok (some kv) ∧ 1 ≤ s ∧ s ≤ N ∧
        arc_param_get kv (cstr "cv") = .ok (some (if s = 1 then cstr "none" else cstr "pass")) := by
  intro l
  induction l with
  | nil => intro _; exact Or.inl rfl
  | cons kv rest ih =>
    intro hl
    obtain ⟨k, inst, hk1, hkN, hi, ha, hcv⟩ := hl kv (List.mem_cons_self _ _)
    simp only [find_seal, hi]
    by_cases hs : atoi_u inst = s
    · rw [if_pos hs]
      have hks : k = s := by rw [← ha, hs]
      subst hks
      exact Or.inr ⟨kv, rfl, hk1, hkN, hcv⟩
    · rw [if_neg hs]
      exact ih (fun k hk => hl k (List.mem_cons_of_mem _ hk))

theorem arc_eom_loop_no_seal (arc_validate : ARC_MESSAGE → Nat → ARC_STAT) (msg : ARC_MESSAGE)
    (N : Nat) (hseal : ∀ kv ∈ arc_sets_of msg .SEAL, ValidSeal N kv) (fuel s : Nat)
    (hs : s = 0 ∨ N < s) :
    arc_eom_loop arc_validate msg (fuel + 1) s = .error .assertion := by
  rcases find_seal_cases N s _ hseal with h | ⟨kv, _, h1, h2, _⟩
  · simp only [arc_eom_loop, h]
  · omega

theorem arc_eom_loop_runs_off (arc_validate : ARC_MESSAGE → Nat → ARC_STAT) (msg : ARC_MESSAGE)
    (N : Nat) (hN : N + 1 < UINT_MOD) (hseal : ∀ kv ∈ arc_sets_of msg .SEAL, ValidSeal N kv)
    (hv : ∀ s, arc_validate msg s = .OK) :
    ∀ (d fuel s : Nat), s + d = N + 1 → d < fuel →
      arc_eom_loop arc_validate msg fuel s = .error .assertion := by
  intro d
  induction d with
  | zero =>
    intro fuel s hs hf
    obtain ⟨f, rfl⟩ : ∃ f, fuel = f + 1 := ⟨fuel - 1, by omega⟩
    exact arc_eom_loop_no_seal arc_validate msg N hseal f s (Or.inr (by omega))
  | succ d ih =>
    intro fuel s hs hf
    obtain ⟨f, rfl⟩ : ∃ f, fuel = f + 1 := ⟨fuel - 1, by omega⟩
    rcases find_seal_cases N s _ hseal with h | ⟨kv, h, h1, h2, hcv⟩
    · simp only [arc_eom_loop, h]
    · have hnext : (s + 1) % UINT_MOD = s + 1 := Nat.mod_eq_of_lt (by omega)
      have hrec := ih f (s + 1) (by omega) (by omega)
      have hs0 : s ≠ 0 := by omega
      simp only [arc_eom_loop, h, hcv, hv, hnext, hrec]
      by_cases hs1 : s = 1
      · simp [hs1]
      · simp [hs1, hs0]

/-! ## Lemmas on the tag-list parser -/

theorem keeps_ok {α : Type} {P : ARC_KVSET → Prop} {sel : α → ARC_KVSET} {a : α}
    (h : P (sel a)) : Keeps P (.ok a) sel :=
  ⟨fun _ h1 => (by cases h1; exact h), fun _ h1 => (by cases h1)⟩

theorem keeps_error {α : Type} {P : ARC_KVSET → Prop} {sel : α → ARC_KVSET}
    {e : ARC_STAT × ARC_KVSET} (h : P e.2) (h2 : e.1 ≠ .OK) :
    Keeps P (.error e : Except (ARC_STAT × ARC_KVSET) α) sel :=
  ⟨fun _ h1 => (by cases h1), fun _ h1 => (by cases h1; exact ⟨h, h2⟩)⟩

theorem add_or_fail_keeps {P : ARC_KVSET → Prop} (hP : Kept P) (kv : ARC_KVSET)
    (param value : CStr) (force : Bool) (h : P kv) :
    Keeps P (add_or_fail kv param value force) id := by
  have h1 := hP.add kv param value force h
  unfold add_or_fail
  rcases hr : arc_add_plist kv param value force with ⟨ok, kv1⟩
  rw [hr] at h1
  cases ok
  · exact keeps_error (hP.bad _ h1) (fun hc => by cases hc)
  · exact keeps_ok h1

/-- The two `arc_add_plist` calls inside the scanning loop, with the reset of
the locals that follows them. -/
theorem add_and_reset_keeps {P : ARC_KVSET → Prop} (hP : Kept P) (st : ScanState)
    (param value : CStr) (h : P st.kv) :
    Keeps P
      (match add_or_fail st.kv param value true with
        | .error e => .error e
        | .ok kv1 => .ok { st with param := [], value := none, state := 0, kv := kv1 })
      ScanState.kv := by
  have h1 := add_or_fail_keeps hP st.kv param value true h
  rcases hr : add_or_fail st.kv param value true with e | kv1
  · exact keeps_error (h1.2 e hr).1 (h1.2 e hr).2
  · exact keeps_ok (h1.1 kv1 hr)

theorem scan_byte_keeps {P : ARC_KVSET → Prop} (hP : Kept P) (st : ScanState) (c : Nat)
    (h : P st.kv) : Keeps P (scan_byte st c) ScanState.kv := by
  have hbad : ∀ {α : Type} (sel : α → ARC_KVSET),
      Keeps P (.error (ARC_STAT.SYNTAX, mark_bad st.kv) : Except _ α) sel :=
    fun _ => keeps_error (hP.bad _ h) (fun hc => by cases hc)
  unfold scan_byte
  split_ifs
  · exact hbad _
  · exact keeps_ok h
  · exact keeps_ok h
  · exact hbad _
  · exact keeps_ok h
  · exact keeps_ok h
  · exact hbad _
  · exact keeps_ok h
  · exact keeps_ok h
  · exact add_and_reset_keeps hP st _ _ h
  · exact keeps_ok h
  · exact add_and_reset_keeps hP st _ _ h
  · exact keeps_ok h

theorem scan_loop_keeps {P : ARC_KVSET → Prop} (hP : Kept P) :
    ∀ (l : CStr) (st : ScanState), P st.kv → Keeps P (scan_loop st l) ScanState.kv := by
  intro l
  induction l with
  | nil => intro st h; exact keeps_ok h
  | cons c rest ih =>
    intro st h
    have h1 := scan_byte_keeps hP st c h
    unfold scan_loop
    rcases hr : scan_byte st c with e | st1
    · exact keeps_error (h1.2 e hr).1 (h1.2 e hr).2
    · exact ih st1 (h1.1 st1 hr)

theorem scan_end_keeps {P : ARC_KVSET → Prop} (hP : Kept P) (st : ScanState) (h : P st.kv) :
    Keeps P (scan_end st) id := by
  unfold scan_end
  split_ifs
  · cases st.value with
    | none => exact keeps_ok h
    | some v => exact add_or_fail_keeps hP _ _ _ _ h
  · exact add_or_fail_keeps hP _ _ _ _ h
  · exact keeps_error (hP.bad _ h) (fun hc => by cases hc)

theorem arc_add_plist_type (kv : ARC_KVSET) (param value : CStr) (force : Bool) :
    (arc_add_plist kv param value force).2.set_type = kv.set_type := by
  unfold arc_add_plist
  dsimp only
  split_ifs <;> rfl

theorem kept_type (t : arc_kvsettype_t) : Kept (fun kv => kv.set_type = t) :=
  ⟨fun kv p v f h => by rw [arc_add_plist_type]; exact h, fun _ h => h⟩

theorem add_default_keeps {P : ARC_KVSET → Prop} (hP : Kept P) (kv : ARC_KVSET)
    (param value : CStr) (h : P kv) : P (add_default kv param value).2 := by
  have h1 := hP.add kv param value false h
  unfold add_default
  rcases hr : arc_add_plist kv param value false with ⟨ok, kv1⟩
  rw [hr] at h1
  cases ok
  · exact hP.bad _ h1
  · exact h1

theorem set_defaults_keeps {P : ARC_KVSET → Prop} (hP : Kept P) (kv : ARC_KVSET) (h : P kv)
    (r : ARC_STAT × ARC_KVSET) (hr : set_defaults kv = .ok r) : P r.2 := by
  have hb := hP.bad kv h
  have hq := add_default_keeps hP kv (cstr "q") (cstr "dns/txt") h
  have hk := add_default_keeps hP kv (cstr "k") (cstr "rsa") h
  unfold set_defaults at hr
  split at hr
  · simp only [bind, Except.bind, pure, Except.pure] at hr
    repeat' split at hr
    all_goals first
      | (cases hr; exact hb)
      | (cases hr; exact hq)
      | cases hr
  · cases hr
    exact hk
  · cases hr

/-- The set `arc_process_set` links into the message has every property that
holds of the fresh set and is kept by `arc_add_plist` and by the marking as
bad. -/
theorem arc_process_set_keeps {P : ARC_KVSET → Prop} (hP : Kept P) (msg : ARC_MESSAGE)
    (type : arc_kvsettype_t) (str : List Nat) (len : Nat) (h0 : P (ARC_KVSET.init type))
    (status : ARC_STAT) (m : ARC_MESSAGE)
    (h : arc_process_set msg type str len = .ok (status, m)) :
    ∃ kv, m = link_set msg kv ∧ P kv := by
  have h1 := scan_loop_keeps hP ((str.take len).takeWhile (fun c => c != 0))
    { state := 0, spaced := false, param := [], value := none, kv := ARC_KVSET.init type } h0
  unfold arc_process_set at h
  dsimp only at h
  rcases hr : scan_loop _ _ with ⟨status1, kv⟩ | st
  · rw [hr] at h
    cases h
    exact ⟨kv, rfl, (h1.2 _ hr).1⟩
  · rw [hr] at h
    have h2 := scan_end_keeps hP st (h1.1 st hr)
    dsimp only at h
    rcases hr2 : scan_end st with ⟨status1, kv⟩ | kv
    · rw [hr2] at h
      cases h
      exact ⟨kv, rfl, (h2.2 _ hr2).1⟩
    · rw [hr2] at h
      dsimp only at h
      rcases hr3 : set_defaults kv with f | ⟨status1, kv1⟩
      · rw [hr3] at h
        cases h
      · rw [hr3] at h
        cases h
        exact ⟨kv1, rfl, set_defaults_keeps hP kv (h2.1 kv hr2) _ hr3⟩

/-! ### Buckets are keyed by the exact first byte -/

theorem bucket_set_value_names (p : ARC_PLIST → Bool) (value : CStr) :
    ∀ b : List ARC_PLIST,
      (bucket_set_value p value b).map (·.plist_param) = b.map (·.plist_param) := by
  intro b
  induction b with
  | nil => rfl
  | cons pl rest ih =>
    unfold bucket_set_value
    split_ifs
    · rfl
    · simp only [List.map_cons, ih]

theorem bucketInv_iff_names (n : Nat) (b : List ARC_PLIST) :
    BucketInv n b ↔
      (∀ q ∈ b.map (·.plist_param), first_byte q = n + 32) ∧
        (b.map (·.plist_param)).Pairwise (fun x y => strcasecmp_eq x y = false) := by
  unfold BucketInv
  rw [List.pairwise_map, List.forall_mem_map]

theorem strcasecmp_eq_comm (a b : CStr) : strcasecmp_eq a b = strcasecmp_eq b a := by
  unfold strcasecmp_eq
  by_cases h : a.map tolower = b.map tolower
  · rw [h]
  · have h1 : (a.map tolower == b.map tolower) = false := by simpa using h
    have h2 : (b.map tolower == a.map tolower) = false := by simpa using fun e => h e.symm
    rw [h1, h2]

theorem caseKeyed_init (type : arc_kvsettype_t) : CaseKeyed (ARC_KVSET.init type) := by
  refine ⟨by simp [ARC_KVSET.init], ?_⟩
  intro n b hb
  simp only [ARC_KVSET.init, List.getElem?_replicate] at hb
  split_ifs at hb
  cases hb
  exact ⟨fun _ h => (by cases h), List.Pairwise.nil⟩

theorem caseKeyed_set (kv : ARC_KVSET) (n : Nat) (b1 : List ARC_PLIST) (h : CaseKeyed kv)
    (hb : BucketInv n b1) : CaseKeyed { kv with set_plist := kv.set_plist.set n b1 } := by
  refine ⟨by simpa using h.1, ?_⟩
  intro m b hm
  simp only [List.getElem?_set] at hm
  split_ifs at hm with h1 h2
  · cases hm
    subst h1
    exact hb
  · exact h.2 m b hm

theorem caseKeyed_add (kv : ARC_KVSET) (param value : CStr) (force : Bool) (h : CaseKeyed kv) :
    CaseKeyed (arc_add_plist kv param value force).2 := by
  unfold arc_add_plist
  dsimp only
  split_ifs with h1 h2 h3
  · exact h
  · have hp : isprint (first_byte param) = true := by simpa using h1
    simp only [isprint, Bool.and_eq_true, decide_eq_true_eq] at hp
    have hlen : first_byte param - 32 < kv.set_plist.length := by
      rw [h.1]; unfold NPRINTABLE; omega
    have hget : kv.set_plist[first_byte param - 32]? =
        some (kv.set_plist.getD (first_byte param - 32) []) := by
      simp [List.getElem?_eq_getElem hlen]
    have hb := h.2 _ _ hget
    apply caseKeyed_set kv _ _ h
    rw [bucketInv_iff_names, bucket_set_value_names, ← bucketInv_iff_names]
    exact hb
  · exact h
  · have hp : isprint (first_byte param) = true := by simpa using h1
    simp only [isprint, Bool.and_eq_true, decide_eq_true_eq] at hp
    have hlen : first_byte param - 32 < kv.set_plist.length := by
      rw [h.1]; unfold NPRINTABLE; omega
    have hget : kv.set_plist[first_byte param - 32]? =
        some (kv.set_plist.getD (first_byte param - 32) []) := by
      simp [List.getElem?_eq_getElem hlen]
    have hb := h.2 _ _ hget
    apply caseKeyed_set kv _ _ h
    refine ⟨?_, ?_⟩
    · intro pl hpl
      rcases List.mem_cons.mp hpl with rfl | hpl
      · show first_byte param = first_byte param - 32 + 32
        omega
      · exact hb.1 pl hpl
    · rw [List.pairwise_cons]
      refine ⟨?_, hb.2⟩
      intro y hy
      show strcasecmp_eq param y.plist_param = false
      rw [strcasecmp_eq_comm]
      have hn : ¬ ∃ x ∈ kv.set_plist.getD (first_byte param - 32) [],
          strcasecmp_eq x.plist_param param = true := by
        simpa [List.any_eq_true] using h2
      cases hc : strcasecmp_eq y.plist_param param
      · rfl
      · exact absurd ⟨y, hy, hc⟩ hn

theorem kept_caseKeyed : Kept CaseKeyed :=
  ⟨caseKeyed_add, fun _ h => h⟩

theorem find_exact_name : ∀ (b : List ARC_PLIST) (pl : ARC_PLIST),
    b.Pairwise (fun x y => strcasecmp_eq x.plist_param y.plist_param = false) → pl ∈ b →
      b.find? (fun x => strcmp_eq x.plist_param pl.plist_param) = some pl := by
  intro b
  induction b with
  | nil => intro pl _ h; cases h
  | cons x rest ih =>
    intro pl hpw hpl
    rw [List.pairwise_cons] at hpw
    rcases List.mem_cons.mp hpl with rfl | hmem
    · have he : strcmp_eq pl.plist_param pl.plist_param = true := by simp [strcmp_eq]
      simp only [List.find?_cons, he]
    · have hne : strcmp_eq x.plist_param pl.plist_param = false := by
        cases he : strcmp_eq x.plist_param pl.plist_param
        · rfl
        · have he1 : x.plist_param = pl.plist_param := by simpa [strcmp_eq] using he
          have hf := hpw.1 pl hmem
          rw [he1] at hf
          simp [strcasecmp_eq] at hf
      simp only [List.find?_cons, hne]
      exact ih pl hpw.2 hmem

/-- Lookup returns a value only from an entry stored under exactly the bytes
asked for. -/
theorem arc_param_get_exact (kv : ARC_KVSET) (p v : CStr)
    (h : arc_param_get kv p = .ok (some v)) :
    ∃ b ∈ kv.set_plist, ∃ pl ∈ b, pl.plist_param = p ∧ pl.plist_value = v := by
  unfold arc_param_get at h
  rcases hb : plist_bucket kv (first_byte p) with _ | bucket
  · rw [hb] at h
    cases h
  · rw [hb] at h
    dsimp only at h
    rcases hf : bucket.find? (fun pl => strcmp_eq pl.plist_param p) with _ | pl
    · rw [hf] at h
      cases h
    · rw [hf] at h
      have hv : pl.plist_value = v := by
        injection h with h
        simpa using h
      have hmem : bucket ∈ kv.set_plist := by
        unfold plist_bucket at hb
        split_ifs at hb
        exact List.getElem?_mem hb
      have hname : pl.plist_param = p := by
        have := List.find?_some hf
        simpa [strcmp_eq] using this
      exact ⟨bucket, hmem, pl, List.mem_of_find?_eq_some hf, hname, hv⟩

/-- In a well keyed set every stored entry is found under its exact name. -/
theorem arc_param_get_stored (kv : ARC_KVSET) (h : CaseKeyed kv) (b : List ARC_PLIST)
    (hb : b ∈ kv.set_plist) (pl : ARC_PLIST) (hpl : pl ∈ b) :
    arc_param_get kv pl.plist_param = .ok (some pl.plist_value) := by
  obtain ⟨n, hn⟩ := List.mem_iff_getElem?.mp hb
  have hinv := h.2 n b hn
  have hfb := hinv.1 pl hpl
  have hbucket : plist_bucket kv (first_byte pl.plist_param) = some b := by
    unfold plist_bucket
    rw [hfb, if_neg (by omega)]
    simpa using hn
  unfold arc_param_get
  rw [hbucket]
  dsimp only
  rw [find_exact_name b pl hinv.2 hpl]
  rfl

/-- The lookup is by exact name.  In the set that `arc_process_set` links into
the message, whatever status it returns, `arc_param_get` yields a value only
from an entry stored under exactly the bytes asked for, and yields the value
of every stored entry under its exact name; the table has one bucket per first
byte, and no bucket holds two names that are equal up to ASCII letter case. -/
theorem parsed_set_lookup_exact (msg : ARC_MESSAGE) (type : arc_kvsettype_t)
    (str : List Nat) (len : Nat) (status : ARC_STAT) (m : ARC_MESSAGE)
    (h : arc_process_set msg type str len = .ok (status, m)) :
    ∃ kv, m = link_set msg kv ∧
      (∀ p v, arc_param_get kv p = .ok (some v) →
        ∃ b ∈ kv.set_plist, ∃ pl ∈ b, pl.plist_param = p ∧ pl.plist_value = v) ∧
      (∀ b ∈ kv.set_plist, ∀ pl ∈ b,
        arc_param_get kv pl.plist_param = .ok (some pl.plist_value)) ∧
      kv.set_plist.length = NPRINTABLE ∧
      (∀ n b, kv.set_plist[n]? = some b →
        (∀ pl ∈ b, first_byte pl.plist_param = n + 32) ∧
        b.Pairwise (fun x y => strcasecmp_eq x.plist_param y.plist_param = false)) := by
  obtain ⟨kv, hm, hkv⟩ :=
    arc_process_set_keeps kept_caseKeyed msg type str len (caseKeyed_init type) status m h
  exact ⟨kv, hm, arc_param_get_exact kv, arc_param_get_stored kv hkv, hkv.1, hkv.2⟩

/-! ## Lemmas on the header store -/


theorem body_byte_rejected_false (b : Nat) : body_byte_rejected b = false := by
  unfold body_byte_rejected
  by_cases h : b = 9
  · simp [h]
  · simp [h]

theorem rfc5322_loop_body (k : Nat) : ∀ (l : List Nat) (c : Nat),
    rfc5322_loop (some k) c l = .ok (some k) := by
  intro l
  induction l with
  | nil => intro c; rfl
  | cons b rest ih =>
    intro c
    simp only [rfc5322_loop, body_byte_rejected_false]
    exact ih (c + 1)

theorem rfc5322_loop_name (post : List Nat) : ∀ (pre : List Nat) (c : Nat), NameBytes pre →
    rfc5322_loop none c (pre ++ 58 :: post) = .ok (some (c + pre.length)) := by
  intro pre
  induction pre with
  | nil =>
    intro c _
    rw [List.nil_append]
    simp only [rfc5322_loop, List.length_nil, Nat.add_zero]
    rw [if_neg (by omega), if_pos trivial]
    exact rfc5322_loop_body c post (c + 1)
  | cons b rest ih =>
    intro c h
    obtain ⟨h1, h2, h3⟩ := h b (List.mem_cons_self _ _)
    rw [List.cons_append]
    simp only [rfc5322_loop]
    rw [if_neg (by omega), if_neg h3, ih (c + 1) (fun x hx => h x (List.mem_cons_of_mem _ hx))]
    simp only [List.length_cons]
    congr 2
    omega

theorem rfc5322_loop_inv : ∀ (l : List Nat) (c k : Nat),
    rfc5322_loop none c l = .ok (some k) →
      ∃ pre post, l = pre ++ 58 :: post ∧ k = c + pre.length ∧ NameBytes pre := by
  intro l
  induction l with
  | nil => intro c k h; cases h
  | cons b rest ih =>
    intro c k h
    simp only [rfc5322_loop] at h
    split_ifs at h with h1 h2
    · rw [rfc5322_loop_body] at h
      cases h
      exact ⟨[], rest, by simp [h2], rfl, fun _ hx => by cases hx⟩
    · obtain ⟨pre, post, hl, hk, hn⟩ := ih (c + 1) k h
      refine ⟨b :: pre, post, by simp [hl], by simp [hk]; omega, ?_⟩
      intro x hx
      rcases List.mem_cons.mp hx with rfl | hx
      · exact ⟨by omega, by omega, h2⟩
      · exact hn x hx

theorem rfc5322_loop_no_colon : ∀ (l : List Nat) (c : Nat), 58 ∉ l →
    rfc5322_loop none c l = .error .SYNTAX ∨ rfc5322_loop none c l = .ok none := by
  intro l
  induction l with
  | nil => intro c _; exact Or.inr rfl
  | cons b rest ih =>
    intro c h
    simp only [rfc5322_loop]
    split_ifs with h1 h2
    · exact Or.inl rfl
    · exact absurd (h2 ▸ List.mem_cons_self _ _) h
    · exact ih (c + 1) (fun hx => h (List.mem_cons_of_mem _ hx))

theorem rfc5322_loop_bad_name (post : List Nat) : ∀ (pre : List Nat) (c : Nat), 58 ∉ pre →
    (∃ b ∈ pre, isprint b = false) →
    rfc5322_loop none c (pre ++ 58 :: post) = .error .SYNTAX := by
  intro pre
  induction pre with
  | nil => intro c _ h; obtain ⟨b, hb, _⟩ := h; cases hb
  | cons b rest ih =>
    intro c h58 hbad
    rw [List.cons_append]
    simp only [rfc5322_loop]
    split_ifs with h1 h2
    · rfl
    · exact absurd (h2 ▸ List.mem_cons_self _ _) h58
    · apply ih (c + 1) (fun hx => h58 (List.mem_cons_of_mem _ hx))
      obtain ⟨x, hx, hxp⟩ := hbad
      rcases List.mem_cons.mp hx with rfl | hx
      · simp only [isprint, Bool.and_eq_false_imp, decide_eq_true_eq, decide_eq_false_iff_not] at hxp
        omega
      · exact ⟨x, hx, hxp⟩

theorem rfc5322_loop_first_colon (post : List Nat) : ∀ (pre : List Nat) (c : Nat), 58 ∉ pre →
    rfc5322_loop none c (pre ++ 58 :: post) = .error .SYNTAX ∨
      rfc5322_loop none c (pre ++ 58 :: post) = .ok (some (c + pre.length)) := by
  intro pre c h58
  by_cases hb : ∃ b ∈ pre, isprint b = false
  · exact Or.inl (rfc5322_loop_bad_name post pre c h58 hb)
  · right
    apply rfc5322_loop_name
    intro b hbm
    have hp : isprint b = true := by
      cases hq : isprint b
      · exact absurd ⟨b, hbm, hq⟩ hb
      · rfl
    simp only [isprint, Bool.and_eq_true, decide_eq_true_eq] at hp
    exact ⟨hp.1, hp.2, fun h => h58 (h ▸ hbm)⟩

theorem memchr_mem (c : Nat) (rest : List Nat) : ∀ pre : List Nat, c ∈ pre →
    ∃ s, memchr c (pre ++ rest) = some s ∧ s < pre.length := by
  intro pre
  induction pre with
  | nil => intro h; cases h
  | cons b tl ih =>
    intro h
    rw [List.cons_append]
    simp only [memchr]
    split_ifs with hb
    · exact ⟨0, rfl, by simp⟩
    · have : c ∈ tl := by
        rcases List.mem_cons.mp h with rfl | h
        · exact absurd rfl hb
        · exact h
      obtain ⟨s, hs, hlt⟩ := ih this
      exact ⟨s + 1, by simp [hs], by simp; omega⟩

theorem memchr_not_mem (c : Nat) (rest : List Nat) : ∀ pre : List Nat, c ∉ pre →
    ∀ s, memchr c (pre ++ rest) = some s → pre.length ≤ s := by
  intro pre
  induction pre with
  | nil => intro _ s _; simp
  | cons b tl ih =>
    intro h s hs
    rw [List.cons_append] at hs
    simp only [memchr] at hs
    split_ifs at hs with hb
    · exact absurd (hb ▸ List.mem_cons_self _ _) h
    · rcases hm : memchr c (tl ++ rest) with _ | s1
      · rw [hm] at hs; cases hs
      · rw [hm] at hs
        cases hs
        have := ih (fun hx => h (List.mem_cons_of_mem _ hx)) s1 hm
        simp only [List.length_cons]
        omega

/-- What `arc_header_field` does when the loop has found the colon at `colon`
and the message may still take headers. -/
theorem arc_header_field_colon (msg : ARC_MESSAGE) (hdr : List Nat) (colon : Nat)
    (hne : hdr ≠ []) (hstate : msg.arc_state ≤ ARC_STATE_HEADER)
    (hloop : rfc5322_loop none 0 hdr = .ok (some colon)) :
    arc_header_field msg hdr =
      if semicolon_in_name hdr colon = true
      then .ok (.SYNTAX, { msg with arc_state := ARC_STATE_HEADER })
      else .ok (.OK, store_header { msg with arc_state := ARC_STATE_HEADER } hdr colon
        (name_end hdr colon)) := by
  have h1 : ¬ hdr.length = 0 := fun h => hne (List.length_eq_zero.mp h)
  have h2 : ¬ msg.arc_state > ARC_STATE_HEADER := by omega
  simp only [arc_header_field, h1, h2, if_false, hloop]


theorem name_end_append : ∀ (pre rest : List Nat),
    name_end (pre ++ rest) pre.length =
      ((pre.reverse.dropWhile (fun b => isascii b && isspace b)).reverse).length := by
  intro pre
  induction pre using List.reverseRecOn with
  | nil => intro rest; rfl
  | append_singleton init b ih =>
    intro rest
    have hget : (init ++ [b] ++ rest).getD init.length 0 = b := by
      rw [List.append_assoc, List.getD_eq_getElem?_getD,
        List.getElem?_append_right (Nat.le_refl _)]
      simp
    rw [List.length_append, List.length_singleton, name_end, hget, List.reverse_append,
      List.reverse_singleton, List.singleton_append, List.dropWhile_cons]
    split_ifs with hb
    · rw [List.append_assoc, ih]
    · simp

theorem dropWhile_congr_mem {p q : Nat → Bool} : ∀ l : List Nat, (∀ b ∈ l, p b = q b) →
    l.dropWhile p = l.dropWhile q := by
  intro l
  induction l with
  | nil => intro _; rfl
  | cons b rest ih =>
    intro h
    rw [List.dropWhile_cons, List.dropWhile_cons, h b (List.mem_cons_self _ _),
      ih (fun x hx => h x (List.mem_cons_of_mem _ hx))]

theorem strip_trailing_space_initial (pre : List Nat) : strip_trailing_space pre <+: pre := by
  unfold strip_trailing_space
  refine ⟨(pre.reverse.takeWhile isspace).reverse, ?_⟩
  rw [← List.reverse_append, List.takeWhile_append_dropWhile, List.reverse_reverse]

/-- The end of the name that the source computes is the length of the bytes
before the colon without their trailing white space. -/
theorem name_end_strip (pre rest : List Nat) (hname : NameBytes pre) :
    name_end (pre ++ rest) pre.length = (strip_trailing_space pre).length ∧
      (pre ++ rest).take (name_end (pre ++ rest) pre.length) = strip_trailing_space pre := by
  have h1 : name_end (pre ++ rest) pre.length = (strip_trailing_space pre).length := by
    rw [name_end_append]
    unfold strip_trailing_space
    rw [dropWhile_congr_mem pre.reverse]
    intro b hb
    have hb1 := hname b (List.mem_reverse.mp hb)
    have : isascii b = true := by simp [isascii]; omega
    rw [this, Bool.true_and]
  refine ⟨h1, ?_⟩
  rw [h1]
  have hp : strip_trailing_space pre <+: pre ++ rest :=
    (strip_trailing_space_initial pre).trans (List.prefix_append pre rest)
  exact (List.prefix_iff_eq_take.mp hp).symm

theorem fixcrlf_loop_name (post : List Nat) : ∀ (pre : List Nat) (prev : Nat), NameBytes pre →
    prev ≠ 13 → fixcrlf_loop prev (pre ++ 58 :: post) = pre ++ 58 :: fixcrlf_loop 58 post := by
  intro pre
  induction pre with
  | nil =>
    intro prev _ hp
    rw [List.nil_append, List.nil_append]
    simp only [fixcrlf_loop]
    rw [if_neg (by omega), if_neg (by omega), if_neg (by omega)]
    rfl
  | cons b rest ih =>
    intro prev h hp
    obtain ⟨h1, h2, h3⟩ := h b (List.mem_cons_self _ _)
    rw [List.cons_append]
    simp only [fixcrlf_loop]
    rw [if_neg (by omega), if_neg (by omega), if_neg (by omega),
      ih b (fun x hx => h x (List.mem_cons_of_mem _ hx)) (by omega)]
    rfl

theorem rfc5322_loop_error : ∀ (l : List Nat) (colon : Option Nat) (c : Nat) (st : ARC_STAT),
    rfc5322_loop colon c l = .error st → st = .SYNTAX := by
  intro l
  induction l with
  | nil => intro colon c st h; cases colon <;> cases h
  | cons b rest ih =>
    intro colon c st h
    cases colon with
    | none =>
      simp only [rfc5322_loop] at h
      split_ifs at h
      · cases h; rfl
      · exact ih _ _ _ h
      · exact ih _ _ _ h
    | some k =>
      simp only [rfc5322_loop] at h
      split_ifs at h
      · cases h; rfl
      · exact ih _ _ _ h

/-- What an accepted call has done: the line has a first colon after name
bytes without `;`, and the message is the one `store_header` builds. -/
theorem arc_header_field_accepted (msg : ARC_MESSAGE) (hdr : List Nat) (m : ARC_MESSAGE)
    (h : arc_header_field msg hdr = .ok (.OK, m)) :
    ∃ pre post, hdr = pre ++ 58 :: post ∧ NameBytes pre ∧
      m = store_header { msg with arc_state := ARC_STATE_HEADER } hdr pre.length
        (name_end hdr pre.length) := by
  unfold arc_header_field at h
  split_ifs at h with h1 h2
  · cases h
  · rcases hl : rfc5322_loop none 0 hdr with st | _ | colon
    · rw [hl] at h
      have hst := rfc5322_loop_error hdr none 0 st hl
      subst hst
      cases h
    · rw [hl] at h
      cases h
    · rw [hl] at h
      dsimp only at h
      obtain ⟨pre, post, hh, hk, hn⟩ := rfc5322_loop_inv hdr 0 colon hl
      rw [Nat.zero_add] at hk
      subst hk
      split_ifs at h with h3
      · injection h with h
        injection h with hc _
        cases hc
      · injection h with h
        injection h with _ h
        exact ⟨pre, post, hh, hn, h.symm⟩

/-- The loop of the source against the replacement the spec words: the loop
emits the LF of a bare CR one byte late. -/
theorem fixcrlf_loop_eq : ∀ (l : List Nat) (prev : Nat), 0 ∉ l →
    fixcrlf_loop prev l =
      (if prev = 13 ∧ l.head? ≠ some 10 then [10] else []) ++ crlf_normal prev l := by
  intro l
  induction l with
  | nil =>
    intro prev _
    simp [fixcrlf_loop, crlf_normal]
  | cons c rest ih =>
    intro prev h0
    have hc0 : c ≠ 0 := fun h => h0 (h ▸ List.mem_cons_self _ _)
    have ih1 := ih c (fun hx => h0 (List.mem_cons_of_mem _ hx))
    simp only [fixcrlf_loop, crlf_normal, List.head?_cons, if_neg hc0]
    rw [ih1]
    by_cases h10 : c = 10
    · subst h10
      by_cases hp : prev = 13
      · subst hp
        simp
      · simp [hp]
    · by_cases h13 : c = 13
      · subst h13
        by_cases hp : prev = 13
        · subst hp
          by_cases hr : rest.head? = some 10
          · simp [hr]
          · simp [hr]
        · by_cases hr : rest.head? = some 10
          · simp [hp, hr]
          · simp [hp, hr]
      · by_cases hp : prev = 13
        · subst hp
          simp [h10, h13]
        · simp [h10, h13, hp]

theorem canonicalAfter_congr : ∀ (l : List Nat) (p q : Nat), p ≠ 13 → q ≠ 13 →
    CanonicalAfter p l → CanonicalAfter q l := by
  intro l p q hp hq h
  cases l with
  | nil => exact hq
  | cons c rest =>
    obtain ⟨h1, _, h3⟩ := h
    exact ⟨fun hc => absurd (h1 hc) hp, fun hc => absurd hc hq, h3⟩

theorem crlf_normal_canonicalAfter : ∀ (l : List Nat) (prev : Nat),
    CanonicalAfter (if prev = 13 ∧ l.head? = some 10 then 13 else 0) (crlf_normal prev l) := by
  intro l
  induction l with
  | nil =>
    intro prev
    simp [crlf_normal, CanonicalAfter]
  | cons c rest ih =>
    intro prev
    have ih1 := ih c
    simp only [crlf_normal, List.head?_cons]
    by_cases h10 : c = 10
    · subst h10
      have ih2 : CanonicalAfter 10 (crlf_normal 10 rest) := by
        rw [if_neg (by simp)] at ih1
        exact canonicalAfter_congr _ 0 10 (by decide) (by decide) ih1
      by_cases hp : prev = 13
      · subst hp
        simp [CanonicalAfter, ih2]
      · simp [CanonicalAfter, hp, ih2]
    · by_cases h13 : c = 13
      · subst h13
        by_cases hr : rest.head? = some 10
        · rw [if_pos ⟨rfl, hr⟩] at ih1
          simp [CanonicalAfter, hr, ih1]
        · rw [if_neg (by simp [hr])] at ih1
          have ih2 := canonicalAfter_congr _ 0 10 (by decide) (by decide) ih1
          simp [CanonicalAfter, hr, ih2]
      · rw [if_neg (fun h => h13 h.1)] at ih1
        have ih2 := canonicalAfter_congr _ 0 c (by decide) h13 ih1
        simp [CanonicalAfter, h10, h13, ih2]

theorem crlf_normal_of_canonicalAfter : ∀ (l : List Nat) (prev : Nat),
    CanonicalAfter prev l → crlf_normal prev l = l := by
  intro l
  induction l with
  | nil => intro _ _; rfl
  | cons c rest ih =>
    intro prev h
    obtain ⟨h1, h2, h3⟩ := h
    simp only [crlf_normal]
    rw [ih c h3]
    have hA : ¬ (c = 10 ∧ prev ≠ 13) := fun hx => hx.2 (h1 hx.1)
    have hB : ¬ (c = 13 ∧ rest.head? ≠ some 10) := by
      intro hx
      apply hx.2
      cases rest with
      | nil => exact absurd hx.1 h3
      | cons d tl => rw [List.head?_cons, h3.2.1 hx.1]
    rw [if_neg hA, if_neg hB]
    rfl

/-- The form `CanonicalAfter` in terms of positions. -/
theorem canonicalAfter_iff : ∀ (t : List Nat) (prev : Nat),
    CanonicalAfter prev t ↔
      (prev = 13 → t[0]? = some 10) ∧ (∀ i, t[i]? = some 13 → t[i + 1]? = some 10) ∧
        (∀ i, t[i]? = some 10 → (i = 0 ∧ prev = 13) ∨ ∃ j, i = j + 1 ∧ t[j]? = some 13) := by
  intro t
  induction t with
  | nil =>
    intro prev
    simp [CanonicalAfter]
  | cons c rest ih =>
    intro prev
    simp only [CanonicalAfter, ih c]
    constructor
    · rintro ⟨h1, h2, hA, hB, hC⟩
      refine ⟨fun hp => by simp [h2 hp], ?_, ?_⟩
      · intro i hi
        cases i with
        | zero =>
          simp only [List.getElem?_cons_zero, Option.some.injEq] at hi
          simpa using hA hi
        | succ j =>
          simp only [List.getElem?_cons_succ] at hi ⊢
          exact hB j hi
      · intro i hi
        cases i with
        | zero =>
          simp only [List.getElem?_cons_zero, Option.some.injEq] at hi
          exact Or.inl ⟨rfl, h1 hi⟩
        | succ k =>
          simp only [List.getElem?_cons_succ] at hi
          right
          refine ⟨k, rfl, ?_⟩
          rcases hC k hi with ⟨hk, hc⟩ | ⟨j, hj, hr⟩
          · subst hk
            simp [hc]
          · subst hj
            simpa using hr
    · rintro ⟨hA, hB, hC⟩
      refine ⟨?_, ?_, ?_, ?_, ?_⟩
      · intro hc
        rcases hC 0 (by simp [hc]) with ⟨_, hp⟩ | ⟨j, hj, _⟩
        · exact hp
        · omega
      · intro hp
        simpa using hA hp
      · intro hc
        simpa using hB 0 (by simp [hc])
      · intro j hj
        simpa using hB (j + 1) (by simpa using hj)
      · intro k hk
        rcases hC (k + 1) (by simpa using hk) with ⟨h0, _⟩ | ⟨j, hj, hr⟩
        · omega
        · have hjk : j = k := by omega
          subst hjk
          cases j with
          | zero =>
            left
            exact ⟨rfl, by simpa using hr⟩
          | succ j1 =>
            right
            exact ⟨j1, rfl, by simpa using hr⟩

theorem canonicalCRLF_iff (t : List Nat) : CanonicalCRLF t ↔ CanonicalAfter 0 t := by
  rw [canonicalAfter_iff]
  unfold CanonicalCRLF
  constructor
  · rintro ⟨h1, h2⟩
    refine ⟨fun h => by omega, h1, fun i hi => Or.inr (h2 i hi)⟩
  · rintro ⟨_, h1, h2⟩
    refine ⟨h1, fun i hi => ?_⟩
    rcases h2 i hi with ⟨_, h⟩ | h
    · omega
    · exact h

/-! ## Lemmas on the parameters of a signature -/

/-- The function `arc_process_set` on a tag-list that scans without error to
the set `kv`: the set has the type asked for and is well keyed, and what is
left is the switch on the set type. -/
theorem arc_process_set_scanned (msg : ARC_MESSAGE) (type : arc_kvsettype_t) (str : List Nat)
    (len : Nat) (st : ScanState) (kv : ARC_KVSET)
    (hscan : scan_loop (scan_start type) (hcopy_of str len) = .ok st)
    (hend : scan_end st = .ok kv) :
    kv.set_type = type ∧ CaseKeyed kv ∧
      (∀ f, set_defaults kv = .error f → arc_process_set msg type str len = .error f) ∧
      (∀ status kv1, set_defaults kv = .ok (status, kv1) →
        arc_process_set msg type str len = .ok (status, link_set msg kv1)) := by
  have ht1 := scan_loop_keeps (kept_type type) (hcopy_of str len) (scan_start type) rfl
  have ht2 := scan_end_keeps (kept_type type) st (ht1.1 st hscan)
  have hc1 := scan_loop_keeps kept_caseKeyed (hcopy_of str len) (scan_start type)
    (caseKeyed_init type)
  have hc2 := scan_end_keeps kept_caseKeyed st (hc1.1 st hscan)
  unfold scan_start hcopy_of at hscan
  refine ⟨ht2.1 kv hend, hc2.1 kv hend, ?_, ?_⟩
  · intro f hf
    unfold arc_process_set
    simp only [hscan, hend, hf]
  · intro status kv1 hf
    unfold arc_process_set
    simp only [hscan, hend, hf]

/-- In a well keyed set, lookup of a name with a printable first byte does
not fault. -/
theorem arc_param_get_total (kv : ARC_KVSET) (h : CaseKeyed kv) (p : CStr)
    (hp : isprint (first_byte p) = true) : ∃ r, arc_param_get kv p = .ok r := by
  simp only [isprint, Bool.and_eq_true, decide_eq_true_eq] at hp
  have hlen : first_byte p - 32 < kv.set_plist.length := by
    rw [h.1]; unfold NPRINTABLE; omega
  unfold arc_param_get plist_bucket
  rw [if_neg (by omega), List.getElem?_eq_getElem hlen]
  exact ⟨_, rfl⟩

theorem arc_param_get_of_not_stored (kv : ARC_KVSET) (h : CaseKeyed kv) (p : CStr)
    (hp : isprint (first_byte p) = true) (hs : ¬ Stored kv p) : arc_param_get kv p = .ok none := by
  obtain ⟨r, hr⟩ := arc_param_get_total kv h p hp
  cases r with
  | none => exact hr
  | some v =>
    obtain ⟨b, hb, pl, hpl, hn, _⟩ := arc_param_get_exact kv p v hr
    exact absurd ⟨b, hb, pl, hpl, hn⟩ hs

theorem arc_param_get_of_stored (kv : ARC_KVSET) (h : CaseKeyed kv) (p : CStr)
    (hs : Stored kv p) : Found p kv := by
  obtain ⟨b, hb, pl, hpl, hn⟩ := hs
  exact ⟨pl.plist_value, hn ▸ arc_param_get_stored kv h b hb pl hpl⟩

theorem mandatoryLookups_exist (kv : ARC_KVSET) (h : CaseKeyed kv) :
    ∃ s h d b v i a, MandatoryLookups kv s h d b v i a := by
  obtain ⟨s, hs⟩ := arc_param_get_total kv h (cstr "s") (by decide)
  obtain ⟨h1, hh⟩ := arc_param_get_total kv h (cstr "h") (by decide)
  obtain ⟨d, hd⟩ := arc_param_get_total kv h (cstr "d") (by decide)
  obtain ⟨b, hb⟩ := arc_param_get_total kv h (cstr "b") (by decide)
  obtain ⟨v, hv⟩ := arc_param_get_total kv h (cstr "v") (by decide)
  obtain ⟨i, hi⟩ := arc_param_get_total kv h (cstr "i") (by decide)
  obtain ⟨a, ha⟩ := arc_param_get_total kv h (cstr "a") (by decide)
  exact ⟨s, h1, d, b, v, i, a, ⟨hs, hh, hd, hb, hv, hi, ha⟩⟩

theorem set_defaults_missing (kv : ARC_KVSET) (hty : kv.set_type = .SIGNATURE)
    (s h d b v i a : Option CStr) (hl : MandatoryLookups kv s h d b v i a)
    (hm : (s.isNone || h.isNone || d.isNone || b.isNone || v.isNone || i.isNone || a.isNone)
      = true) :
    set_defaults kv = .ok (.SYNTAX, mark_bad kv) := by
  unfold set_defaults
  rw [hty]
  simp only [hl.hs, hl.hh, hl.hd, hl.hb, hl.hv, hl.hi, hl.ha, bind, Except.bind, hm, if_true,
    pure, Except.pure]

theorem set_defaults_forbidden (kv : ARC_KVSET) (hty : kv.set_type = .SIGNATURE)
    (s h d b v i a : Option CStr) (hl : MandatoryLookups kv s h d b v i a)
    (hm : (s.isNone || h.isNone || d.isNone || b.isNone || v.isNone || i.isNone || a.isNone)
      = false)
    (hf : (strtok_tokens 58 [] (h.getD [])).any is_arc_header = true) :
    set_defaults kv = .ok (.INTERNAL, mark_bad kv) := by
  unfold set_defaults
  rw [hty]
  simp only [hl.hs, hl.hh, hl.hd, hl.hb, hl.hv, hl.hi, hl.ha, bind, Except.bind, hm, hf, if_true,
    pure, Except.pure]
  rfl

theorem set_defaults_no_t (kv : ARC_KVSET) (hty : kv.set_type = .SIGNATURE)
    (s h d b v i a : Option CStr) (hl : MandatoryLookups kv s h d b v i a)
    (hm : (s.isNone || h.isNone || d.isNone || b.isNone || v.isNone || i.isNone || a.isNone)
      = false)
    (hf : (strtok_tokens 58 [] (h.getD [])).any is_arc_header = false)
    (ht : arc_param_get kv (cstr "t") = .ok none) :
    set_defaults kv = .error .assertion := by
  unfold set_defaults
  rw [hty]
  simp only [hl.hs, hl.hh, hl.hd, hl.hb, hl.hv, hl.hi, hl.ha, bind, Except.bind, hm, hf, ht,
    arc_check_uint, pure, Except.pure]
  rfl

/-- The tokens of the `strtok_r` loop are the non-empty pieces of the split
at the delimiter. -/
theorem strtok_tokens_eq (delim : Nat) : ∀ (l cur : CStr),
    strtok_tokens delim cur l =
      ((l.splitOn delim).modifyHead (cur ++ ·)).filter (fun t => !t.isEmpty) := by
  intro l
  induction l with
  | nil =>
    intro cur
    cases cur <;> simp [strtok_tokens, List.splitOn, List.modifyHead]
  | cons c rest ih =>
    intro cur
    simp only [strtok_tokens, List.splitOn, List.splitOnP_cons, beq_iff_eq]
    by_cases hc : c = delim
    · simp only [hc, if_true, List.modifyHead, List.append_nil, List.filter_cons]
      have h0 := ih []
      simp only [List.splitOn, List.nil_append] at h0
      have hid : ∀ t : List (List Nat), List.modifyHead (fun x => x) t = t := by
        intro t; cases t <;> rfl
      rw [hid] at h0
      cases cur with
      | nil => simp [h0]
      | cons x xs => simp [h0]
    · simp only [hc, if_false]
      rw [ih (cur ++ [c])]
      simp only [List.splitOn, List.modifyHead_modifyHead]
      congr 2
      funext x
      simp

theorem mem_strtok_tokens (hval e : CStr) (he : e ∈ hval.splitOn 58) (hne : e ≠ []) :
    e ∈ strtok_tokens 58 [] hval := by
  rw [strtok_tokens_eq]
  have hid : ∀ t : List (List Nat), List.modifyHead (fun x => [] ++ x) t = t := by
    intro t; cases t <;> rfl
  rw [hid, List.mem_filter]
  refine ⟨he, ?_⟩
  cases e with
  | nil => exact absurd rfl hne
  | cons _ _ => rfl

theorem strtok_tokens_subset (hval e : CStr) (he : e ∈ strtok_tokens 58 [] hval) :
    e ∈ hval.splitOn 58 := by
  rw [strtok_tokens_eq] at he
  have hid : ∀ t : List (List Nat), List.modifyHead (fun x => [] ++ x) t = t := by
    intro t; cases t <;> rfl
  rw [hid] at he
  exact (List.mem_filter.mp he).1

/-- What the lack of a mandatory name does to the test that opens the
SIGNATURE case. -/
theorem mandatory_missing (kv : ARC_KVSET) (hck : CaseKeyed kv) (s h d b v i a : Option CStr)
    (hl : MandatoryLookups kv s h d b v i a) (hlack : ∃ p ∈ mandatory_names, ¬ Stored kv p) :
    (s.isNone || h.isNone || d.isNone || b.isNone || v.isNone || i.isNone || a.isNone)
      = true := by
  obtain ⟨p, hp, hns⟩ := hlack
  have key : ∀ (r : Option CStr) (q : String), p = cstr q → isprint (first_byte (cstr q)) = true →
      arc_param_get kv (cstr q) = .ok r → r = none := by
    intro r q hpq hpr hr
    have := arc_param_get_of_not_stored kv hck (cstr q) hpr (hpq ▸ hns)
    rw [hr] at this
    injection this
  simp only [mandatory_names, List.mem_cons, List.mem_singleton, List.not_mem_nil, or_false] at hp
  rcases hp with h1 | h1 | h1 | h1 | h1 | h1 | h1
  · rw [key s "s" h1 (by decide) hl.hs]; rfl
  · rw [key h "h" h1 (by decide) hl.hh]; simp
  · rw [key d "d" h1 (by decide) hl.hd]; simp
  · rw [key b "b" h1 (by decide) hl.hb]; simp
  · rw [key v "v" h1 (by decide) hl.hv]; simp
  · rw [key i "i" h1 (by decide) hl.hi]; simp
  · rw [key a "a" h1 (by decide) hl.ha]; simp

theorem mandatory_present (kv : ARC_KVSET) (hck : CaseKeyed kv) (s h d b v i a : Option CStr)
    (hl : MandatoryLookups kv s h d b v i a) (hall : ∀ p ∈ mandatory_names, Stored kv p) :
    (s.isNone || h.isNone || d.isNone || b.isNone || v.isNone || i.isNone || a.isNone)
      = false := by
  have key : ∀ (r : Option CStr) (q : String), cstr q ∈ mandatory_names →
      arc_param_get kv (cstr q) = .ok r → r.isNone = false := by
    intro r q hq hr
    obtain ⟨v1, hv1⟩ := arc_param_get_of_stored kv hck (cstr q) (hall _ hq)
    rw [hr] at hv1
    injection hv1 with hv1
    rw [hv1]
    rfl
  rw [key s "s" (by decide) hl.hs, key h "h" (by decide) hl.hh, key d "d" (by decide) hl.hd,
    key b "b" (by decide) hl.hb, key v "v" (by decide) hl.hv, key i "i" (by decide) hl.hi,
    key a "a" (by decide) hl.ha]
  rfl

/-! ### A rejected set is marked bad, and keeps what was parsed -/

theorem add_or_fail_errBad (kv : ARC_KVSET) (param value : CStr) (force : Bool) :
    ErrBad (add_or_fail kv param value force) := by
  intro e he
  unfold add_or_fail at he
  rcases hr : arc_add_plist kv param value force with ⟨ok, kv1⟩
  rw [hr] at he
  cases ok
  · cases he; rfl
  · cases he

theorem add_and_reset_errBad (st : ScanState) (param value : CStr) :
    ErrBad
      (match add_or_fail st.kv param value true with
        | .error e => .error e
        | .ok kv1 =>
          (.ok { st with param := [], value := none, state := 0, kv := kv1 } :
            Except (ARC_STAT × ARC_KVSET) ScanState)) := by
  intro e he
  rcases hr : add_or_fail st.kv param value true with e1 | kv1
  · rw [hr] at he
    cases he
    exact add_or_fail_errBad _ _ _ _ e hr
  · rw [hr] at he
    cases he

theorem scan_byte_errBad (st : ScanState) (c : Nat) : ErrBad (scan_byte st c) := by
  have hbad : ErrBad (.error (ARC_STAT.SYNTAX, mark_bad st.kv) :
      Except (ARC_STAT × ARC_KVSET) ScanState) := by
    intro e he; cases he; rfl
  have hok : ∀ s : ScanState, ErrBad (.ok s : Except (ARC_STAT × ARC_KVSET) ScanState) := by
    intro s e he; cases he
  unfold scan_byte
  split_ifs
  · exact hbad
  · exact hok _
  · exact hok _
  · exact hbad
  · exact hok _
  · exact hok _
  · exact hbad
  · exact hok _
  · exact hok _
  · exact add_and_reset_errBad st _ _
  · exact hok _
  · exact add_and_reset_errBad st _ _
  · exact hok _

theorem scan_loop_errBad : ∀ (l : CStr) (st : ScanState), ErrBad (scan_loop st l) := by
  intro l
  induction l with
  | nil => intro st e he; cases he
  | cons c rest ih =>
    intro st e he
    unfold scan_loop at he
    rcases hr : scan_byte st c with e1 | st1
    · rw [hr] at he
      cases he
      exact scan_byte_errBad st c e hr
    · rw [hr] at he
      exact ih st1 e he

theorem scan_end_errBad (st : ScanState) : ErrBad (scan_end st) := by
  intro e he
  unfold scan_end at he
  split_ifs at he
  · cases hv : st.value with
    | none => rw [hv] at he; cases he
    | some v => rw [hv] at he; exact add_or_fail_errBad _ _ _ _ e he
  · exact add_or_fail_errBad _ _ _ _ e he
  · cases he; rfl

theorem add_default_bad (kv : ARC_KVSET) (param value : CStr)
    (h : (add_default kv param value).1 ≠ .OK) : (add_default kv param value).2.set_bad = true := by
  unfold add_default at h ⊢
  rcases hr : arc_add_plist kv param value false with ⟨ok, kv1⟩
  rw [hr] at h
  cases ok
  · rfl
  · exact absurd rfl h

theorem set_defaults_bad (kv : ARC_KVSET) (r : ARC_STAT × ARC_KVSET)
    (hr : set_defaults kv = .ok r) (hne : r.1 ≠ .OK) : r.2.set_bad = true := by
  have hq := add_default_bad kv (cstr "q") (cstr "dns/txt")
  have hk := add_default_bad kv (cstr "k") (cstr "rsa")
  unfold set_defaults at hr
  split at hr
  · simp only [bind, Except.bind, pure, Except.pure] at hr
    repeat' split at hr
    all_goals first
      | (cases hr; rfl)
      | (cases hr; exact hq hne)
      | cases hr
  · cases hr
    exact hk hne
  · cases hr

/-- A status other than OK comes with a set marked bad. -/
theorem arc_process_set_rejected (msg : ARC_MESSAGE) (type : arc_kvsettype_t) (str : List Nat)
    (len : Nat) (status : ARC_STAT) (m : ARC_MESSAGE)
    (h : arc_process_set msg type str len = .ok (status, m)) (hne : status ≠ .OK) :
    ∃ kv, m = link_set msg kv ∧ kv.set_bad = true := by
  unfold arc_process_set at h
  dsimp only at h
  rcases hr : scan_loop _ _ with ⟨status1, kv⟩ | st
  · rw [hr] at h
    cases h
    exact ⟨kv, rfl, scan_loop_errBad _ _ _ hr⟩
  · rw [hr] at h
    dsimp only at h
    rcases hr2 : scan_end st with ⟨status1, kv⟩ | kv
    · rw [hr2] at h
      cases h
      exact ⟨kv, rfl, scan_end_errBad _ _ hr2⟩
    · rw [hr2] at h
      dsimp only at h
      rcases hr3 : set_defaults kv with f | ⟨status1, kv1⟩
      · rw [hr3] at h
        cases h
      · rw [hr3] at h
        cases h
        exact ⟨kv1, rfl, set_defaults_bad kv _ hr3 hne⟩


theorem found_iff (p : CStr) (kv : ARC_KVSET) :
    Found p kv ↔
      ∃ b, plist_bucket kv (first_byte p) = some b ∧ ∃ x ∈ b, x.plist_param = p := by
  unfold Found arc_param_get
  constructor
  · rintro ⟨v, hv⟩
    rcases hb : plist_bucket kv (first_byte p) with _ | b
    · rw [hb] at hv; cases hv
    · rw [hb] at hv
      dsimp only at hv
      rcases hf : b.find? (fun pl => strcmp_eq pl.plist_param p) with _ | x
      · rw [hf] at hv; cases hv
      · refine ⟨b, rfl, x, List.mem_of_find?_eq_some hf, ?_⟩
        have := List.find?_some hf
        simpa [strcmp_eq] using this
  · rintro ⟨b, hb, x, hx, hxp⟩
    rw [hb]
    dsimp only
    have hs : (b.find? (fun pl => strcmp_eq pl.plist_param p)).isSome = true := by
      rw [List.find?_isSome]
      exact ⟨x, hx, by simp [strcmp_eq, hxp]⟩
    obtain ⟨y, hy⟩ := Option.isSome_iff_exists.mp hs
    exact ⟨y.plist_value, by rw [hy]; rfl⟩

/-- What replacing the bucket of index `n` does to a lookup that found its
name, when the new bucket still holds every name of the old one. -/
theorem found_set (p : CStr) (kv : ARC_KVSET) (n : Nat) (b1 : List ARC_PLIST)
    (hnames : ∀ q, (∃ x ∈ kv.set_plist.getD n [], x.plist_param = q) → ∃ x ∈ b1, x.plist_param = q)
    (h : Found p kv) : Found p { kv with set_plist := kv.set_plist.set n b1 } := by
  rw [found_iff] at h ⊢
  obtain ⟨b, hb, hx⟩ := h
  unfold plist_bucket at hb ⊢
  split_ifs at hb ⊢ with h32
  show ∃ b, (kv.set_plist.set n b1)[first_byte p - 32]? = some b ∧ _
  rw [List.getElem?_set]
  by_cases hn : n = first_byte p - 32
  · have hlt : n < kv.set_plist.length := by
      rw [hn]
      by_contra hge
      rw [List.getElem?_eq_none (by omega)] at hb
      cases hb
    rw [if_pos hn, if_pos hlt]
    refine ⟨b1, rfl, hnames p ?_⟩
    have : kv.set_plist.getD n [] = b := by
      rw [List.getD_eq_getElem?_getD, hn, hb]
      rfl
    rw [this]
    exact hx
  · rw [if_neg hn]
    exact ⟨b, hb, hx⟩

theorem kept_found (p : CStr) : Kept (Found p) := by
  refine ⟨?_, fun _ h => h⟩
  intro kv param value force h
  unfold arc_add_plist
  dsimp only
  split_ifs
  · exact h
  · apply found_set p kv _ _ _ h
    intro q hq
    have hm : q ∈ (bucket_set_value (fun pl => strcasecmp_eq pl.plist_param param) value
        (kv.set_plist.getD (first_byte param - 32) [])).map (·.plist_param) := by
      rw [bucket_set_value_names]
      obtain ⟨x, hx, hxq⟩ := hq
      exact List.mem_map.mpr ⟨x, hx, hxq⟩
    obtain ⟨x, hx, hxq⟩ := List.mem_map.mp hm
    exact ⟨x, hx, hxq⟩
  · exact h
  · apply found_set p kv _ _ _ h
    intro q hq
    obtain ⟨x, hx, hxq⟩ := hq
    exact ⟨x, List.mem_cons_of_mem _ hx, hxq⟩

theorem scan_loop_append : ∀ (pre suf : CStr) (st st1 : ScanState),
    scan_loop st pre = .ok st1 → scan_loop st (pre ++ suf) = scan_loop st1 suf := by
  intro pre
  induction pre with
  | nil => intro suf st st1 h; cases h; rfl
  | cons c rest ih =>
    intro suf st st1 h
    rw [List.cons_append]
    unfold scan_loop at h
    conv_lhs => unfold scan_loop
    rcases hr : scan_byte st c with e | st2
    · rw [hr] at h; cases h
    · rw [hr] at h
      dsimp only at h ⊢
      exact ih suf st2 st1 h

/-- The set `arc_process_set` links into the message has every kept property
that the set had at some point of the scan. -/
theorem arc_process_set_keeps_from {P : ARC_KVSET → Prop} (hP : Kept P) (msg : ARC_MESSAGE)
    (type : arc_kvsettype_t) (str : List Nat) (len : Nat) (pre suf : CStr) (st : ScanState)
    (hsplit : hcopy_of str len = pre ++ suf)
    (hpre : scan_loop (scan_start type) pre = .ok st) (h0 : P st.kv)
    (status : ARC_STAT) (m : ARC_MESSAGE)
    (h : arc_process_set msg type str len = .ok (status, m)) :
    ∃ kv, m = link_set msg kv ∧ P kv := by
  have hloop : scan_loop (scan_start type) (hcopy_of str len) = scan_loop st suf := by
    rw [hsplit]
    exact scan_loop_append pre suf _ st hpre
  have h1 := scan_loop_keeps hP suf st h0
  rw [← hloop] at h1
  unfold scan_start hcopy_of at h1
  unfold arc_process_set at h
  dsimp only at h
  rcases hr : scan_loop _ _ with ⟨status1, kv⟩ | st2
  · rw [hr] at h
    cases h
    exact ⟨kv, rfl, (h1.2 _ hr).1⟩
  · rw [hr] at h
    have h2 := scan_end_keeps hP st2 (h1.1 st2 hr)
    dsimp only at h
    rcases hr2 : scan_end st2 with ⟨status1, kv⟩ | kv
    · rw [hr2] at h
      cases h
      exact ⟨kv, rfl, (h2.2 _ hr2).1⟩
    · rw [hr2] at h
      dsimp only at h
      rcases hr3 : set_defaults kv with f | ⟨status1, kv1⟩
      · rw [hr3] at h
        cases h
      · rw [hr3] at h
        cases h
        exact ⟨kv1, rfl, set_defaults_keeps hP kv (h2.1 kv hr2) _ hr3⟩

theorem link_set_inj (msg : ARC_MESSAGE) (kv kv1 : ARC_KVSET)
    (h : link_set msg kv = link_set msg kv1) : kv = kv1 := by
  have := congrArg (fun x => x.arc_kvsethead.getLast?) h
  simpa [link_set] using this

theorem arc_add_plist_failed (kv kv1 : ARC_KVSET) (param value : CStr) (force : Bool)
    (h : arc_add_plist kv param value force = (false, kv1)) : kv1 = kv := by
  unfold arc_add_plist at h
  dsimp only at h
  split_ifs at h
  all_goals first
    | (injection h with _ h2; exact h2.symm)
    | (injection h with h1 _; cases h1)

theorem add_or_fail_error (kv : ARC_KVSET) (param value : CStr) (force : Bool)
    (e : ARC_STAT × ARC_KVSET) (h : add_or_fail kv param value force = .error e) :
    e.2 = mark_bad kv := by
  unfold add_or_fail at h
  rcases hr : arc_add_plist kv param value force with ⟨ok, kv1⟩
  rw [hr] at h
  cases ok
  · cases h
    rw [arc_add_plist_failed kv kv1 param value force hr]
  · cases h

theorem scan_byte_error (st : ScanState) (c : Nat) (e : ARC_STAT × ARC_KVSET)
    (h : scan_byte st c = .error e) : e.2 = mark_bad st.kv := by
  have hadd : ∀ (param value : CStr),
      ((match add_or_fail st.kv param value true with
        | .error e1 => .error e1
        | .ok kv1 => .ok { st with param := [], value := none, state := 0, kv := kv1 } :
          Except (ARC_STAT × ARC_KVSET) ScanState)) = .error e → e.2 = mark_bad st.kv := by
    intro param value he
    rcases hr : add_or_fail st.kv param value true with e1 | kv1
    · rw [hr] at he
      cases he
      exact add_or_fail_error _ _ _ _ _ hr
    · rw [hr] at he
      cases he
  unfold scan_byte at h
  split_ifs at h
  all_goals first
    | (cases h; rfl)
    | exact hadd _ _ h

theorem scan_loop_error : ∀ (l : CStr) (st0 : ScanState) (e : ARC_STAT × ARC_KVSET),
    scan_loop st0 l = .error e →
    ∃ pre c suf st, l = pre ++ c :: suf ∧ scan_loop st0 pre = .ok st ∧
      scan_byte st c = .error e := by
  intro l
  induction l with
  | nil => intro st0 e h; cases h
  | cons c rest ih =>
    intro st0 e h
    unfold scan_loop at h
    rcases hr : scan_byte st0 c with e1 | st1
    · rw [hr] at h
      cases h
      exact ⟨[], c, rest, st0, rfl, rfl, hr⟩
    · rw [hr] at h
      obtain ⟨pre, c1, suf, st, hl, hp, hb⟩ := ih st1 e h
      refine ⟨c :: pre, c1, suf, st, by rw [hl]; rfl, ?_, hb⟩
      unfold scan_loop
      rw [hr]
      exact hp

theorem scan_end_error (st : ScanState) (e : ARC_STAT × ARC_KVSET)
    (h : scan_end st = .error e) : e.2 = mark_bad st.kv := by
  unfold scan_end at h
  split_ifs at h
  · cases hv : st.value with
    | none => rw [hv] at h; cases h
    | some v => rw [hv] at h; exact add_or_fail_error _ _ _ _ _ h
  · exact add_or_fail_error _ _ _ _ _ h
  · cases h; rfl

theorem add_default_rejected (kv : ARC_KVSET) (param value : CStr)
    (h : (add_default kv param value).1 ≠ .OK) :
    (add_default kv param value).2 = mark_bad kv := by
  unfold add_default at h ⊢
  rcases hr : arc_add_plist kv param value false with ⟨ok, kv1⟩
  rw [hr] at h
  cases ok
  · show mark_bad kv1 = mark_bad kv
    rw [arc_add_plist_failed kv kv1 param value false hr]
  · exact absurd rfl h

theorem set_defaults_rejected (kv : ARC_KVSET) (r : ARC_STAT × ARC_KVSET)
    (hr : set_defaults kv = .ok r) (hne : r.1 ≠ .OK) : r.2 = mark_bad kv := by
  have hq := add_default_rejected kv (cstr "q") (cstr "dns/txt")
  have hk := add_default_rejected kv (cstr "k") (cstr "rsa")
  unfold set_defaults at hr
  split at hr
  · simp only [bind, Except.bind, pure, Except.pure] at hr
    repeat' split at hr
    all_goals first
      | (cases hr; rfl)
      | (cases hr; exact hq hne)
      | cases hr
  · cases hr
    exact hk hne
  · cases hr

/-- The lookup does not read the bad flag. -/
theorem arc_param_get_mark_bad (kv : ARC_KVSET) (p : CStr) :
    arc_param_get (mark_bad kv) p = arc_param_get kv p := rfl

/-- A rejected list leaves the set the parser held when it gave up, with the
bad flag set. -/
theorem arc_process_set_stopped (msg : ARC_MESSAGE) (type : arc_kvsettype_t) (str : List Nat)
    (len : Nat) (status : ARC_STAT) (m : ARC_MESSAGE)
    (h : arc_process_set msg type str len = .ok (status, m)) (hne : status ≠ .OK) :
    ∃ kv0, StoppedAt type (hcopy_of str len) kv0 ∧ m = link_set msg (mark_bad kv0) := by
  unfold arc_process_set at h
  dsimp only at h
  rcases hr : scan_loop _ _ with ⟨status1, kv⟩ | st
  · rw [hr] at h
    cases h
    obtain ⟨pre, c, suf, st, hl, hp, hb⟩ := scan_loop_error _ _ _ hr
    have he := scan_byte_error st c _ hb
    exact ⟨st.kv, Or.inl ⟨pre, c, suf, st, _, hl, hp, hb, rfl⟩, by rw [← he]⟩
  · rw [hr] at h
    dsimp only at h
    rcases hr2 : scan_end st with ⟨status1, kv⟩ | kv
    · rw [hr2] at h
      cases h
      have he := scan_end_error st _ hr2
      exact ⟨st.kv, Or.inr (Or.inl ⟨st, _, hr, hr2, rfl⟩), by rw [← he]⟩
    · rw [hr2] at h
      dsimp only at h
      rcases hr3 : set_defaults kv with f | ⟨status1, kv1⟩
      · rw [hr3] at h
        cases h
      · rw [hr3] at h
        cases h
        have he := set_defaults_rejected kv _ hr3 hne
        exact ⟨kv, Or.inr (Or.inr ⟨st, hr, hr2⟩), by rw [← he]⟩

/-! ## Lemmas on `arc_check_uint` -/


theorem isspace_facts (c : Nat) (h : isspace c = true) :
    c ≠ 0 ∧ c ≠ 45 ∧ c ≠ 43 ∧ isdigit c = false := by
  unfold isspace at h
  unfold isdigit
  simp at h ⊢
  omega

theorem isdigit_facts (c : Nat) (h : isdigit c = true) :
    c ≠ 0 ∧ c ≠ 45 ∧ c ≠ 43 ∧ isspace c = false := by
  unfold isdigit at h
  unfold isspace
  simp at h ⊢
  omega

theorem dropWhile_append_all (p : Nat → Bool) (ws l : List Nat) (h : ∀ c ∈ ws, p c = true) :
    (ws ++ l).dropWhile p = l.dropWhile p := by
  induction ws with
  | nil => rfl
  | cons w ws ih =>
    rw [List.cons_append, List.dropWhile_cons, h w (List.mem_cons_self _ _)]
    exact ih (fun c hc => h c (List.mem_cons_of_mem _ hc))

theorem takeWhile_all (p : Nat → Bool) (ds : List Nat) (h : ∀ c ∈ ds, p c = true) :
    ds.takeWhile p = ds ∧ ds.dropWhile p = [] := by
  induction ds with
  | nil => exact ⟨rfl, rfl⟩
  | cons d ds ih =>
    have := ih (fun c hc => h c (List.mem_cons_of_mem _ hc))
    rw [List.takeWhile_cons, List.dropWhile_cons, h d (List.mem_cons_self _ _)]
    simp [this.1, this.2]

/-- The scan of white space, a sign and a run of digits that ends the
string. -/
theorem scan_number_parts (ws sg ds : CStr) (hws : ∀ c ∈ ws, isspace c = true)
    (hsg : sg = [] ∨ sg = [43] ∨ sg = [45]) (hds : ds ≠ [])
    (hdig : ∀ c ∈ ds, isdigit c = true) :
    scan_number (ws ++ sg ++ ds) = (decide (sg = [45]), ds, []) := by
  obtain ⟨d, ds1, rfl⟩ := List.exists_cons_of_ne_nil hds
  have hd := isdigit_facts d (hdig d (List.mem_cons_self _ _))
  have htd := takeWhile_all isdigit (d :: ds1) hdig
  unfold scan_number
  rw [List.append_assoc, dropWhile_append_all _ _ _ hws]
  rcases hsg with rfl | rfl | rfl
  · rw [List.nil_append, List.dropWhile_cons, hd.2.2.2]
    simp [htd.1, htd.2, hd.2.1, hd.2.2.1]
  · have h1 : isspace 43 = false := by decide
    rw [List.singleton_append, List.dropWhile_cons, h1]
    simp [htd.1, htd.2]
  · have h1 : isspace 45 = false := by decide
    rw [List.singleton_append, List.dropWhile_cons, h1]
    simp [htd.1, htd.2]

/-- What a scan that read a digit has taken the string apart into. -/
theorem scan_number_split (v : CStr) (neg : Bool) (ds rest : CStr)
    (h : scan_number v = (neg, ds, rest)) (hds : ds ≠ []) :
    ∃ ws sg, v = ws ++ sg ++ ds ++ rest ∧ (∀ c ∈ ws, isspace c = true) ∧
      (sg = [] ∨ sg = [43] ∨ sg = [45]) ∧ neg = decide (sg = [45]) ∧
      (∀ c ∈ ds, isdigit c = true) := by
  have hv : v.takeWhile isspace ++ v.dropWhile isspace = v := List.takeWhile_append_dropWhile _ _
  have hws : ∀ c ∈ v.takeWhile isspace, isspace c = true := fun c hc => List.mem_takeWhile_imp hc
  unfold scan_number at h
  dsimp only at h
  rcases hs1 : v.dropWhile isspace with _ | ⟨c, t⟩
  · rw [hs1] at h
    simp at h
    exact absurd h.2.1 hds
  · rw [hs1] at h hv
    have ht : t.takeWhile isdigit ++ t.dropWhile isdigit = t := List.takeWhile_append_dropWhile _ _
    have hct : (c :: t).takeWhile isdigit ++ (c :: t).dropWhile isdigit = c :: t :=
      List.takeWhile_append_dropWhile _ _
    simp only [List.headD_cons, List.tail_cons] at h
    by_cases hsign : (c == 45 || c == 43) = true
    · rw [if_pos hsign] at h
      split_ifs at h with he
      · injection h with _ h
        injection h with h _
        exact absurd h.symm hds
      · injection h with h1 h
        injection h with h2 h3
        refine ⟨v.takeWhile isspace, [c], ?_, hws, ?_, ?_, ?_⟩
        · rw [← h2, ← h3, List.append_assoc, List.append_assoc, ht]
          exact hv.symm
        · simp at hsign
          rcases hsign with rfl | rfl
          · exact Or.inr (Or.inr rfl)
          · exact Or.inr (Or.inl rfl)
        · rw [← h1]
          simp at hsign
          rcases hsign with rfl | rfl
          · rfl
          · rfl
        · intro d hd
          rw [← h2] at hd
          exact List.mem_takeWhile_imp hd
    · rw [if_neg hsign] at h
      split_ifs at h with he
      · injection h with _ h
        injection h with h _
        exact absurd h.symm hds
      · injection h with h1 h
        injection h with h2 h3
        refine ⟨v.takeWhile isspace, [], ?_, hws, Or.inl rfl, ?_, ?_⟩
        · rw [← h2, ← h3, List.append_nil, List.append_assoc, hct]
          exact hv.symm
        · rw [← h1]
          simp at hsign
          simp [hsign.1]
        · intro d hd
          rw [← h2] at hd
          exact List.mem_takeWhile_imp hd

/-- A scan that read no digit leaves the whole string. -/
theorem scan_number_none (v : CStr) (neg : Bool) (rest : CStr)
    (h : scan_number v = (neg, [], rest)) : rest = v := by
  unfold scan_number at h
  dsimp only at h
  split_ifs at h <;> simp_all

/-- The answer of `arc_check_uint` in terms of what the scan of `strtoull`
has read. -/
theorem arc_check_uint_eq (v : CStr) (neg : Bool) (ds rest : CStr)
    (hn : scan_number v = (neg, ds, rest)) (h45 : first_byte v ≠ 45) (h0 : first_byte v ≠ 0) :
    arc_check_uint (some v) = .ok (decide (digits_value ds ≤ ULONG_MAX ∧
      (if neg = true then digits_value ds ≠ 1 else digits_value ds ≠ ULONG_MAX) ∧
      first_byte rest = 0)) := by
  unfold arc_check_uint
  dsimp only
  rw [if_neg (by simpa using h45), if_neg (by simpa using h0)]
  unfold strtoull
  rw [hn]
  dsimp only
  congr 1
  unfold ULONG_MAX
  by_cases hov : digits_value ds > 2 ^ 64 - 1
  · rw [if_pos hov]
    have : ¬ digits_value ds ≤ 18446744073709551615 := by omega
    simp [this]
  · rw [if_neg hov]
    have hle : digits_value ds ≤ 18446744073709551615 := by omega
    cases neg with
    | true =>
      have : ((18446744073709551616 - digits_value ds) % 18446744073709551616
          = 18446744073709551615) ↔ digits_value ds = 1 := by omega
      rw [Bool.eq_iff_iff]
      simp [hle, this]
    | false =>
      rw [Bool.eq_iff_iff]
      simp [hle]

theorem arc_check_uint_of_accepted (v : CStr) (h : UIntAccepted v) :
    arc_check_uint (some v) = .ok true := by
  obtain ⟨ws, sg, ds, rfl, hws, hsg, hds, hdig, hval⟩ := h
  have hscan := scan_number_parts ws sg ds hws (by tauto) hds hdig
  have hfirst : first_byte (ws ++ sg ++ ds) ≠ 45 ∧ first_byte (ws ++ sg ++ ds) ≠ 0 := by
    obtain ⟨d, ds1, rfl⟩ := List.exists_cons_of_ne_nil hds
    have hd := isdigit_facts d (hdig d (List.mem_cons_self _ _))
    cases ws with
    | nil =>
      rcases hsg with rfl | rfl | ⟨_, hne⟩
      · exact ⟨hd.2.1, hd.1⟩
      · exact ⟨(fun hc => by cases hc), (fun hc => by cases hc)⟩
      · exact absurd rfl hne
    | cons w ws1 =>
      have hw := isspace_facts w (hws w (List.mem_cons_self _ _))
      exact ⟨hw.2.1, hw.1⟩
  rw [arc_check_uint_eq _ _ _ _ hscan hfirst.1 hfirst.2]
  congr 1
  rw [decide_eq_true_iff]
  by_cases hneg : sg = [45]
  · rw [if_pos hneg] at hval
    simp [hneg, hval.1, hval.2, first_byte]
  · rw [if_neg hneg] at hval
    have h1 : digits_value ds ≤ ULONG_MAX := by omega
    have h2 : digits_value ds ≠ ULONG_MAX := by omega
    simp [hneg, h1, h2, first_byte]

theorem accepted_of_arc_check_uint (v : CStr) (hnul : 0 ∉ v)
    (h : arc_check_uint (some v) = .ok true) : UIntAccepted v := by
  have hv45 : first_byte v ≠ 45 := by
    intro hc
    unfold arc_check_uint at h
    simp [hc] at h
  have hv0 : first_byte v ≠ 0 := by
    intro hc
    unfold arc_check_uint at h
    simp [hc] at h
  rcases hn : scan_number v with ⟨neg, ds, rest⟩
  rw [arc_check_uint_eq v neg ds rest hn hv45 hv0] at h
  injection h with h
  rw [decide_eq_true_iff] at h
  obtain ⟨hle, hval, hrest⟩ := h
  by_cases hds : ds = []
  · subst hds
    have := scan_number_none v neg rest hn
    subst this
    exact absurd hrest hv0
  · obtain ⟨ws, sg, hv, hws, hsg, hnegeq, hdig⟩ := scan_number_split v neg ds rest hn hds
    have hr : rest = [] := by
      cases rest with
      | nil => rfl
      | cons r rest1 =>
        exfalso
        apply hnul
        rw [hv]
        have : r = 0 := hrest
        simp [this]
    subst hr
    rw [List.append_nil] at hv
    refine ⟨ws, sg, ds, hv, hws, ?_, hds, hdig, ?_⟩
    · rcases hsg with h1 | h1 | h1
      · exact Or.inl h1
      · exact Or.inr (Or.inl h1)
      · refine Or.inr (Or.inr ⟨h1, ?_⟩)
        intro hw
        apply hv45
        rw [hv, hw, h1]
        rfl
    · by_cases hneg : sg = [45]
      · rw [if_pos hneg]
        rw [hnegeq] at hval
        simp [hneg] at hval
        exact ⟨hle, hval⟩
      · rw [if_neg hneg]
        rw [hnegeq] at hval
        simp [hneg] at hval
        omega

theorem arc_check_uint_total (v : CStr) : ∃ b, arc_check_uint (some v) = .ok b := by
  unfold arc_check_uint
  dsimp only
  split_ifs
  · exact ⟨_, rfl⟩
  · exact ⟨_, rfl⟩
  · exact ⟨_, rfl⟩

theorem uintAccepted_iff_plain (v : CStr) (hsp : ∀ c ∈ v, isspace c = false) :
    UIntAccepted v ↔ UIntPlain v := by
  constructor
  · rintro ⟨ws, sg, ds, hv, hws, hsg, hds, hdig, hval⟩
    have hw : ws = [] := by
      cases ws with
      | nil => rfl
      | cons w ws1 =>
        have h1 := hws w (List.mem_cons_self _ _)
        have h2 := hsp w (by rw [hv]; simp)
        rw [h1] at h2
        cases h2
    subst hw
    rcases hsg with h1 | h1 | ⟨_, h1⟩
    · subst h1
      exact ⟨[], ds, hv, Or.inl rfl, hds, hdig, by simpa using hval⟩
    · subst h1
      exact ⟨[43], ds, hv, Or.inr rfl, hds, hdig, by simpa using hval⟩
    · exact absurd rfl h1
  · rintro ⟨sg, ds, hv, hsg, hds, hdig, hval⟩
    refine ⟨[], sg, ds, hv, (fun c hc => by cases hc), ?_, hds, hdig, ?_⟩
    · rcases hsg with h1 | h1
      · exact Or.inl h1
      · exact Or.inr (Or.inl h1)
    · rcases hsg with h1 | h1
      · subst h1
        simpa using hval
      · subst h1
        simpa using hval

/-! ## Lemmas on the library options -/


theorem bytes_word_word_bytes : ∀ (n w : Nat), w < 256 ^ n → bytes_word (word_bytes n w) = w := by
  intro n
  induction n with
  | zero =>
    intro w hw
    simp at hw
    subst hw
    rfl
  | succ n ih =>
    intro w hw
    have h1 : w / 256 < 256 ^ n := by
      apply Nat.div_lt_of_lt_mul
      rw [pow_succ] at hw
      rw [Nat.mul_comm]
      exact hw
    simp only [word_bytes, bytes_word]
    rw [ih _ h1]
    omega

theorem word_bytes_bytes_word : ∀ (v : List Nat), (∀ b ∈ v, b < 256) →
    word_bytes v.length (bytes_word v) = v := by
  intro v
  induction v with
  | nil => intro _; rfl
  | cons b rest ih =>
    intro h
    have hb := h b (List.mem_cons_self _ _)
    have hr := ih (fun c hc => h c (List.mem_cons_of_mem _ hc))
    simp only [List.length_cons, word_bytes, bytes_word]
    have h1 : (b + 256 * bytes_word rest) % 256 = b := by omega
    have h2 : (b + 256 * bytes_word rest) / 256 = bytes_word rest := by omega
    rw [h1, h2, hr]

theorem word_bytes_length : ∀ (n w : Nat), (word_bytes n w).length = n := by
  intro n
  induction n with
  | zero => intro _; rfl
  | succ n ih =>
    intro w
    simp only [word_bytes, List.length_cons, ih]

/-! ## Lemmas on the state of the message -/


theorem add_or_fail_errStatus (kv : ARC_KVSET) (param value : CStr) (force : Bool) :
    ErrStatus (add_or_fail kv param value force) := by
  intro e he
  unfold add_or_fail at he
  rcases hr : arc_add_plist kv param value force with ⟨ok, kv1⟩
  rw [hr] at he
  cases ok
  · cases he; exact Or.inr (Or.inr rfl)
  · cases he

theorem add_and_reset_errStatus (st : ScanState) (param value : CStr) :
    ErrStatus
      (match add_or_fail st.kv param value true with
        | .error e => .error e
        | .ok kv1 =>
          (.ok { st with param := [], value := none, state := 0, kv := kv1 } :
            Except (ARC_STAT × ARC_KVSET) ScanState)) := by
  intro e he
  rcases hr : add_or_fail st.kv param value true with e1 | kv1
  · rw [hr] at he
    cases he
    exact add_or_fail_errStatus _ _ _ _ e hr
  · rw [hr] at he
    cases he

theorem scan_byte_errStatus (st : ScanState) (c : Nat) : ErrStatus (scan_byte st c) := by
  have hbad : ErrStatus (.error (ARC_STAT.SYNTAX, mark_bad st.kv) :
      Except (ARC_STAT × ARC_KVSET) ScanState) := by
    intro e he; cases he; exact Or.inr (Or.inl rfl)
  have hok : ∀ s : ScanState, ErrStatus (.ok s : Except (ARC_STAT × ARC_KVSET) ScanState) := by
    intro s e he; cases he
  unfold scan_byte
  split_ifs
  · exact hbad
  · exact hok _
  · exact hok _
  · exact hbad
  · exact hok _
  · exact hok _
  · exact hbad
  · exact hok _
  · exact hok _
  · exact add_and_reset_errStatus st _ _
  · exact hok _
  · exact add_and_reset_errStatus st _ _
  · exact hok _

theorem scan_loop_errStatus : ∀ (l : CStr) (st : ScanState), ErrStatus (scan_loop st l) := by
  intro l
  induction l with
  | nil => intro st e he; cases he
  | cons c rest ih =>
    intro st e he
    unfold scan_loop at he
    rcases hr : scan_byte st c with e1 | st1
    · rw [hr] at he
      cases he
      exact scan_byte_errStatus st c e hr
    · rw [hr] at he
      exact ih st1 e he

theorem scan_end_errStatus (st : ScanState) : ErrStatus (scan_end st) := by
  intro e he
  unfold scan_end at he
  split_ifs at he
  · cases hv : st.value with
    | none => rw [hv] at he; cases he
    | some v => rw [hv] at he; exact add_or_fail_errStatus _ _ _ _ e he
  · exact add_or_fail_errStatus _ _ _ _ e he
  · cases he; exact Or.inr (Or.inl rfl)

theorem add_default_status (kv : ARC_KVSET) (param value : CStr) :
    ParserStatus (add_default kv param value).1 := by
  unfold add_default
  rcases hr : arc_add_plist kv param value false with ⟨ok, kv1⟩
  cases ok
  · exact Or.inr (Or.inr rfl)
  · exact Or.inl rfl

theorem set_defaults_status (kv : ARC_KVSET) (r : ARC_STAT × ARC_KVSET)
    (hr : set_defaults kv = .ok r) : ParserStatus r.1 := by
  have hq := add_default_status kv (cstr "q") (cstr "dns/txt")
  have hk := add_default_status kv (cstr "k") (cstr "rsa")
  unfold set_defaults at hr
  split at hr
  · simp only [bind, Except.bind, pure, Except.pure] at hr
    repeat' split at hr
    all_goals first
      | (cases hr; exact Or.inr (Or.inl rfl))
      | (cases hr; exact Or.inr (Or.inr rfl))
      | (cases hr; exact hq)
      | cases hr
  · cases hr
    exact hk
  · cases hr

/-- What `arc_process_set` returns: one of OK, SYNTAX and INTERNAL, and the
message with one more set. -/
theorem arc_process_set_status (msg : ARC_MESSAGE) (type : arc_kvsettype_t) (str : List Nat)
    (len : Nat) (status : ARC_STAT) (m : ARC_MESSAGE)
    (h : arc_process_set msg type str len = .ok (status, m)) :
    ParserStatus status ∧ ∃ kv, m = link_set msg kv := by
  unfold arc_process_set at h
  dsimp only at h
  rcases hr : scan_loop _ _ with ⟨status1, kv⟩ | st
  · rw [hr] at h
    cases h
    exact ⟨scan_loop_errStatus _ _ _ hr, kv, rfl⟩
  · rw [hr] at h
    dsimp only at h
    rcases hr2 : scan_end st with ⟨status1, kv⟩ | kv
    · rw [hr2] at h
      cases h
      exact ⟨scan_end_errStatus _ _ hr2, kv, rfl⟩
    · rw [hr2] at h
      dsimp only at h
      rcases hr3 : set_defaults kv with f | ⟨status1, kv1⟩
      · rw [hr3] at h
        cases h
      · rw [hr3] at h
        cases h
        exact ⟨set_defaults_status kv _ hr3, kv1, rfl⟩

theorem arc_eoh_headers_state : ∀ (l : List arc_hdrfield) (msg : ARC_MESSAGE) (status : ARC_STAT)
    (m : ARC_MESSAGE), arc_eoh_headers msg l = .ok (status, m) →
    ParserStatus status ∧ m.arc_state = msg.arc_state := by
  intro l
  induction l with
  | nil =>
    intro msg status m h
    unfold arc_eoh_headers at h
    cases h
    exact ⟨Or.inl rfl, rfl⟩
  | cons hf rest ih =>
    intro msg status m h
    unfold arc_eoh_headers at h
    split_ifs at h with harc
    · split at h
      · cases h
      · cases h
      · rename_i kvtype colon _ _
        rcases hr : arc_process_set msg kvtype (hf.hdr_text.drop (colon + 1))
          (hf.hdr_textlen - hf.hdr_namelen - 1) with f | ⟨status1, msg1⟩
        · rw [hr] at h
          cases h
        · rw [hr] at h
          dsimp only at h
          obtain ⟨hst, kv, hm⟩ := arc_process_set_status _ _ _ _ _ _ hr
          have hs1 : msg1.arc_state = msg.arc_state := by rw [hm]; rfl
          split_ifs at h with hne
          · cases h
            exact ⟨hst, hs1⟩
          · obtain ⟨h1, h2⟩ := ih msg1 status m h
            exact ⟨h1, h2.trans hs1⟩
    · exact ih msg status m h

theorem seal_step_ret (g : Nat → Nat → Nat) (msg : ARC_MESSAGE) (w : Walk) (n : Nat) :
    RetKeepsState msg (seal_step g msg w n) := by
  intro status m h
  unfold seal_step at h
  by_cases hn : n ≥ w.nsets
  · rw [if_pos hn] at h
    cases h
  · rw [if_neg hn] at h
    cases hs : w.sets with
    | none => rw [hs] at h; cases h
    | some c =>
      rw [hs] at h
      dsimp only at h
      by_cases hc : c ((n + UINT_MOD - 1) % UINT_MOD) ≠ 0
      · rw [if_pos hc] at h
        cases h
        exact ⟨Or.inr (Or.inl rfl), rfl⟩
      · rw [if_neg hc] at h
        cases h

theorem seal_walk_ret (g : Nat → Nat → Nat) (msg : ARC_MESSAGE) :
    ∀ (l : List ARC_KVSET) (w : Walk), RetKeepsState msg (seal_walk g msg w l) := by
  intro l
  induction l with
  | nil => intro w status m h; cases h
  | cons kv rest ih =>
    intro w status m h
    unfold seal_walk at h
    rcases hi : set_instance kv with f | n
    · rw [hi] at h
      cases h
    · rw [hi] at h
      dsimp only at h
      rcases hs : seal_step g msg w n with w1 | ⟨st1, m1⟩ | f
      · rw [hs] at h
        exact ih w1 status m h
      · rw [hs] at h
        cases h
        exact seal_step_ret g msg w n _ _ hs
      · rw [hs] at h
        cases h

theorem gap_check_ret (msg : ARC_MESSAGE) (w : Walk) : RetKeepsState msg (gap_check msg w) := by
  intro status m h
  unfold gap_check at h
  cases hs : w.sets with
  | none =>
    rw [hs] at h
    dsimp only at h
    by_cases hn : w.n = 0
    · rw [if_pos hn] at h; cases h
    · rw [if_neg hn] at h; cases h
  | some c =>
    rw [hs] at h
    dsimp only at h
    by_cases hc : (List.range w.n).any (fun i => c i == 0) = true
    · rw [if_pos hc] at h
      cases h
      exact ⟨Or.inr (Or.inl rfl), rfl⟩
    · rw [if_neg hc] at h
      cases h

theorem inst_step_ret (msg : ARC_MESSAGE) (w : Walk) (n : Nat) :
    RetKeepsState msg (inst_step msg w n) := by
  intro status m h
  unfold inst_step at h
  by_cases hn : n > w.nsets
  · rw [if_pos hn] at h
    cases h
    exact ⟨Or.inr (Or.inl rfl), rfl⟩
  · rw [if_neg hn] at h
    cases hs : w.sets with
    | none => rw [hs] at h; cases h
    | some c =>
      rw [hs] at h
      dsimp only at h
      by_cases hc : c n = 1
      · rw [if_pos hc] at h
        cases h
        exact ⟨Or.inr (Or.inl rfl), rfl⟩
      · rw [if_neg hc] at h
        cases h

theorem inst_walk_ret (msg : ARC_MESSAGE) :
    ∀ (l : List ARC_KVSET) (w : Walk), RetKeepsState msg (inst_walk msg w l) := by
  intro l
  induction l with
  | nil => intro w status m h; cases h
  | cons kv rest ih =>
    intro w status m h
    unfold inst_walk at h
    rcases hi : set_instance kv with f | n
    · rw [hi] at h
      cases h
    · rw [hi] at h
      dsimp only at h
      rcases hs : inst_step msg w n with w1 | ⟨st1, m1⟩ | f
      · rw [hs] at h
        exact ih w1 status m h
      · rw [hs] at h
        cases h
        exact inst_step_ret msg w n _ _ hs
      · rw [hs] at h
        cases h

theorem andThen_ret (msg : ARC_MESSAGE) (r : Flow) (f : Walk → Flow)
    (hr : RetKeepsState msg r) (hf : ∀ w, RetKeepsState msg (f w)) :
    RetKeepsState msg (r.andThen f) := by
  intro status m h
  unfold Flow.andThen at h
  cases r with
  | next w => exact hf w status m h
  | ret st1 m1 => exact hr status m h
  | fault f1 => cases h

theorem arc_eoh_sets_state (g : Nat → Nat → Nat) (n0 : Nat) (msg : ARC_MESSAGE)
    (status : ARC_STAT) (m : ARC_MESSAGE) (h : arc_eoh_sets g n0 msg = .ok (status, m)) :
    ParserStatus status ∧ m.arc_state = msg.arc_state := by
  have hkeep : RetKeepsState msg
      ((seal_walk g msg { sets := none, nsets := 0, n := n0, allocs := 0 }
          (arc_sets_of msg .SEAL)).andThen fun w1 =>
        (gap_check msg w1).andThen fun w2 =>
        (inst_walk msg (clear_sets w2) (arc_sets_of msg .SIGNATURE)).andThen fun w3 =>
        (gap_check msg w3).andThen fun w4 =>
        (inst_walk msg (clear_sets w4) (arc_sets_of msg .AR)).andThen fun w5 =>
        gap_check msg w5) := by
    apply andThen_ret _ _ _ (seal_walk_ret g msg _ _)
    intro w1
    apply andThen_ret _ _ _ (gap_check_ret msg _)
    intro w2
    apply andThen_ret _ _ _ (inst_walk_ret msg _ _)
    intro w3
    apply andThen_ret _ _ _ (gap_check_ret msg _)
    intro w4
    apply andThen_ret _ _ _ (inst_walk_ret msg _ _)
    intro w5
    exact gap_check_ret msg _
  unfold arc_eoh_sets at h
  dsimp only at h
  split at h
  · cases h
    exact ⟨Or.inl rfl, rfl⟩
  · rename_i st1 m1 hr
    cases h
    exact hkeep _ _ hr
  · cases h

/-- What `arc_eoh` returns: one of OK, SYNTAX and INTERNAL, and a message in
the state it was called in. -/
theorem arc_eoh_state (g : Nat → Nat → Nat) (n0 : Nat) (msg : ARC_MESSAGE)
    (status : ARC_STAT) (m : ARC_MESSAGE) (h : arc_eoh g n0 msg = .ok (status, m)) :
    ParserStatus status ∧ m.arc_state = msg.arc_state := by
  unfold arc_eoh at h
  rcases hr : arc_eoh_headers msg msg.arc_hhead with f | ⟨status1, msg1⟩
  · rw [hr] at h
    cases h
  · rw [hr] at h
    dsimp only at h
    obtain ⟨hs1, hm1⟩ := arc_eoh_headers_state _ _ _ _ hr
    split_ifs at h with hne
    · cases h
      exact ⟨hs1, hm1⟩
    · obtain ⟨hs2, hm2⟩ := arc_eoh_sets_state g n0 msg1 status m h
      exact ⟨hs2, hm2.trans hm1⟩


theorem arc_header_field_in_order (msg : ARC_MESSAGE) (hdr : List Nat) (m : ARC_MESSAGE)
    (hst : msg.arc_state ≤ ARC_STATE_HEADER) : arc_header_field msg hdr ≠ .ok (.INVALID, m) := by
  intro h
  unfold arc_header_field at h
  split_ifs at h with h1 h2
  · exact absurd h2 (Nat.not_lt.mpr hst)
  · rcases hl : rfc5322_loop none 0 hdr with st | _ | colon
    · rw [hl] at h
      have hs := rfc5322_loop_error hdr none 0 st hl
      subst hs
      cases h
    · rw [hl] at h
      cases h
    · rw [hl] at h
      dsimp only at h
      split_ifs at h <;> cases h

/-! ## Lemmas on the length recorded for a header -/


theorem crlf_normal_length : ∀ (l : List Nat) (prev : Nat),
    l.length ≤ (crlf_normal prev l).length := by
  intro l
  induction l with
  | nil => intro _; exact Nat.le_refl _
  | cons c rest ih =>
    intro prev
    have := ih c
    simp only [crlf_normal, List.length_append, List.length_cons]
    split_ifs <;> simp <;> omega

theorem crlf_normal_eq_of_length : ∀ (l : List Nat) (prev : Nat),
    (crlf_normal prev l).length = l.length → crlf_normal prev l = l := by
  intro l
  induction l with
  | nil => intro _ _; rfl
  | cons c rest ih =>
    intro prev h
    have hle := crlf_normal_length rest c
    simp only [crlf_normal, List.length_append, List.length_cons] at h
    simp only [crlf_normal]
    split_ifs at h ⊢ with h1 h2
    · simp at h; omega
    · simp at h; omega
    · simp only [List.length_singleton] at h
      rw [ih c (by omega)]
      rfl

theorem name_end_le (hdr : List Nat) : ∀ e : Nat, name_end hdr e ≤ e := by
  intro e
  induction e with
  | zero => exact Nat.le_refl _
  | succ e ih =>
    simp only [name_end]
    split_ifs
    · exact Nat.le_succ_of_le ih
    · exact Nat.le_refl _

theorem hcopy_of_length (str : List Nat) (len : Nat) : (hcopy_of str len).length ≤ len := by
  unfold hcopy_of
  exact (List.takeWhile_sublist _).length_le.trans (List.length_take_le _ _)

/-- The record of an accepted line when FIXCRLF is set: the text is the
rewritten line, the length recorded is that of the line as it came. -/
theorem arc_header_field_fixcrlf (msg : ARC_MESSAGE) (hdr : List Nat) (m : ARC_MESSAGE)
    (hnul : 0 ∉ hdr) (hfix : fixcrlf_set msg = true)
    (h : arc_header_field msg hdr = .ok (.OK, m)) :
    ∃ hf colon, m.arc_hhead = msg.arc_hhead ++ [hf] ∧ hf.hdr_colon = some colon ∧
      colon < hdr.length ∧ hf.hdr_namelen ≤ colon ∧ hf.hdr_textlen = hdr.length ∧
      hf.hdr_text = crlf_normal 0 hdr := by
  obtain ⟨pre, post, hh, _, hm⟩ := arc_header_field_accepted msg hdr m h
  have htext : (header_record { msg with arc_state := ARC_STATE_HEADER } hdr pre.length
      (name_end hdr pre.length)).hdr_text = crlf_normal 0 hdr := by
    show (if fixcrlf_set msg = true then _ else _) = _
    rw [if_pos hfix]
    simp only [arc_strndup, List.take_length]
    rw [fixcrlf_loop_eq hdr 0 hnul, if_neg (by simp)]
    rfl
  refine ⟨_, pre.length, by rw [hm]; rfl, rfl, ?_, name_end_le hdr pre.length, rfl, htext⟩
  rw [hh]
  simp

/-! ## The claims -/

/-- C1 (the code departs from it): for every N ≥ 1 and every message whose SEAL,
SIGNATURE and AR sets each carry exactly the instance numbers 1..N, once each
and in any order, the chain-assembly step of `arc_eoh` does not return OK with
chain length N: whatever the uninitialised cells hold, it returns SYNTAX and
leaves `arc_nsets` as it was. -/
theorem C1_complete_chain_rejected (g : Nat → Nat → Nat) (n0 : Nat) (msg : ARC_MESSAGE)
    (N : Nat) (hN : 1 ≤ N)
    (hseal : ((arc_sets_of msg .SEAL).map set_instance).Perm
      ((List.range' 1 N).map Except.ok))
    (hsig : ((arc_sets_of msg .SIGNATURE).map set_instance).Perm
      ((List.range' 1 N).map Except.ok))
    (_har : ((arc_sets_of msg .AR).map set_instance).Perm
      ((List.range' 1 N).map Except.ok)) :
    ∃ m, arc_eoh_sets g n0 msg = .ok (.SYNTAX, m) ∧ m.arc_nsets = msg.arc_nsets :=
  arc_eoh_sets_positive_instances g n0 msg (instancesPositive_of_perm hseal)
    (ne_nil_of_perm hN hseal) (instancesPositive_of_perm hsig) (ne_nil_of_perm hN hsig)

/-- C1, at the single-hop chain `i=1` / `i=1` / `i=1`. -/
theorem C1_complete_chain_rejected_witness :
    ∃ m, arc_eoh_sets (fun _ _ => 0) 0 Sample.single_hop = .ok (.SYNTAX, m) ∧
      m.arc_nsets = Sample.single_hop.arc_nsets :=
  C1_complete_chain_rejected (fun _ _ => 0) 0 Sample.single_hop 1 (by decide)
    (by decide) (by decide) (by decide)

/-- C2 (the code departs from it): `arc_eoh` returns OK with chain length 1 on
a message whose only signature and only A-R carry instance 0, so that no
SIGNATURE set and no AR set of instance 1 exists; the result does not depend
on what the uninitialised cells hold. -/
theorem C2_accepts_instance_zero (g : Nat → Nat → Nat) (n0 : Nat) :
    arc_eoh_sets g n0 Sample.zero_instances =
        .ok (.OK, { Sample.zero_instances with arc_nsets := 1 }) ∧
      (arc_sets_of Sample.zero_instances .SEAL).map set_instance = [.ok 1] ∧
      (arc_sets_of Sample.zero_instances .SIGNATURE).map set_instance = [.ok 0] ∧
      (arc_sets_of Sample.zero_instances .AR).map set_instance = [.ok 0] := by
  refine ⟨rfl, by decide, by decide, by decide⟩

/-- C3 (the code departs from it): when the verifier call that `arc_eom` makes
for the latest instance, `arc_validate(msg, arc_nsets - 1)`, returns BADSIG on
a chain of length N ≥ 1, `arc_eom` returns OK and the chain state it computes
is PASS, not FAIL: the assignment of FAIL is overwritten. -/
theorem C3_badsig_latest_yields_pass (arc_validate : ARC_MESSAGE → Nat → ARC_STAT)
    (fuel : Nat) (msg : ARC_MESSAGE) (hN : 1 ≤ msg.arc_nsets)
    (hbad : arc_validate msg (msg.arc_nsets - 1) = .BADSIG) :
    arc_eom arc_validate fuel msg = .ok (.OK, .PASS) := by
  have h0 : ¬ msg.arc_nsets = 0 := by omega
  simp only [arc_eom, h0, hbad, if_true, if_false]

/-- C3, at the single-hop chain with a verifier that always answers BADSIG. -/
theorem C3_badsig_latest_yields_pass_witness :
    arc_eom (fun _ _ => ARC_STAT.BADSIG) 0 Sample.single_hop_assembled = .ok (.OK, .PASS) :=
  C3_badsig_latest_yields_pass (fun _ _ => ARC_STAT.BADSIG) 0 Sample.single_hop_assembled
    (by decide) rfl

/-- C4 (the code departs from it): on every chain of length N ≥ 1 whose seals
carry instances in 1..N with `cv=none` at instance 1 and `cv=pass` at the
others, with a verifier that answers OK throughout, `arc_eom` does not return:
its loop starts at `N - 2` (wrapped to `2 ^ 32 - 1` for N = 1), counts upwards,
and within four passes asks for a seal of an instance that no seal carries,
where `arc_param_get` is called on `NULL` and its assertion fails. -/
theorem C4_valid_chain_runs_off (arc_validate : ARC_MESSAGE → Nat → ARC_STAT) (fuel N : Nat)
    (msg : ARC_MESSAGE) (hN : 1 ≤ N) (hN2 : N + 1 < UINT_MOD) (hlen : msg.arc_nsets = N)
    (hseal : ∀ kv ∈ arc_sets_of msg .SEAL, ValidSeal N kv)
    (hv : ∀ s, arc_validate msg s = .OK) (hfuel : 4 ≤ fuel) :
    arc_eom arc_validate fuel msg = .error .assertion := by
  have h0 : ¬ msg.arc_nsets = 0 := by omega
  have hloop : arc_eom_loop arc_validate msg fuel ((msg.arc_nsets + UINT_MOD - 2) % UINT_MOD) =
      .error .assertion := by
    rw [hlen]
    by_cases h1 : N = 1
    · obtain ⟨f, rfl⟩ : ∃ f, fuel = f + 1 := ⟨fuel - 1, by omega⟩
      apply arc_eom_loop_no_seal arc_validate msg N hseal f
      right
      subst h1
      decide
    · have hs : (N + UINT_MOD - 2) % UINT_MOD = N - 2 := by
        have : N + UINT_MOD - 2 = (N - 2) + UINT_MOD := by omega
        rw [this, Nat.add_mod_right]
        exact Nat.mod_eq_of_lt (by omega)
      rw [hs]
      exact arc_eom_loop_runs_off arc_validate msg N hN2 hseal hv 3 fuel (N - 2)
        (by omega) (by omega)
  simp only [arc_eom, h0, hv, hloop, if_false]
  simp

/-- C4, at the single-hop chain `i=1; cv=none` with a verifier that always
answers OK. -/
theorem C4_valid_chain_runs_off_witness :
    arc_eom (fun _ _ => ARC_STAT.OK) 4 Sample.single_hop_assembled = .error .assertion :=
  C4_valid_chain_runs_off (fun _ _ => ARC_STAT.OK) 4 1 Sample.single_hop_assembled
    (by decide) (by decide) rfl
    (by
      intro kv hkv
      have hkv1 : kv = Sample.kvset .SEAL [("i", "1"), ("cv", "none")] := by
        have : arc_sets_of Sample.single_hop_assembled .SEAL =
            [Sample.kvset .SEAL [("i", "1"), ("cv", "none")]] := by decide
        rw [this] at hkv
        exact List.mem_singleton.mp hkv
      subst hkv1
      exact ⟨1, cstr "1", by decide, by decide, by decide, by decide, by decide⟩)
    (fun _ => rfl) (by decide)

/-- C5 (the code departs from it): on a message without any ARC header and
without tag-sets, `arc_eoh` runs its gap loops up to the local `n`, which
nothing has assigned, over the `NULL` array `sets`: it returns OK with chain
length 0 only if that indeterminate value is 0, and dereferences `NULL`
otherwise.  On chain length 0 `arc_eom` does return OK with chain state NONE. -/
theorem C5_empty_chain_reads_unassigned_bound (g : Nat → Nat → Nat) (n0 : Nat)
    (msg : ARC_MESSAGE) (hh : ∀ h ∈ msg.arc_hhead, is_arc_header (hnbuf h) = false)
    (hk : msg.arc_kvsethead = []) :
    arc_eoh g n0 msg =
        (if n0 = 0 then .ok (.OK, { msg with arc_nsets := 0 }) else .error .nullDeref) ∧
      ∀ arc_validate fuel,
        arc_eom arc_validate fuel { msg with arc_nsets := 0 } = .ok (.OK, .NONE) := by
  have hsets : ∀ t, arc_sets_of msg t = [] := by
    intro t
    simp [arc_sets_of, hk]
  refine ⟨?_, fun _ _ => rfl⟩
  simp only [arc_eoh, arc_eoh_headers_no_arc msg _ hh, arc_eoh_sets, hsets, seal_walk,
    inst_walk, Flow.andThen, gap_check, clear_sets, Option.map]
  by_cases h : n0 = 0
  · simp [h]
  · simp [h]

/-- C5, at the message holding the one header `Subject: hi`, with 1 as the
value found in the unassigned local. -/
theorem C5_empty_chain_reads_unassigned_bound_witness :
    arc_eoh (fun _ _ => 0) 1 Sample.subject_only = .error .nullDeref ∧
      ∀ arc_validate fuel,
        arc_eom arc_validate fuel { Sample.subject_only with arc_nsets := 0 } =
          .ok (.OK, .NONE) :=
  C5_empty_chain_reads_unassigned_bound (fun _ _ => 0) 1 Sample.subject_only
    (by decide) rfl

/-- C6 (the code departs from it): seals arriving as `i=3`, `i=1` leave out
the instance 2, yet `arc_eoh` returns OK with chain length 3 when the
signature and the A-R carry `i=0` and the cell `malloc` hands out for slot 1
reads 0: the gap loop runs up to the number read last, 1, not up to `nsets`. -/
theorem C6_seal_gap_accepted (g : Nat → Nat → Nat) (n0 : Nat) (hg : g 0 0 = 0) :
    (arc_sets_of Sample.gap_3_1 .SEAL).map set_instance = [.ok 3, .ok 1] ∧
      arc_eoh_sets g n0 Sample.gap_3_1 = .ok (.OK, { Sample.gap_3_1 with arc_nsets := 3 }) := by
  refine ⟨by decide, ?_⟩
  rw [override_origin g 0 hg]
  rfl

/-- C6, with an allocator that hands out zeroed cells. -/
theorem C6_seal_gap_accepted_witness :
    (arc_sets_of Sample.gap_3_1 .SEAL).map set_instance = [.ok 3, .ok 1] ∧
      arc_eoh_sets (fun _ _ => 0) 0 Sample.gap_3_1 =
        .ok (.OK, { Sample.gap_3_1 with arc_nsets := 3 }) :=
  C6_seal_gap_accepted (fun _ _ => 0) 0 rfl

/-- C7 (the code departs from it): with two seals that both carry `i=2`, the
second one takes the growing branch (`n >= nsets`) and is never compared with
the first.  On the two seals alone `arc_eoh` returns SYNTAX from a gap loop and
leaves `arc_sigerror` untouched, whatever the uninitialised cells hold; with a
signature and an A-R of `i=0` and a nonzero cell for slot 1 it returns OK with
chain length 2. -/
theorem C7_duplicate_seal_not_flagged (g : Nat → Nat → Nat) (n0 : Nat) :
    arc_eoh_sets g n0 Sample.dup_2_2 = .ok (.SYNTAX, Sample.dup_2_2) ∧
      Sample.dup_2_2.arc_sigerror = .ZEROED ∧
      arc_eoh_sets (fun _ _ => 1) n0 Sample.dup_2_2_zero =
        .ok (.OK, { Sample.dup_2_2_zero with arc_nsets := 2 }) := by
  refine ⟨?_, rfl, rfl⟩
  by_cases hg : g 0 0 = 0
  · rw [override_origin g 0 hg]
    rfl
  · have hg1 : g 0 0 = (g 0 0 - 1) + 1 := by omega
    rw [override_origin g _ hg1]
    rfl

/-- C8 (the code departs from it): for the set types SEAL and AR
`arc_process_set` never returns OK, whatever the tag-list: the `switch` on the
set type has cases for SIGNATURE and KEY only, and a tag-list that scans
without error reaches `default: assert(0)`, as `i=1; cv=none` does. -/
theorem C8_seal_and_ar_never_ok (msg : ARC_MESSAGE) (type : arc_kvsettype_t) (str : List Nat)
    (len : Nat) (ht : type = .SEAL ∨ type = .AR) :
    (∀ m, arc_process_set msg type str len ≠ .ok (.OK, m)) ∧
      arc_process_set msg type (cstr "i=1; cv=none") 12 = .error .assertion := by
  constructor
  · intro m
    have h1 := scan_loop_keeps (kept_type type) ((str.take len).takeWhile (fun c => c != 0))
      { state := 0, spaced := false, param := [], value := none, kv := ARC_KVSET.init type } rfl
    unfold arc_process_set
    dsimp only
    rcases hr : scan_loop _ _ with ⟨status, kv⟩ | st
    · intro hc
      injection hc with hc
      injection hc with hc1 hc2
      exact (h1.2 _ hr).2 hc1
    · have h2 := scan_end_keeps (kept_type type) st (h1.1 st hr)
      dsimp only
      rcases hr2 : scan_end st with ⟨status, kv⟩ | kv
      · intro hc
        injection hc with hc
        injection hc with hc1 hc2
        exact (h2.2 _ hr2).2 hc1
      · have hty : kv.set_type = type := h2.1 kv hr2
        have hdef : set_defaults kv = .error .assertion := by
          unfold set_defaults
          rcases ht with ht | ht <;> rw [hty, ht]
        dsimp only
        rw [hdef]
        intro hc
        cases hc
  · rcases ht with ht | ht <;> subst ht <;> rfl

/-- C8, at the set type SEAL and the tag-list `i=1; cv=none`. -/
theorem C8_seal_and_ar_never_ok_witness :
    (∀ m, arc_process_set (arc_message Sample.lib) .SEAL (cstr "i=1; cv=none") 12 ≠
        .ok (.OK, m)) ∧
      arc_process_set (arc_message Sample.lib) .SEAL (cstr "i=1; cv=none") 12 =
        .error .assertion :=
  C8_seal_and_ar_never_ok (arc_message Sample.lib) .SEAL (cstr "i=1; cv=none") 12 (Or.inl rfl)

/-- C9 (the code departs from it): a tag-list that ends in `z =` is accepted,
and the entry for its last parameter is stored under the uncollapsed name
`z ` (with the blank): looking up `z` gives `NULL`, not the empty string.  The
end-of-input case for state 2 calls `arc_add_plist` without `arc_collapse`,
which the `;` case of the same state does call. -/
theorem C9_trailing_name_not_collapsed :
    ∃ kv, arc_process_set (arc_message Sample.lib) .SIGNATURE Sample.sig_trailing
          Sample.sig_trailing.length = .ok (.OK, link_set (arc_message Sample.lib) kv) ∧
      arc_param_get kv (cstr "x") = .ok (some (cstr "2")) ∧
      arc_param_get kv (cstr "z") = .ok none ∧
      arc_param_get kv (cstr "z ") = .ok (some []) := by
  refine ⟨_, rfl, ?_, ?_, ?_⟩ <;> decide

/-- C10 (the code departs from it): the store folds case and the lookup does
not.  In the set parsed from a signature tag-list with `Ab=1`, looking up `Ab`
gives `1` while the spellings `AB` and `ab` give `NULL`; in the set parsed
from a list with `Ab=1; AB=2` the second assignment has replaced the value of
the entry `Ab`, which now gives `2`, and `AB` still gives `NULL`; and the set
parsed from a list with `P=1; p=2` holds both parameters, each with its own
value. -/
theorem C10_lookup_not_case_insensitive :
    (∃ kv, arc_process_set (arc_message Sample.lib) .SIGNATURE Sample.sig_mixed_case
          Sample.sig_mixed_case.length = .ok (.OK, link_set (arc_message Sample.lib) kv) ∧
        arc_param_get kv (cstr "Ab") = .ok (some (cstr "1")) ∧
        arc_param_get kv (cstr "AB") = .ok none ∧
        arc_param_get kv (cstr "ab") = .ok none) ∧
      (∃ kv, arc_process_set (arc_message Sample.lib) .SIGNATURE Sample.sig_respelled
          Sample.sig_respelled.length = .ok (.OK, link_set (arc_message Sample.lib) kv) ∧
        arc_param_get kv (cstr "Ab") = .ok (some (cstr "2")) ∧
        arc_param_get kv (cstr "AB") = .ok none) ∧
      (∃ kv, arc_process_set (arc_message Sample.lib) .SIGNATURE Sample.sig_both_cases
          Sample.sig_both_cases.length = .ok (.OK, link_set (arc_message Sample.lib) kv) ∧
        arc_param_get kv (cstr "P") = .ok (some (cstr "1")) ∧
        arc_param_get kv (cstr "p") = .ok (some (cstr "2"))) := by
  refine ⟨?_, ?_, ?_⟩
  · refine ⟨_, rfl, ?_, ?_, ?_⟩ <;> decide
  · refine ⟨_, rfl, ?_, ?_⟩ <;> decide
  · refine ⟨_, rfl, ?_, ?_⟩ <;> decide

/-- C11: for every SIGNATURE tag-list that scans without error and whose set
holds no entry under at least one of the names s, h, d, b, v, i, a,
`arc_process_set` returns SYNTAX, and the set it has linked into the message
is marked bad. -/
theorem C11_missing_mandatory_rejected (msg : ARC_MESSAGE) (str : List Nat) (len : Nat)
    (st : ScanState) (kv : ARC_KVSET)
    (hscan : scan_loop (scan_start .SIGNATURE) (hcopy_of str len) = .ok st)
    (hend : scan_end st = .ok kv) (hlack : ∃ p ∈ mandatory_names, ¬ Stored kv p) :
    arc_process_set msg .SIGNATURE str len = .ok (.SYNTAX, link_set msg (mark_bad kv)) ∧
      (mark_bad kv).set_bad = true := by
  obtain ⟨hty, hck, _, hok⟩ := arc_process_set_scanned msg .SIGNATURE str len st kv hscan hend
  obtain ⟨s, h, d, b, v, i, a, hl⟩ := mandatoryLookups_exist kv hck
  have hm := mandatory_missing kv hck s h d b v i a hl hlack
  exact ⟨hok _ _ (set_defaults_missing kv hty s h d b v i a hl hm), rfl⟩

/-- C11, at the tag-list `s=a; h=b`, which lacks `d`. -/
theorem C11_missing_mandatory_rejected_witness :
    arc_process_set (arc_message Sample.lib) .SIGNATURE Sample.sig_two Sample.sig_two.length =
        .ok (.SYNTAX, link_set (arc_message Sample.lib)
          (mark_bad (Sample.scanned .SIGNATURE Sample.sig_two))) ∧
      (mark_bad (Sample.scanned .SIGNATURE Sample.sig_two)).set_bad = true :=
  C11_missing_mandatory_rejected (arc_message Sample.lib) Sample.sig_two Sample.sig_two.length
    (Sample.scan_state .SIGNATURE Sample.sig_two) (Sample.scanned .SIGNATURE Sample.sig_two)
    rfl rfl ⟨cstr "d", by decide, by unfold Stored; decide⟩

/-- C12 (the code departs from it): for every SIGNATURE tag-list that scans
without error, holds the seven mandatory parameters with an `h` that names no
ARC header, and holds no `t`, `arc_process_set` does not return: it hands the
`NULL` lookup of `t` to `arc_check_uint`, whose assertion fails. -/
theorem C12_absent_t_asserts (msg : ARC_MESSAGE) (str : List Nat) (len : Nat)
    (st : ScanState) (kv : ARC_KVSET) (hval : CStr)
    (hscan : scan_loop (scan_start .SIGNATURE) (hcopy_of str len) = .ok st)
    (hend : scan_end st = .ok kv) (hall : ∀ p ∈ mandatory_names, Stored kv p)
    (hh : arc_param_get kv (cstr "h") = .ok (some hval))
    (hnone : ∀ e ∈ hval.splitOn 58, is_arc_header e = false)
    (ht : ¬ Stored kv (cstr "t")) :
    arc_process_set msg .SIGNATURE str len = .error .assertion := by
  obtain ⟨hty, hck, herr, _⟩ := arc_process_set_scanned msg .SIGNATURE str len st kv hscan hend
  obtain ⟨s, h, d, b, v, i, a, hl⟩ := mandatoryLookups_exist kv hck
  have hm := mandatory_present kv hck s h d b v i a hl hall
  have hhv : h = some hval := by
    have := hl.hh
    rw [hh] at this
    injection this with this
    exact this.symm
  have hf : (strtok_tokens 58 [] (h.getD [])).any is_arc_header = false := by
    rw [hhv]
    cases hc : (strtok_tokens 58 [] ((some hval).getD [])).any is_arc_header
    · rfl
    · obtain ⟨e, he, hea⟩ := List.any_eq_true.mp hc
      have := hnone e (strtok_tokens_subset hval e he)
      rw [this] at hea
      cases hea
  have htn := arc_param_get_of_not_stored kv hck (cstr "t") (by decide) ht
  exact herr _ (set_defaults_no_t kv hty s h d b v i a hl hm hf htn)

/-- C12, at the tag-list `s=a; h=b; d=c; b=e; v=1; i=1; a=f`. -/
theorem C12_absent_t_asserts_witness :
    arc_process_set (arc_message Sample.lib) .SIGNATURE Sample.sig_seven
      Sample.sig_seven.length = .error .assertion :=
  C12_absent_t_asserts (arc_message Sample.lib) Sample.sig_seven Sample.sig_seven.length
    (Sample.scan_state .SIGNATURE Sample.sig_seven) (Sample.scanned .SIGNATURE Sample.sig_seven)
    (cstr "b") rfl rfl (by unfold Stored; decide) (by decide) (by decide)
    (by unfold Stored; decide)

/-- C13: for every SIGNATURE tag-list that scans without error and holds the
seven mandatory parameters, if the `h` value split at `:` has an element that
equals an ARC header name up to letter case, `arc_process_set` returns
INTERNAL and the set it has linked into the message is marked bad, whatever
`t`, `x` and `i` are. -/
theorem C13_forbidden_header_rejected (msg : ARC_MESSAGE) (str : List Nat) (len : Nat)
    (st : ScanState) (kv : ARC_KVSET) (hval : CStr)
    (hscan : scan_loop (scan_start .SIGNATURE) (hcopy_of str len) = .ok st)
    (hend : scan_end st = .ok kv) (hall : ∀ p ∈ mandatory_names, Stored kv p)
    (hh : arc_param_get kv (cstr "h") = .ok (some hval))
    (hsigned : ∃ e ∈ hval.splitOn 58, is_arc_header e = true) :
    arc_process_set msg .SIGNATURE str len = .ok (.INTERNAL, link_set msg (mark_bad kv)) ∧
      (mark_bad kv).set_bad = true := by
  obtain ⟨hty, hck, _, hok⟩ := arc_process_set_scanned msg .SIGNATURE str len st kv hscan hend
  obtain ⟨s, h, d, b, v, i, a, hl⟩ := mandatoryLookups_exist kv hck
  have hm := mandatory_present kv hck s h d b v i a hl hall
  have hhv : h = some hval := by
    have := hl.hh
    rw [hh] at this
    injection this with this
    exact this.symm
  have hf : (strtok_tokens 58 [] (h.getD [])).any is_arc_header = true := by
    rw [hhv]
    obtain ⟨e, he, hea⟩ := hsigned
    have hne : e ≠ [] := by
      intro h0
      rw [h0] at hea
      revert hea
      decide
    exact List.any_eq_true.mpr ⟨e, mem_strtok_tokens hval e he hne, hea⟩
  exact ⟨hok _ _ (set_defaults_forbidden kv hty s h d b v i a hl hm hf), rfl⟩

/-- C13, at the tag-list `s=a; h=from:arc-seal; d=c; b=e; v=1; i=x; a=f`. -/
theorem C13_forbidden_header_rejected_witness :
    arc_process_set (arc_message Sample.lib) .SIGNATURE Sample.sig_signs_seal
        Sample.sig_signs_seal.length =
        .ok (.INTERNAL, link_set (arc_message Sample.lib)
          (mark_bad (Sample.scanned .SIGNATURE Sample.sig_signs_seal))) ∧
      (mark_bad (Sample.scanned .SIGNATURE Sample.sig_signs_seal)).set_bad = true :=
  C13_forbidden_header_rejected (arc_message Sample.lib) Sample.sig_signs_seal
    Sample.sig_signs_seal.length (Sample.scan_state .SIGNATURE Sample.sig_signs_seal)
    (Sample.scanned .SIGNATURE Sample.sig_signs_seal) (cstr "from:arc-seal") rfl rfl
    (by unfold Stored; decide) (by decide) ⟨cstr "arc-seal", by decide, by decide⟩

/-- C14, refuted as stated: `arc_check_uint` returns TRUE for `+5`, which
starts with a non-digit, and FALSE for `18446744073709551615`, which is made
only of digits. -/
theorem C14_sign_accepted_max_rejected :
    arc_check_uint (some (cstr "+5")) = .ok true ∧
      arc_check_uint (some (cstr "18446744073709551615")) = .ok false := by
  refine ⟨?_, ?_⟩ <;> decide

/-- C14, as amended: on a string without NUL and without white space,
`arc_check_uint` returns TRUE if and only if the string is an optional `+`
and a non-empty run of the digits 0-9 up to its end whose value is below
`2 ^ 64 - 1`; it returns FALSE otherwise, in particular for the empty string,
for a string starting with `-`, and for a string ending in a non-digit. -/
theorem C14_unsigned_check (v : CStr) (hnul : 0 ∉ v) (hsp : ∀ c ∈ v, isspace c = false) :
    (arc_check_uint (some v) = .ok true ↔ UIntPlain v) ∧
      (arc_check_uint (some v) = .ok false ↔ ¬ UIntPlain v) ∧
      (v = [] ∨ first_byte v = 45 ∨ (∃ u c, v = u ++ [c] ∧ isdigit c = false) →
        arc_check_uint (some v) = .ok false) := by
  have hiff : arc_check_uint (some v) = .ok true ↔ UIntPlain v := by
    rw [← uintAccepted_iff_plain v hsp]
    exact ⟨accepted_of_arc_check_uint v hnul, arc_check_uint_of_accepted v⟩
  have hfalse : arc_check_uint (some v) = .ok false ↔ ¬ UIntPlain v := by
    rw [← hiff]
    obtain ⟨b, hb⟩ := arc_check_uint_total v
    rw [hb]
    cases b <;> simp
  refine ⟨hiff, hfalse, ?_⟩
  intro h
  rw [hfalse]
  rintro ⟨sg, ds, hv, hsg, hds, hdig, _⟩
  rcases h with h | h | ⟨u, c, h, hc⟩
  · rw [h] at hv
    have := congrArg List.length hv
    simp only [List.length_nil, List.length_append] at this
    exact hds (List.length_eq_zero.mp (by omega))
  · obtain ⟨d, ds1, rfl⟩ := List.exists_cons_of_ne_nil hds
    have hd := isdigit_facts d (hdig d (List.mem_cons_self _ _))
    rw [hv] at h
    rcases hsg with rfl | rfl
    · exact absurd h hd.2.1
    · cases h
  · have hl : c ∈ ds := by
      have h1 : (sg ++ ds).getLast? = some c := by
        rw [← hv, h]
        simp
      rw [List.getLast?_append_of_ne_nil _ hds] at h1
      exact List.mem_of_getLast?_eq_some h1
    rw [hdig c hl] at hc
    cases hc

/-- C14 as amended, at `+5`: the string is accepted. -/
theorem C14_unsigned_check_witness :
    0 ∉ cstr "+5" ∧ (∀ c ∈ cstr "+5", isspace c = false) ∧ UIntPlain (cstr "+5") :=
  ⟨by decide, by decide,
    (C14_unsigned_check (cstr "+5") (by decide) (by decide)).1.mp (by decide)⟩

/-- C15: whenever `arc_process_set` returns a status other than OK, the set
it has linked into the message is marked bad; and every tag-list whose scan
ends inside a tag name (state 1: no `=` after the name) returns SYNTAX with
the set marked bad. -/
theorem C15_rejected_set_is_bad (msg : ARC_MESSAGE) (type : arc_kvsettype_t) (str : List Nat)
    (len : Nat) :
    (∀ status m, arc_process_set msg type str len = .ok (status, m) → status ≠ .OK →
        ∃ kv, m = link_set msg kv ∧ kv.set_bad = true) ∧
      (∀ st, scan_loop (scan_start type) (hcopy_of str len) = .ok st → st.state = 1 →
        arc_process_set msg type str len = .ok (.SYNTAX, link_set msg (mark_bad st.kv)) ∧
          (mark_bad st.kv).set_bad = true) := by
  constructor
  · intro status m h hne
    exact arc_process_set_rejected msg type str len status m h hne
  · intro st hscan hstate
    unfold scan_start hcopy_of at hscan
    have hend : scan_end st = .error (.SYNTAX, mark_bad st.kv) := by
      unfold scan_end
      simp [hstate]
    refine ⟨?_, rfl⟩
    unfold arc_process_set
    simp only [hscan, hend]

/-- C15, at the tag-list `s=foo; h`, whose scan ends inside the name `h`. -/
theorem C15_rejected_set_is_bad_witness :
    arc_process_set (arc_message Sample.lib) .SIGNATURE (cstr "s=foo; h") 8 =
        .ok (.SYNTAX, link_set (arc_message Sample.lib)
          (mark_bad (Sample.scan_state .SIGNATURE (cstr "s=foo; h")).kv)) ∧
      (mark_bad (Sample.scan_state .SIGNATURE (cstr "s=foo; h")).kv).set_bad = true :=
  (C15_rejected_set_is_bad (arc_message Sample.lib) .SIGNATURE (cstr "s=foo; h") 8).2
    (Sample.scan_state .SIGNATURE (cstr "s=foo; h")) rfl rfl

/-- C16, refuted as stated: `arc_process_set` rejects the tag-list `s=foo; h`
with SYNTAX and marks the set bad, and in that set the lookup of `s` still
returns `foo`. -/
theorem C16_parameter_survives_rejection :
    ∃ kv, arc_process_set (arc_message Sample.lib) .SIGNATURE (cstr "s=foo; h") 8 =
          .ok (.SYNTAX, link_set (arc_message Sample.lib) kv) ∧
      kv.set_bad = true ∧ arc_param_get kv (cstr "s") = .ok (some (cstr "foo")) := by
  refine ⟨_, rfl, ?_, ?_⟩ <;> decide

/-- C16, as amended: a rejected tag-list leaves the set the parser held when
it gave up, with the bad flag set and nothing else changed.  Whenever
`arc_process_set` returns a status other than OK, the set it has linked into
the message is `mark_bad kv0` for the set `kv0` held at the point of the error:
the flag is set, type and parameter table are those of `kv0`, the lookup of
every name returns exactly what it returns in `kv0` (the value stored, or
`NULL`), and every name whose lookup found a value at some earlier point of
the scan still finds one. -/
theorem C16_rejected_set_keeps_values (msg : ARC_MESSAGE) (type : arc_kvsettype_t)
    (str : List Nat) (len : Nat) (status : ARC_STAT) (m : ARC_MESSAGE)
    (h : arc_process_set msg type str len = .ok (status, m)) (hne : status ≠ .OK) :
    ∃ kv0, StoppedAt type (hcopy_of str len) kv0 ∧ m = link_set msg (mark_bad kv0) ∧
      (mark_bad kv0).set_bad = true ∧ (mark_bad kv0).set_type = kv0.set_type ∧
      (mark_bad kv0).set_plist = kv0.set_plist ∧
      (∀ p, arc_param_get (mark_bad kv0) p = arc_param_get kv0 p) ∧
      (∀ pre suf st p v, hcopy_of str len = pre ++ suf →
        scan_loop (scan_start type) pre = .ok st → arc_param_get st.kv p = .ok (some v) →
        ∃ v1, arc_param_get (mark_bad kv0) p = .ok (some v1)) := by
  obtain ⟨kv0, hs, hm⟩ := arc_process_set_stopped msg type str len status m h hne
  refine ⟨kv0, hs, hm, rfl, rfl, rfl, fun _ => rfl, ?_⟩
  intro pre suf st p v hsplit hpre hfound
  obtain ⟨kv, hm1, hf⟩ := arc_process_set_keeps_from (kept_found p) msg type str len pre suf st
    hsplit hpre ⟨v, hfound⟩ status m h
  have hkv : kv = mark_bad kv0 := link_set_inj msg _ _ (hm1.symm.trans hm)
  rw [← hkv]
  exact hf

/-- C16 as amended, at the tag-list `s=foo; h`: the set left is the set held
at the end of the list with the bad flag set, and in both the lookup of `s`
returns `foo`. -/
theorem C16_rejected_set_keeps_values_witness :
    ∃ kv0, StoppedAt .SIGNATURE (hcopy_of (cstr "s=foo; h") 8) kv0 ∧
      arc_process_set (arc_message Sample.lib) .SIGNATURE (cstr "s=foo; h") 8 =
        .ok (.SYNTAX, link_set (arc_message Sample.lib) (mark_bad kv0)) ∧
      (mark_bad kv0).set_bad = true ∧
      arc_param_get kv0 (cstr "s") = .ok (some (cstr "foo")) ∧
      arc_param_get (mark_bad kv0) (cstr "s") = .ok (some (cstr "foo")) := by
  obtain ⟨kv0, hs, hm, hb, _, _, hget, _⟩ :=
    C16_rejected_set_keeps_values (arc_message Sample.lib) .SIGNATURE (cstr "s=foo; h") 8
      .SYNTAX (link_set (arc_message Sample.lib)
        (mark_bad (Sample.scan_state .SIGNATURE (cstr "s=foo; h")).kv)) rfl (by decide)
  have hkv := link_set_inj _ _ _ hm
  have hfoo : arc_param_get (mark_bad kv0) (cstr "s") = .ok (some (cstr "foo")) := by
    rw [← hkv]
    decide
  refine ⟨kv0, hs, ?_, hb, ?_, hfoo⟩
  · rw [← hkv]
    rfl
  · rw [← hget]
    exact hfoo

/-- C17 (the code departs from it): the bytes after the first `:` are never
looked at, since the test the source applies to them holds of no byte.  For
every message in state INIT or HEADER and every header line whose bytes before
the first `:` are printable ASCII without `;`, `arc_header_field` returns OK
and appends the header, whatever bytes follow the colon. -/
theorem C17_body_bytes_unchecked (msg : ARC_MESSAGE) (pre post : List Nat)
    (hstate : msg.arc_state ≤ ARC_STATE_HEADER) (hname : NameBytes pre) (hsemi : 59 ∉ pre) :
    (∀ b, body_byte_rejected b = false) ∧
      ∃ h, arc_header_field msg (pre ++ 58 :: post) =
        .ok (.OK, { msg with arc_state := ARC_STATE_HEADER, arc_hhead := msg.arc_hhead ++ [h],
                             arc_hdrcnt := msg.arc_hdrcnt + 1 }) := by
  refine ⟨body_byte_rejected_false, ?_⟩
  have hloop := rfc5322_loop_name post pre 0 hname
  rw [Nat.zero_add] at hloop
  rw [arc_header_field_colon msg _ pre.length (by simp) hstate hloop]
  have hs : semicolon_in_name (pre ++ 58 :: post) pre.length = false := by
    unfold semicolon_in_name
    rcases hm : memchr 59 (pre ++ 58 :: post) with _ | s
    · rfl
    · have := memchr_not_mem 59 (58 :: post) pre hsemi s hm
      have hlt : ¬ s < pre.length := by omega
      simp [hlt]
  rw [hs]
  exact ⟨_, rfl⟩

/-- C17, at the header line `Subject:` followed by the bytes 0x01, 0x7F and
0x80, on a fresh message. -/
theorem C17_body_bytes_unchecked_witness :
    (∀ b, body_byte_rejected b = false) ∧
      ∃ h, arc_header_field (arc_message Sample.lib) (cstr "Subject" ++ 58 :: [1, 127, 128]) =
        .ok (.OK, { arc_message Sample.lib with
                      arc_state := ARC_STATE_HEADER,
                      arc_hhead := (arc_message Sample.lib).arc_hhead ++ [h],
                      arc_hdrcnt := (arc_message Sample.lib).arc_hdrcnt + 1 }) :=
  C17_body_bytes_unchecked (arc_message Sample.lib) (cstr "Subject") [1, 127, 128]
    (by decide) (by unfold NameBytes; decide) (by decide)

/-- C18: for every message in state INIT or HEADER and every non-empty header
line that has no `:`, or has before its first `:` a byte that is not printable
ASCII or space, or has a `;` before its first `:`, `arc_header_field` returns
SYNTAX; the message is left with state HEADER and with its header list and
header count (and everything else) unchanged. -/
theorem C18_malformed_name_rejected (msg : ARC_MESSAGE) (hdr : List Nat) (hne : hdr ≠ [])
    (hstate : msg.arc_state ≤ ARC_STATE_HEADER)
    (hbad : 58 ∉ hdr ∨ ∃ pre post, hdr = pre ++ 58 :: post ∧ 58 ∉ pre ∧
      ((∃ b ∈ pre, isprint b = false) ∨ 59 ∈ pre)) :
    arc_header_field msg hdr = .ok (.SYNTAX, { msg with arc_state := ARC_STATE_HEADER }) := by
  have h1 : ¬ hdr.length = 0 := fun h => hne (List.length_eq_zero.mp h)
  have h2 : ¬ msg.arc_state > ARC_STATE_HEADER := by omega
  rcases hbad with hno | ⟨pre, post, rfl, h58, hb | hsemi⟩
  · rcases rfc5322_loop_no_colon hdr 0 hno with h | h
    · simp only [arc_header_field, h1, h2, if_false, h]
    · simp only [arc_header_field, h1, h2, if_false, h]
  · have h := rfc5322_loop_bad_name post pre 0 h58 hb
    simp only [arc_header_field, h1, h2, if_false, h]
  · rcases rfc5322_loop_first_colon post pre 0 h58 with h | h
    · simp only [arc_header_field, h1, h2, if_false, h]
    · rw [Nat.zero_add] at h
      rw [arc_header_field_colon msg _ pre.length hne hstate h]
      obtain ⟨s, hs, hlt⟩ := memchr_mem 59 (58 :: post) pre hsemi
      have hsn : semicolon_in_name (pre ++ 58 :: post) pre.length = true := by
        unfold semicolon_in_name
        rw [hs]
        simp [hlt]
      rw [hsn]
      rfl

/-- C18, at the header line `Sub;ject: hi` on a fresh message. -/
theorem C18_malformed_name_rejected_witness :
    arc_header_field (arc_message Sample.lib) (cstr "Sub;ject: hi") =
      .ok (.SYNTAX, { arc_message Sample.lib with arc_state := ARC_STATE_HEADER }) :=
  C18_malformed_name_rejected (arc_message Sample.lib) (cstr "Sub;ject: hi") (by decide)
    (by decide)
    (Or.inr ⟨cstr "Sub;ject", cstr " hi", by decide, by decide, Or.inr (by decide)⟩)

/-- C19: for every header line that `arc_header_field` accepts, with FIXCRLF
set or clear, the line has a first `:` after some bytes `pre`, the stored text
starts with `pre` and that colon, `arc_hdr_name` returns the stored text with
a length such that so many bytes of it are `pre` without the white space
directly before the colon, and `arc_hdr_value` returns the stored bytes that
follow that colon. -/
theorem C19_name_and_value (msg : ARC_MESSAGE) (hdr : List Nat) (m : ARC_MESSAGE)
    (h : arc_header_field msg hdr = .ok (.OK, m)) :
    ∃ hf pre post body, m.arc_hhead = msg.arc_hhead ++ [hf] ∧
      hdr = pre ++ 58 :: post ∧ 58 ∉ pre ∧
      hf.hdr_text = pre ++ 58 :: body ∧
      (arc_hdr_name hf).1 = hf.hdr_text ∧
      (arc_hdr_name hf).1.take (arc_hdr_name hf).2 = strip_trailing_space pre ∧
      arc_hdr_value hf = some body := by
  obtain ⟨pre, post, hh, hn, hm⟩ := arc_header_field_accepted msg hdr m h
  have h58 : 58 ∉ pre := fun hx => (hn 58 hx).2.2 rfl
  obtain ⟨he1, he2⟩ := name_end_strip pre (58 :: post) hn
  subst hh
  have hlen := (strip_trailing_space_initial pre).length_le
  by_cases hf : fixcrlf_set msg = true
  · have htext : (header_record { msg with arc_state := ARC_STATE_HEADER } (pre ++ 58 :: post)
        pre.length (name_end (pre ++ 58 :: post) pre.length)).hdr_text =
        pre ++ 58 :: fixcrlf_loop 58 post := by
      show (if fixcrlf_set msg = true then _ else _) = _
      rw [if_pos hf]
      simp only [arc_strndup, List.take_length]
      exact fixcrlf_loop_name post pre 0 hn (by decide)
    refine ⟨_, pre, post, fixcrlf_loop 58 post, by rw [hm]; rfl, rfl, h58, htext, rfl, ?_, ?_⟩
    · show List.take (name_end (pre ++ 58 :: post) pre.length)
        (header_record { msg with arc_state := ARC_STATE_HEADER } (pre ++ 58 :: post)
          pre.length (name_end (pre ++ 58 :: post) pre.length)).hdr_text = _
      rw [htext, ← he2, he1, List.take_append_of_le_length hlen,
        List.take_append_of_le_length hlen]
    · show Option.map _ (some pre.length) = _
      simp only [Option.map_some']
      rw [htext]
      simp
  · have htext : (header_record { msg with arc_state := ARC_STATE_HEADER } (pre ++ 58 :: post)
        pre.length (name_end (pre ++ 58 :: post) pre.length)).hdr_text = pre ++ 58 :: post := by
      show (if fixcrlf_set msg = true then _ else _) = _
      rw [if_neg hf]
      simp only [arc_strndup, List.take_length]
    refine ⟨_, pre, post, post, by rw [hm]; rfl, rfl, h58, htext, rfl, ?_, ?_⟩
    · show List.take (name_end (pre ++ 58 :: post) pre.length)
        (header_record { msg with arc_state := ARC_STATE_HEADER } (pre ++ 58 :: post)
          pre.length (name_end (pre ++ 58 :: post) pre.length)).hdr_text = _
      rw [htext]
      exact he2
    · show Option.map _ (some pre.length) = _
      simp only [Option.map_some']
      rw [htext]
      simp

/-- C19, at the line `Subject  : hi` fed to a fresh message. -/
theorem C19_name_and_value_witness :
    ∃ hf pre post body,
      (Sample.fed (arc_message Sample.lib) Sample.spaced_subject).arc_hhead =
          (arc_message Sample.lib).arc_hhead ++ [hf] ∧
        Sample.spaced_subject = pre ++ 58 :: post ∧ 58 ∉ pre ∧
        hf.hdr_text = pre ++ 58 :: body ∧
        (arc_hdr_name hf).1 = hf.hdr_text ∧
        (arc_hdr_name hf).1.take (arc_hdr_name hf).2 = strip_trailing_space pre ∧
        arc_hdr_value hf = some body :=
  C19_name_and_value (arc_message Sample.lib) Sample.spaced_subject
    (Sample.fed (arc_message Sample.lib) Sample.spaced_subject) rfl

/-- C20: for every accepted header line without NUL bytes, when FIXCRLF is
set the stored text is the input with every LF not preceded by CR and every
CR not followed by LF replaced by CR LF, in it every CR is immediately
followed by LF and every LF immediately preceded by CR, and an input that has
this form already is stored unchanged; when FIXCRLF is clear the stored text
is the input, byte for byte. -/
theorem C20_stored_text (msg : ARC_MESSAGE) (hdr : List Nat) (m : ARC_MESSAGE)
    (hnul : 0 ∉ hdr) (h : arc_header_field msg hdr = .ok (.OK, m)) :
    ∃ hf, m.arc_hhead = msg.arc_hhead ++ [hf] ∧
      (fixcrlf_set msg = true →
        hf.hdr_text = crlf_normal 0 hdr ∧ CanonicalCRLF hf.hdr_text ∧
          (CanonicalCRLF hdr → hf.hdr_text = hdr)) ∧
      (fixcrlf_set msg = false → hf.hdr_text = hdr) := by
  obtain ⟨pre, post, _, _, hm⟩ := arc_header_field_accepted msg hdr m h
  refine ⟨_, by rw [hm]; rfl, ?_, ?_⟩
  · intro hf
    have htext : (header_record { msg with arc_state := ARC_STATE_HEADER } hdr pre.length
        (name_end hdr pre.length)).hdr_text = crlf_normal 0 hdr := by
      show (if fixcrlf_set msg = true then _ else _) = _
      rw [if_pos hf]
      simp only [arc_strndup, List.take_length]
      rw [fixcrlf_loop_eq hdr 0 hnul, if_neg (by simp)]
      rfl
    refine ⟨htext, ?_, ?_⟩
    · rw [htext, canonicalCRLF_iff]
      have := crlf_normal_canonicalAfter hdr 0
      rwa [if_neg (by simp)] at this
    · intro hc
      rw [htext]
      exact crlf_normal_of_canonicalAfter hdr 0 ((canonicalCRLF_iff hdr).mp hc)
  · intro hf
    show (if fixcrlf_set msg = true then _ else _) = _
    rw [if_neg (by simp [hf])]
    simp only [arc_strndup, List.take_length]

/-- C20, at the line `Subject: a\n b\r c` fed to a fresh message of a library
with FIXCRLF set. -/
theorem C20_stored_text_witness :
    0 ∉ Sample.bare_breaks ∧
      ∃ hf, (Sample.fed (arc_message Sample.lib_fixcrlf) Sample.bare_breaks).arc_hhead =
          (arc_message Sample.lib_fixcrlf).arc_hhead ++ [hf] ∧
        (fixcrlf_set (arc_message Sample.lib_fixcrlf) = true →
          hf.hdr_text = crlf_normal 0 Sample.bare_breaks ∧ CanonicalCRLF hf.hdr_text ∧
            (CanonicalCRLF Sample.bare_breaks → hf.hdr_text = Sample.bare_breaks)) ∧
        (fixcrlf_set (arc_message Sample.lib_fixcrlf) = false →
          hf.hdr_text = Sample.bare_breaks) :=
  ⟨by decide, C20_stored_text (arc_message Sample.lib_fixcrlf) Sample.bare_breaks
    (Sample.fed (arc_message Sample.lib_fixcrlf) Sample.bare_breaks) (by decide) rfl⟩

/-- C21: `arc_header_field` in a state after HEADER and `arc_body` in a state
other than EOH or BODY return INVALID and leave the message as it is;
`arc_body` in state EOH or BODY passes its state test, sets the state to BODY
and returns what the canonicalizer returns on that message, so that with a
canonicalizer that leaves the state alone the state afterwards is BODY, and
the status is INVALID only if the canonicalizer says so. -/
theorem C21_out_of_order_rejected
    (arc_canon_bodychunk : ARC_MESSAGE → List Nat → Nat → ARC_STAT × ARC_MESSAGE)
    (msg : ARC_MESSAGE) :
    (∀ hdr, hdr ≠ [] → msg.arc_state > ARC_STATE_HEADER →
        arc_header_field msg hdr = .ok (.INVALID, msg)) ∧
      (∀ buf len, msg.arc_state < ARC_STATE_EOH ∨ msg.arc_state > ARC_STATE_BODY →
        arc_body arc_canon_bodychunk msg buf len = (.INVALID, msg)) ∧
      (∀ buf len, msg.arc_state = ARC_STATE_EOH ∨ msg.arc_state = ARC_STATE_BODY →
        arc_body arc_canon_bodychunk msg buf len =
            arc_canon_bodychunk { msg with arc_state := ARC_STATE_BODY } buf len ∧
          ((∀ m b l, (arc_canon_bodychunk m b l).2.arc_state = m.arc_state) →
            (arc_body arc_canon_bodychunk msg buf len).2.arc_state = ARC_STATE_BODY) ∧
          ((∀ m b l, (arc_canon_bodychunk m b l).1 ≠ .INVALID) →
            (arc_body arc_canon_bodychunk msg buf len).1 ≠ .INVALID)) := by
  refine ⟨?_, ?_, ?_⟩
  · intro hdr hne hst
    unfold arc_header_field
    rw [if_neg (by simpa using hne), if_pos hst]
  · intro buf len hst
    unfold arc_body
    rw [if_pos (by omega)]
  · intro buf len hst
    have hpass : ¬ (msg.arc_state > ARC_STATE_BODY ∨ msg.arc_state < ARC_STATE_EOH) := by
      unfold ARC_STATE_EOH ARC_STATE_BODY at *
      omega
    have heq : arc_body arc_canon_bodychunk msg buf len =
        arc_canon_bodychunk { msg with arc_state := ARC_STATE_BODY } buf len := by
      unfold arc_body
      rw [if_neg hpass]
    refine ⟨heq, ?_, ?_⟩
    · intro hc
      rw [heq, hc]
    · intro hc
      rw [heq]
      exact hc _ _ _

/-- C21, at a header line fed in state EOM, a chunk fed in state INIT and a
chunk fed in state EOH. -/
theorem C21_out_of_order_rejected_witness :
    arc_header_field (Sample.in_state ARC_STATE_EOM) (cstr "Subject: hi") =
        .ok (.INVALID, Sample.in_state ARC_STATE_EOM) ∧
      arc_body Sample.canon (Sample.in_state ARC_STATE_INIT) (cstr "x") 1 =
        (.INVALID, Sample.in_state ARC_STATE_INIT) ∧
      (arc_body Sample.canon (Sample.in_state ARC_STATE_EOH) (cstr "x") 1).2.arc_state =
        ARC_STATE_BODY :=
  ⟨(C21_out_of_order_rejected Sample.canon (Sample.in_state ARC_STATE_EOM)).1
      (cstr "Subject: hi") (by decide) (by decide),
    (C21_out_of_order_rejected Sample.canon (Sample.in_state ARC_STATE_INIT)).2.1
      (cstr "x") 1 (Or.inl (by decide)),
    ((C21_out_of_order_rejected Sample.canon (Sample.in_state ARC_STATE_EOH)).2.2
      (cstr "x") 1 (Or.inl rfl)).2.1 (fun _ _ _ => rfl)⟩

/-- C22 (the code departs from it): `arc_eoh` and `arc_eom` make no test of
the state.  Whatever the state of the message, `arc_eoh` does not return
INVALID, and `arc_eom` on chain length 0 returns OK; and on the message fed
the header `ARC-Message-Signature: s=foo; h` a first `arc_eoh` returns SYNTAX
and links a tag-set, and a second `arc_eoh` returns SYNTAX again and links one
more. -/
theorem C22_end_calls_not_sequenced (g : Nat → Nat → Nat) (n0 : Nat) (msg : ARC_MESSAGE)
    (arc_validate : ARC_MESSAGE → Nat → ARC_STAT) (fuel : Nat) :
    (∀ m, arc_eoh g n0 msg ≠ .ok (.INVALID, m)) ∧
      (msg.arc_nsets = 0 → arc_eom arc_validate fuel msg = .ok (.OK, .NONE)) ∧
      ∃ kv, arc_eoh g n0 Sample.broken_signature =
            .ok (.SYNTAX, link_set Sample.broken_signature kv) ∧
          arc_eoh g n0 (link_set Sample.broken_signature kv) =
            .ok (.SYNTAX, link_set (link_set Sample.broken_signature kv) kv) := by
  refine ⟨?_, ?_, ?_⟩
  · intro m h
    rcases (arc_eoh_state g n0 msg _ m h).1 with hc | hc | hc <;> cases hc
  · intro h0
    unfold arc_eom
    rw [if_pos h0]
  · exact ⟨_, rfl, rfl⟩

/-- C22, at a fresh message: `arc_eom` before any other call returns OK. -/
theorem C22_end_calls_not_sequenced_witness :
    arc_eom (fun _ _ => .OK) 4 (arc_message Sample.lib) = .ok (.OK, .NONE) :=
  (C22_end_calls_not_sequenced (fun _ _ => 0) 0 (arc_message Sample.lib) (fun _ _ => .OK) 4).2.1
    rfl

/-- C23 (the code departs from it): `arc_eoh` leaves the state of the message
as it found it.  After an `arc_eoh` called in state INIT or HEADER, with
whatever status, the state is still INIT or HEADER and not EOH, `arc_body`
returns INVALID and changes nothing, and `arc_header_field` does not return
INVALID. -/
theorem C23_state_never_advances (g : Nat → Nat → Nat) (n0 : Nat) (msg : ARC_MESSAGE)
    (status : ARC_STAT) (m : ARC_MESSAGE)
    (arc_canon_bodychunk : ARC_MESSAGE → List Nat → Nat → ARC_STAT × ARC_MESSAGE)
    (h : arc_eoh g n0 msg = .ok (status, m)) (hst : msg.arc_state ≤ ARC_STATE_HEADER) :
    m.arc_state = msg.arc_state ∧ m.arc_state ≠ ARC_STATE_EOH ∧
      (∀ buf len, arc_body arc_canon_bodychunk m buf len = (.INVALID, m)) ∧
      (∀ hdr m1, arc_header_field m hdr ≠ .ok (.INVALID, m1)) := by
  have hm := (arc_eoh_state g n0 msg status m h).2
  have hle : m.arc_state ≤ ARC_STATE_HEADER := by rw [hm]; exact hst
  refine ⟨hm, ?_, ?_, ?_⟩
  · unfold ARC_STATE_HEADER at hle
    unfold ARC_STATE_EOH
    omega
  · intro buf len
    unfold arc_body
    rw [if_pos]
    right
    unfold ARC_STATE_HEADER at hle
    unfold ARC_STATE_EOH
    omega
  · intro hdr m1
    exact arc_header_field_in_order m hdr m1 hle

/-- C23, at the message holding the one header `Subject: hi`, in a run where
the unassigned local of `arc_eoh` holds 0: `arc_eoh` returns OK, and the
`arc_body` that follows returns INVALID. -/
theorem C23_state_never_advances_witness :
    Sample.subject_only.arc_state = Sample.subject_only.arc_state ∧
      Sample.subject_only.arc_state ≠ ARC_STATE_EOH ∧
      (∀ buf len, arc_body Sample.canon Sample.subject_only buf len =
        (.INVALID, Sample.subject_only)) ∧
      (∀ hdr m1, arc_header_field Sample.subject_only hdr ≠ .ok (.INVALID, m1)) :=
  C23_state_never_advances (fun _ _ => 0) 0 Sample.subject_only .OK Sample.subject_only
    Sample.canon rfl (by decide)

/-- C24: for every flag word `w`, setting FLAGS from the four bytes of `w`
returns OK and stores `w`, and getting FLAGS afterwards returns OK and writes
the four bytes of `w`; on FLAGS a `NULL` value, or a size other than that of
the flag word, returns INVALID and leaves the library as it is. -/
theorem C24_flags_round_trip (deftmpdir : CStr) (tmpdirsz : Nat) (lib : ARC_LIB) (w : Nat)
    (buf : List Nat) (hw : w < 2 ^ 32) (hbuf : sizeof_arcl_flags ≤ buf.length) :
    arc_options deftmpdir tmpdirsz lib ARC_OP_SETOPT ARC_OPTS_FLAGS
        (some (word_bytes sizeof_arcl_flags w)) sizeof_arcl_flags =
        .ok (.OK, { lib with arcl_flags := w }, some (word_bytes sizeof_arcl_flags w)) ∧
      arc_options deftmpdir tmpdirsz { lib with arcl_flags := w } ARC_OP_GETOPT ARC_OPTS_FLAGS
        (some buf) sizeof_arcl_flags =
        .ok (.OK, { lib with arcl_flags := w },
          some (word_bytes sizeof_arcl_flags w ++ buf.drop sizeof_arcl_flags)) ∧
      bytes_word (word_bytes sizeof_arcl_flags w) = w ∧
      (∀ op valsz, op = ARC_OP_GETOPT ∨ op = ARC_OP_SETOPT →
        arc_options deftmpdir tmpdirsz lib op ARC_OPTS_FLAGS none valsz =
          .ok (.INVALID, lib, none)) ∧
      (∀ op v valsz, op = ARC_OP_GETOPT ∨ op = ARC_OP_SETOPT → valsz ≠ sizeof_arcl_flags →
        arc_options deftmpdir tmpdirsz lib op ARC_OPTS_FLAGS (some v) valsz =
          .ok (.INVALID, lib, some v)) := by
  have hrt : bytes_word (word_bytes sizeof_arcl_flags w) = w :=
    bytes_word_word_bytes sizeof_arcl_flags w (by unfold sizeof_arcl_flags; omega)
  have hlen : (word_bytes sizeof_arcl_flags w).length = sizeof_arcl_flags :=
    word_bytes_length _ _
  refine ⟨?_, ?_, hrt, ?_, ?_⟩
  · unfold arc_options
    rw [if_neg (fun hc => hc (Or.inr rfl)), if_pos rfl]
    dsimp only
    rw [if_neg (fun hc => hc rfl), if_neg (by omega), if_neg (by decide)]
    rw [List.take_of_length_le (by omega), hrt]
  · unfold arc_options
    rw [if_neg (fun hc => hc (Or.inl rfl)), if_pos rfl]
    dsimp only
    rw [if_neg (fun hc => hc rfl), if_neg (by omega), if_pos rfl]
  · intro op valsz hop
    unfold arc_options
    rw [if_neg (fun hc => hc hop), if_pos rfl]
  · intro op v valsz hop hsz
    unfold arc_options
    rw [if_neg (fun hc => hc hop), if_pos rfl]
    dsimp only
    rw [if_pos hsz]

/-- C24, at the flag word `0xDEADBEEF`, read back into a buffer of four
bytes. -/
theorem C24_flags_round_trip_witness :
    arc_options (cstr "/tmp") 1025 Sample.lib ARC_OP_SETOPT ARC_OPTS_FLAGS
        (some (word_bytes sizeof_arcl_flags 3735928559)) sizeof_arcl_flags =
        .ok (.OK, { Sample.lib with arcl_flags := 3735928559 },
          some (word_bytes sizeof_arcl_flags 3735928559)) ∧
      arc_options (cstr "/tmp") 1025 { Sample.lib with arcl_flags := 3735928559 } ARC_OP_GETOPT
        ARC_OPTS_FLAGS (some [0, 0, 0, 0]) sizeof_arcl_flags =
        .ok (.OK, { Sample.lib with arcl_flags := 3735928559 },
          some (word_bytes sizeof_arcl_flags 3735928559 ++ [0, 0, 0, 0].drop sizeof_arcl_flags)) ∧
      bytes_word (word_bytes sizeof_arcl_flags 3735928559) = 3735928559 ∧
      (∀ op valsz, op = ARC_OP_GETOPT ∨ op = ARC_OP_SETOPT →
        arc_options (cstr "/tmp") 1025 Sample.lib op ARC_OPTS_FLAGS none valsz =
          .ok (.INVALID, Sample.lib, none)) ∧
      (∀ op v valsz, op = ARC_OP_GETOPT ∨ op = ARC_OP_SETOPT → valsz ≠ sizeof_arcl_flags →
        arc_options (cstr "/tmp") 1025 Sample.lib op ARC_OPTS_FLAGS (some v) valsz =
          .ok (.INVALID, Sample.lib, some v)) :=
  C24_flags_round_trip (cstr "/tmp") 1025 Sample.lib 3735928559 [0, 0, 0, 0] (by decide)
    (by decide)

/-- C25 (the code departs from it): the length `arc_header_field` records is
that of the line as it came, not that of the stored text.  For every accepted
line without NUL that has a bare LF or a bare CR, fed with FIXCRLF set, the
length recorded is smaller than the length of the stored text; the length
`arc_eoh` passes to the parser is the number of bytes of the line after its
colon plus the number of white-space bytes between name and colon; and when
no white space precedes the colon the parser is handed fewer bytes than are
stored after the colon. -/
theorem C25_recorded_length_is_of_input (msg : ARC_MESSAGE) (hdr : List Nat) (m : ARC_MESSAGE)
    (hnul : 0 ∉ hdr) (hfix : fixcrlf_set msg = true) (hbare : ¬ CanonicalCRLF hdr)
    (h : arc_header_field msg hdr = .ok (.OK, m)) :
    ∃ hf colon, m.arc_hhead = msg.arc_hhead ++ [hf] ∧ hf.hdr_colon = some colon ∧
      hf.hdr_textlen = hdr.length ∧ hf.hdr_textlen < hf.hdr_text.length ∧
      hf.hdr_textlen - hf.hdr_namelen - 1 =
        (hdr.length - (colon + 1)) + (colon - hf.hdr_namelen) ∧
      (hf.hdr_namelen = colon →
        (hcopy_of (hf.hdr_text.drop (colon + 1)) (hf.hdr_textlen - hf.hdr_namelen - 1)).length <
          (hf.hdr_text.drop (colon + 1)).length) := by
  obtain ⟨hf, colon, hm, hc, hlt, hle, hlen, htext⟩ :=
    arc_header_field_fixcrlf msg hdr m hnul hfix h
  have hlonger : hdr.length < hf.hdr_text.length := by
    rw [htext]
    rcases Nat.lt_or_ge hdr.length (crlf_normal 0 hdr).length with hl | hl
    · exact hl
    · exfalso
      apply hbare
      have heq := crlf_normal_eq_of_length hdr 0
        (Nat.le_antisymm hl (crlf_normal_length hdr 0))
      have hcan := crlf_normal_canonicalAfter hdr 0
      rw [if_neg (by simp), heq] at hcan
      exact (canonicalCRLF_iff hdr).mpr hcan
  refine ⟨hf, colon, hm, hc, hlen, by rw [hlen]; exact hlonger, by omega, ?_⟩
  intro hn
  have h1 := hcopy_of_length (hf.hdr_text.drop (colon + 1)) (hf.hdr_textlen - hf.hdr_namelen - 1)
  rw [List.length_drop]
  omega

/-- C25, at the header `ARC-Message-Signature: s=foo;\n h=xy` fed with
FIXCRLF set; there `arc_eoh` has a set parsed in which `h` is `x`, not `xy`. -/
theorem C25_recorded_length_is_of_input_witness :
    (∃ hf colon,
      (Sample.fed (arc_message Sample.lib_fixcrlf) Sample.folded_signature).arc_hhead =
          (arc_message Sample.lib_fixcrlf).arc_hhead ++ [hf] ∧
        hf.hdr_colon = some colon ∧
        hf.hdr_textlen = Sample.folded_signature.length ∧
        hf.hdr_textlen < hf.hdr_text.length ∧
        hf.hdr_textlen - hf.hdr_namelen - 1 =
          (Sample.folded_signature.length - (colon + 1)) + (colon - hf.hdr_namelen) ∧
        (hf.hdr_namelen = colon →
          (hcopy_of (hf.hdr_text.drop (colon + 1))
              (hf.hdr_textlen - hf.hdr_namelen - 1)).length <
            (hf.hdr_text.drop (colon + 1)).length)) ∧
      ∀ g n0, ∃ kv,
        arc_eoh g n0 (Sample.fed (arc_message Sample.lib_fixcrlf) Sample.folded_signature) =
          .ok (.SYNTAX,
            link_set (Sample.fed (arc_message Sample.lib_fixcrlf) Sample.folded_signature) kv) ∧
        arc_param_get kv (cstr "h") = .ok (some (cstr "x")) :=
  ⟨C25_recorded_length_is_of_input (arc_message Sample.lib_fixcrlf) Sample.folded_signature
      (Sample.fed (arc_message Sample.lib_fixcrlf) Sample.folded_signature) (by decide) rfl
      (fun hc => by
        obtain ⟨j, hj, h13⟩ := hc.2 29 rfl
        cases Nat.succ.inj hj
        exact absurd h13 (by decide)) rfl,
    fun _ _ => ⟨_, rfl, by decide⟩⟩

end OpenARC
